import Mathlib

/-!
InfiniTAM non-rigid fusion core: embedding and verified properties.

Shallow embedding of the scene statistics (ITMSceneStatisticsCalculator.tpp), the
Sobolev gradient smoothing (ITMSceneMotionTracker_CPU_VoxelBlockHash.tpp) and the
warp update / fusion loops (ITMSceneMotionTracker_CPU.tpp).

Conventions.
* C++ float and double values are embedded as exact rationals; rounding is not modelled.
  The functions that compare floats or cast them to int are embedded a second time for
  floats that may be NaN (FloatValue and the definitions with the suffix F), with the
  rounding of a float operation as an explicit function where the bin index depends on it.
* C++ int values are embedded as unbounded integers (signed overflow is undefined in C++).
* The block edge length SDF_BLOCK_SIZE is a preprocessor constant that the sources use
  but do not define; every definition takes it as the parameter S (SDF_BLOCK_SIZE3 = S*S*S).
-/

namespace ITMLib

/-! ## Vectors and matrices -/

/-- Integer 3-vector (Vector3i; also used for the short block coordinate after toInt). -/
@[ext] structure Vector3i where
  x : Int
  y : Int
  z : Int
deriving DecidableEq, Repr

/-- Rational 3-vector standing for Vector3f. -/
@[ext] structure Vector3f where
  x : ℚ
  y : ℚ
  z : ℚ
deriving DecidableEq, Repr

namespace Vector3i

/-- Component-wise sum of integer vectors. -/
def add (a b : Vector3i) : Vector3i := ⟨a.x + b.x, a.y + b.y, a.z + b.z⟩

/-- Integer vector times an integer scalar. -/
def scale (a : Vector3i) (k : Int) : Vector3i := ⟨a.x * k, a.y * k, a.z * k⟩

/-- Conversion toFloat of an integer vector. -/
def toFloat (a : Vector3i) : Vector3f := ⟨a.x, a.y, a.z⟩

/-- Read of component index 0, 1 or 2 (operator[]). -/
def get (a : Vector3i) (i : Nat) : Int :=
  match i with
  | 0 => a.x
  | 1 => a.y
  | _ => a.z

/-- Write of component index 0, 1 or 2 (operator[] as an lvalue). -/
def set (a : Vector3i) (i : Nat) (v : Int) : Vector3i :=
  match i with
  | 0 => { a with x := v }
  | 1 => { a with y := v }
  | _ => { a with z := v }

end Vector3i

namespace Vector3f

/-- The vector Vector3f(0.0f). -/
def zero : Vector3f := ⟨0, 0, 0⟩

/-- Component-wise sum. -/
def add (a b : Vector3f) : Vector3f := ⟨a.x + b.x, a.y + b.y, a.z + b.z⟩

/-- Component-wise difference. -/
def sub (a b : Vector3f) : Vector3f := ⟨a.x - b.x, a.y - b.y, a.z - b.z⟩

/-- Scalar times vector (and vector times scalar). -/
def smul (k : ℚ) (a : Vector3f) : Vector3f := ⟨k * a.x, k * a.y, k * a.z⟩

/-- Vector divided by a scalar. -/
def sdiv (a : Vector3f) (k : ℚ) : Vector3f := ⟨a.x / k, a.y / k, a.z / k⟩

/-- Dot product. -/
def dot (a b : Vector3f) : ℚ := a.x * b.x + a.y * b.y + a.z * b.z

end Vector3f

/-! ## Sobolev gradient smoothing (ITMSceneMotionTracker_CPU_VoxelBlockHash.tpp) -/

/-- The enum TraversalDirection, X = 0, Y = 1, Z = 2. -/
inductive TraversalDirection where
  | X
  | Y
  | Z
deriving DecidableEq, Repr

/-- The cast of TraversalDirection to int. -/
def TraversalDirection.toIndex : TraversalDirection → Nat
  | .X => 0
  | .Y => 1
  | .Z => 2

/-- The constant sobolevFilterSize. -/
def sobolevFilterSize : Nat := 7

/-- The table sobolevFilter1D, each entry the exact decimal literal of the source. -/
def sobolevFilter1D : List ℚ :=
  [ 2995861099047703036 / 10 ^ 22,
    4410932423926419363 / 10 ^ 21,
    6571314272194948847 / 10 ^ 20,
    9956527876693953560 / 10 ^ 19,
    6571314272194946071 / 10 ^ 20,
    4410932423926422832 / 10 ^ 21,
    2995861099045313996 / 10 ^ 22 ]

/-- Sum of the coefficients of sobolevFilter1D. -/
def sobolevFilterSum : ℚ := sobolevFilter1D.sum

/-- The fields of a canonical voxel that the gradient smoothing reads and writes. -/
structure GradientVoxel where
  warp : Vector3f
  gradient0 : Vector3f
  gradient1 : Vector3f
deriving DecidableEq, Repr

/-- GradientSmoothingPassFunctor::GetGradient: X and Z read gradient0, Y reads gradient1. -/
def GetGradient (dir : TraversalDirection) (voxel : GradientVoxel) : Vector3f :=
  match dir with
  | .X => voxel.gradient0
  | .Y => voxel.gradient1
  | .Z => voxel.gradient0

/-- GradientSmoothingPassFunctor::SetGradient: X and Z write gradient1, Y writes gradient0. -/
def SetGradient (dir : TraversalDirection) (voxel : GradientVoxel) (gradient : Vector3f) :
    GradientVoxel :=
  match dir with
  | .X => { voxel with gradient1 := gradient }
  | .Y => { voxel with gradient0 := gradient }
  | .Z => { voxel with gradient1 := gradient }

/-- One iteration of the loop of GradientSmoothingPassFunctor::operator(): the state is
(receptiveVoxelPosition, smoothedGradient); the voxel at the receptive position is read,
its gradient is accumulated with weight sobolevFilter1D[iVoxel], and the position is
advanced by one along the pass axis.  The helper readVoxel is not among the sources and
is the parameter of the same name (position to voxel). -/
def smoothingStep (dir : TraversalDirection) (readVoxel : Vector3i → GradientVoxel)
    (st : Vector3i × Vector3f) (iVoxel : Nat) : Vector3i × Vector3f :=
  let receptiveVoxel := readVoxel st.1
  let smoothedGradient :=
    st.2.add (Vector3f.smul (sobolevFilter1D.getD iVoxel 0) (GetGradient dir receptiveVoxel))
  (st.1.set dir.toIndex (st.1.get dir.toIndex + 1), smoothedGradient)

/-- The value smoothedGradient at the end of the loop of
GradientSmoothingPassFunctor::operator() for the voxel at position. -/
def smoothedGradientAt (dir : TraversalDirection) (readVoxel : Vector3i → GradientVoxel)
    (position : Vector3i) : Vector3f :=
  let start : Vector3i :=
    position.set dir.toIndex (position.get dir.toIndex - (sobolevFilterSize / 2 : Nat))
  ((List.range sobolevFilterSize).foldl (smoothingStep dir readVoxel)
    (start, Vector3f.zero)).2

/-- GradientSmoothingPassFunctor::operator(): the voxel after the pass visited it. -/
def smoothingPass (dir : TraversalDirection) (readVoxel : Vector3i → GradientVoxel)
    (voxel : GradientVoxel) (position : Vector3i) : GradientVoxel :=
  SetGradient dir voxel (smoothedGradientAt dir readVoxel position)

/-- The position read at loop index i by the pass along dir at position. -/
def receptivePosition (dir : TraversalDirection) (position : Vector3i) (i : Nat) : Vector3i :=
  position.set dir.toIndex (position.get dir.toIndex - 3 + i)

/-! ## Scene layout: hash entries and block traversal -/

/-- A hash entry: block coordinate pos (in blocks, converted with toInt) and storage
pointer ptr; ptr is negative when the slot holds no block. -/
structure ITMHashEntry where
  pos : Vector3i
  ptr : Int
deriving DecidableEq, Repr

/-- The linear index locId = x + y * SDF_BLOCK_SIZE + z * SDF_BLOCK_SIZE * SDF_BLOCK_SIZE. -/
def locId (S x y z : Nat) : Nat := x + y * S + z * S * S

/-- The local offsets (x, y, z) of a block in the order of the three nested loops
(z outermost, x innermost). -/
def blockOffsets (S : Nat) : List (Nat × Nat × Nat) :=
  (List.range S).flatMap fun z => (List.range S).flatMap fun y => (List.range S).map fun x => (x, y, z)

/-- The voxels one hash entry contributes to a traversal: nothing when ptr is negative
(the continue statement), otherwise for every local offset the voxel position
pos * SDF_BLOCK_SIZE + (x, y, z) and the index ptr * SDF_BLOCK_SIZE3 + locId into the
voxel array. -/
def entryVoxels (S : Nat) (e : ITMHashEntry) : List (Vector3i × Nat) :=
  if e.ptr < 0 then []
  else (blockOffsets S).map fun o =>
    ((e.pos.scale S).add ⟨o.1, o.2.1, o.2.2⟩, e.ptr.toNat * (S * S * S) + locId S o.1 o.2.1 o.2.2)

/-- The sequence of (position, voxel index) pairs visited by the loop over
entryId = 0 .. noTotalEntries - 1 with its three inner loops. -/
def traversal (S : Nat) (entries : List ITMHashEntry) : List (Vector3i × Nat) :=
  entries.flatMap (entryVoxels S)

/-- Well-formedness of a hash table for the traversals: two entries with ptr >= 0 never
hold the same ptr (no voxel block is bound to two entries). -/
def distinctPtrs (entries : List ITMHashEntry) : Prop :=
  entries.Pairwise fun a b => 0 ≤ a.ptr → 0 ≤ b.ptr → a.ptr ≠ b.ptr

instance (entries : List ITMHashEntry) : Decidable (distinctPtrs entries) := by
  unfold distinctPtrs
  infer_instance

/-! ## Scene statistics (ITMSceneStatisticsCalculator.tpp) -/

/-- The body of the loop of ComputeVoxelBounds for one hash entry; the state is
(minVoxelPoint, maxVoxelPoint). -/
def boundsStep (S : Nat) (st : Vector3i × Vector3i) (currentHashEntry : ITMHashEntry) :
    Vector3i × Vector3i :=
  if currentHashEntry.ptr < 0 then st
  else
    let currentHashBlockPositionVoxels := currentHashEntry.pos.scale S
    let hashBlockLimitPositionVoxels := (currentHashEntry.pos.add ⟨1, 1, 1⟩).scale S
    let minVoxelPoint := st.1
    let maxVoxelPoint := st.2
    let minVoxelPoint :=
      if minVoxelPoint.x > currentHashBlockPositionVoxels.x then
        { minVoxelPoint with x := currentHashBlockPositionVoxels.x } else minVoxelPoint
    let maxVoxelPoint :=
      if maxVoxelPoint.x < hashBlockLimitPositionVoxels.x then
        { maxVoxelPoint with x := hashBlockLimitPositionVoxels.x } else maxVoxelPoint
    let minVoxelPoint :=
      if minVoxelPoint.y > currentHashBlockPositionVoxels.y then
        { minVoxelPoint with y := currentHashBlockPositionVoxels.y } else minVoxelPoint
    let maxVoxelPoint :=
      if maxVoxelPoint.y < hashBlockLimitPositionVoxels.y then
        { maxVoxelPoint with y := hashBlockLimitPositionVoxels.y } else maxVoxelPoint
    let minVoxelPoint :=
      if minVoxelPoint.z > currentHashBlockPositionVoxels.z then
        { minVoxelPoint with z := currentHashBlockPositionVoxels.z } else minVoxelPoint
    let maxVoxelPoint :=
      if maxVoxelPoint.z < hashBlockLimitPositionVoxels.z then
        { maxVoxelPoint with z := hashBlockLimitPositionVoxels.z } else maxVoxelPoint
    (minVoxelPoint, maxVoxelPoint)

/-- ComputeVoxelBounds: both points start at Vector3i(0) and the loop runs over all hash
entries; the result is (minVoxelPoint, maxVoxelPoint). -/
def ComputeVoxelBounds (S : Nat) (entries : List ITMHashEntry) : Vector3i × Vector3i :=
  entries.foldl (boundsStep S) (⟨0, 0, 0⟩, ⟨0, 0, 0⟩)

/-- ComputeHashedVoxelCount: count starts at 0 and grows by SDF_BLOCK_SIZE3 for every
entry whose ptr is not negative. -/
def ComputeHashedVoxelCount (S : Nat) (entries : List ITMHashEntry) : Int :=
  entries.foldl (fun count currentHashEntry =>
    if currentHashEntry.ptr < 0 then count else count + ((S * S * S : Nat) : Int)) 0

/-! ## Fusion (ITMSceneMotionTracker_CPU.tpp, FuseFrame) -/

/-- A byte triple (Vector3u). -/
structure Vector3u where
  x : Nat
  y : Nat
  z : Nat
deriving DecidableEq, Repr

/-- The fields of a canonical voxel that UpdateWarpField and FuseFrame access.  The field
sdf holds the numeric value of the stored distance (a short or a float, depending on the
voxel type); w_depth and w_color are bytes. -/
structure Voxel where
  sdf : ℚ
  w_depth : Nat
  w_color : Nat
  clr : Vector3u
  confidence : ℚ
  warp_t : Vector3f
  warp_t_update : Vector3f
deriving DecidableEq, Repr

/-- The conversions TVoxel::valueToFloat and TVoxel::floatToValue of the voxel type,
which the sources call but do not define. -/
structure VoxelCodec where
  valueToFloat : ℚ → ℚ
  floatToValue : ℚ → ℚ

/-- The codec of a voxel type that stores the distance as a float: both conversions are
the identity. -/
def floatCodec : VoxelCodec := ⟨fun x => x, fun x => x⟩

/-- Rounding toward zero, the conversion of a float to an integer type. -/
def truncToInt (q : ℚ) : Int := if 0 ≤ q then ⌊q⌋ else ⌈q⌉

/-- Modelled from the spec: the voxel type declaration is not among the sources; the
"compact, normalized, truncated representation convertible to/from a float in [-1,1]" is
taken as a 16-bit fixed-point number v that stands for the distance v / 32767. -/
def shortCodec : VoxelCodec := ⟨fun x => x / 32767, fun x => truncToInt (x * 32767)⟩

/-- The cast (uchar) of a float: rounding toward zero, exact for values in 0 .. 255;
outside that range the C++ cast is undefined and the value is reduced modulo 256 here. -/
def toUchar (q : ℚ) : Nat := (truncToInt q % 256).toNat

/-- The macro MIN(a, b) = (a < b) ? a : b. -/
def MIN (a b : ℚ) : ℚ := if a < b then a else b

/-- The macro TO_FLOAT3 on a byte triple. -/
def TO_FLOAT3 (c : Vector3u) : Vector3f := ⟨c.x, c.y, c.z⟩

/-- The macro TO_UCHAR3 on a float vector. -/
def TO_UCHAR3 (v : Vector3f) : Vector3u := ⟨toUchar v.x, toUchar v.y, toUchar v.z⟩

/-- The outputs of the eight-argument interpolateTrilinearly on the live scene: the
returned distance and the out-parameters colour, weights and confidence. -/
structure LiveFusionSample where
  liveSdf : ℚ
  liveColor : Vector3f
  liveWDepth : Int
  liveWColor : Int
  liveConfidence : ℚ
deriving DecidableEq, Repr

/-- The float newSdf of FuseFrame after the division by newWDepth; oldSdf is read from
the sdf field as it is stored.  Division by zero is 0 here (the float division yields
an infinity or a NaN). -/
def fusedSdf (canonicalVoxel : Voxel) (live : LiveFusionSample) : ℚ :=
  let oldSdf : ℚ := canonicalVoxel.sdf
  let oldWDepth : Int := canonicalVoxel.w_depth
  let newSdf : ℚ := oldWDepth * oldSdf + live.liveWDepth * live.liveSdf
  let newWDepth : ℚ := ((oldWDepth + live.liveWDepth : Int) : ℚ)
  newSdf / newWDepth

/-- The float newWDepth of FuseFrame after newWDepth = MIN(newWDepth, maxW). -/
def fusedWDepth (maxW : Int) (canonicalVoxel : Voxel) (live : LiveFusionSample) : ℚ :=
  let oldWDepth : Int := canonicalVoxel.w_depth
  let newWDepth : ℚ := ((oldWDepth + live.liveWDepth : Int) : ℚ)
  MIN newWDepth maxW

/-- The vector newColor of FuseFrame after the division by newWColor. -/
def fusedColor (canonicalVoxel : Voxel) (live : LiveFusionSample) : Vector3f :=
  let oldColor := (TO_FLOAT3 canonicalVoxel.clr).sdiv 255
  let oldWColor : Int := canonicalVoxel.w_color
  let newColor := (Vector3f.smul oldWColor oldColor).add (Vector3f.smul live.liveWColor live.liveColor)
  let newWColor : ℚ := ((oldWColor + live.liveWColor : Int) : ℚ)
  newColor.sdiv newWColor

/-- The float newWColor of FuseFrame after newWColor = MIN(newWDepth, maxW), where
newWDepth is the depth weight that was clamped before. -/
def fusedWColor (maxW : Int) (canonicalVoxel : Voxel) (live : LiveFusionSample) : ℚ :=
  MIN (fusedWDepth maxW canonicalVoxel live) maxW

/-- The body of the innermost loop of FuseFrame for one canonical voxel, given the live
sample interpolated at the warped position. -/
def fuseVoxel (codec : VoxelCodec) (maxW : Int) (canonicalVoxel : Voxel)
    (live : LiveFusionSample) : Voxel :=
  { canonicalVoxel with
    sdf := codec.floatToValue (fusedSdf canonicalVoxel live)
    w_depth := toUchar (fusedWDepth maxW canonicalVoxel live)
    clr := TO_UCHAR3 (Vector3f.smul 255 (fusedColor canonicalVoxel live))
    w_color := toUchar (fusedWColor maxW canonicalVoxel live)
    confidence := canonicalVoxel.confidence + live.liveConfidence }

/-- One visit of FuseFrame: the voxel at index pi.2 with position pi.1 is fused with the
live sample at projectedPosition = position + warp_t.  The helper interpolateTrilinearly
is not among the sources and is the parameter of the same name. -/
def fuseStep (codec : VoxelCodec) (maxW : Int) (interpolateTrilinearly : Vector3f → LiveFusionSample)
    (canonicalVoxels : Nat → Voxel) (pi : Vector3i × Nat) : Nat → Voxel :=
  let canonicalVoxel := canonicalVoxels pi.2
  let projectedPosition := pi.1.toFloat.add canonicalVoxel.warp_t
  Function.update canonicalVoxels pi.2
    (fuseVoxel codec maxW canonicalVoxel (interpolateTrilinearly projectedPosition))

/-- FuseFrame: the voxel array after the loop over all hash entries of the canonical
scene. -/
def FuseFrame (S : Nat) (codec : VoxelCodec) (maxW : Int)
    (interpolateTrilinearly : Vector3f → LiveFusionSample)
    (entries : List ITMHashEntry) (canonicalVoxels : Nat → Voxel) : Nat → Voxel :=
  (traversal S entries).foldl (fuseStep codec maxW interpolateTrilinearly) canonicalVoxels

/-! ## Warp field update (ITMSceneMotionTracker_CPU.tpp, UpdateWarpField) -/

/-- A 3x3 float matrix (Matrix3f).  Its declaration is not among the sources; the nine
entries are listed in storage order m[0] .. m[8], each under the name the sources use
for the Hessians (xx, xy, ...); m00 .. m22 below are the other spelling.  Following the
layout comment of the source, the first row of the matrix is (m00, m10, m20). -/
@[ext] structure Matrix3f where
  xx : ℚ
  xy : ℚ
  xz : ℚ
  yx : ℚ
  yy : ℚ
  yz : ℚ
  zx : ℚ
  zy : ℚ
  zz : ℚ
deriving DecidableEq, Repr

namespace Matrix3f

/-- The default-constructed matrix, taken as all zeros. -/
def zero : Matrix3f := ⟨0, 0, 0, 0, 0, 0, 0, 0, 0⟩

/-- Entry m[0]. -/
def m00 (m : Matrix3f) : ℚ := m.xx
/-- Entry m[1]. -/
def m01 (m : Matrix3f) : ℚ := m.xy
/-- Entry m[2]. -/
def m02 (m : Matrix3f) : ℚ := m.xz
/-- Entry m[3]. -/
def m10 (m : Matrix3f) : ℚ := m.yx
/-- Entry m[4]. -/
def m11 (m : Matrix3f) : ℚ := m.yy
/-- Entry m[5]. -/
def m12 (m : Matrix3f) : ℚ := m.yz
/-- Entry m[6]. -/
def m20 (m : Matrix3f) : ℚ := m.zx
/-- Entry m[7]. -/
def m21 (m : Matrix3f) : ℚ := m.zy
/-- Entry m[8]. -/
def m22 (m : Matrix3f) : ℚ := m.zz

/-- Matrix times vector: row i of the matrix is (m[i], m[i+3], m[i+6]). -/
def mulVec (m : Matrix3f) (v : Vector3f) : Vector3f :=
  ⟨m.m00 * v.x + m.m10 * v.y + m.m20 * v.z,
   m.m01 * v.x + m.m11 * v.y + m.m21 * v.z,
   m.m02 * v.x + m.m12 * v.y + m.m22 * v.z⟩

end Matrix3f

/-- Rational stand-in for the float square root: exact on squares of rationals, and
otherwise the root rounded down to a multiple of 1 / (den * 2^32).  Zero for negative
arguments. -/
def sqrtf (q : ℚ) : ℚ := (Nat.sqrt (q.num.toNat * q.den * 4 ^ 32) : ℚ) / (q.den * 2 ^ 32)

/-- The function length of a float vector. -/
def length (v : Vector3f) : ℚ := sqrtf (v.dot v)

/-- The function squareDistance of two float vectors. -/
def squareDistance (a b : Vector3f) : ℚ := (a.sub b).dot (a.sub b)

/-- The constant gradientDescentLearningRate of ITMSceneMotionTracker.h. -/
def gradientDescentLearningRate : ℚ := 1 / 10
/-- The constant rigidityEnforcementFactor of ITMSceneMotionTracker.h. -/
def rigidityEnforcementFactor : ℚ := 1 / 10
/-- The constant weightKillingTerm of ITMSceneMotionTracker.h. -/
def weightKillingTerm : ℚ := 1 / 2
/-- The constant weightLevelSetTerm of ITMSceneMotionTracker.h. -/
def weightLevelSetTerm : ℚ := 1 / 5
/-- The constant weightColorDataTerm of ITMSceneMotionTracker.h. -/
def weightColorDataTerm : ℚ := 0
/-- The constant colorSdfThreshold of ITMSceneMotionTracker.h. -/
def colorSdfThreshold : ℚ := -1
/-- The constant epsilon = FLT_EPSILON = 2^-23 of ITMSceneMotionTracker.h. -/
def epsilon : ℚ := 1 / 2 ^ 23

/-- The out-parameters of ComputePerPointWarpedLiveJacobianAndHessian and of its Alt
variant (which leaves the two colour outputs untouched). -/
structure LiveDerivatives where
  liveColor : Vector3f
  liveSdfJacobian : Vector3f
  liveColorJacobian : Vector3f
  liveSdfHessian : Matrix3f
deriving DecidableEq, Repr

/-- The out-parameters of ComputePerPointWarpJacobianAndHessianAlt; warpHessianU, V, W
are warpHessian[0], [1], [2]. -/
structure WarpDerivatives where
  warpJacobian : Matrix3f
  warpHessianU : Matrix3f
  warpHessianV : Matrix3f
  warpHessianW : Matrix3f
  boundary : Bool
deriving DecidableEq, Repr

/-- The sampling helpers that UpdateWarpField calls and that are not among the sources,
as parameters.  The live scene is fixed during the call; the canonical voxel array is
mutated by the call, so the helpers that receive the pointer canonicalVoxels take the
current array as their first argument.  The remaining arguments are the ones of the
call sites (position, warp, live distance). -/
structure WarpSampling where
  interpolateTrilinearly : Vector3f → ℚ
  ComputePerPointWarpedLiveJacobianAndHessianAlt :
    (Nat → Voxel) → Vector3i → Vector3f → ℚ → LiveDerivatives
  ComputePerPointWarpedLiveJacobianAndHessian :
    (Nat → Voxel) → Vector3i → Vector3f → ℚ → LiveDerivatives
  ComputePerPointWarpJacobianAndHessianAlt :
    (Nat → Voxel) → Vector3f → Vector3i → WarpDerivatives

/-- The data term deltaEData. -/
def deltaEData (useColor : Bool) (canonicalVoxel : Voxel) (liveSdf canonicalSdf : ℚ)
    (live : LiveDerivatives) : Vector3f :=
  let diffSdf := liveSdf - canonicalSdf
  let deltaEData := Vector3f.smul diffSdf live.liveSdfJacobian
  if useColor then
    let diffColor := weightColorDataTerm *
      squareDistance live.liveColor ((TO_FLOAT3 canonicalVoxel.clr).sdiv 255)
    deltaEData.add (Vector3f.smul diffColor live.liveColorJacobian)
  else deltaEData

/-- The level-set term deltaELevelSet. -/
def deltaELevelSet (liveSdfJacobian : Vector3f) (liveSdfHessian : Matrix3f) : Vector3f :=
  let sdfJacobianNorm := length liveSdfJacobian
  let sdfJacobianNormMinusOne := sdfJacobianNorm - 1
  (Vector3f.smul sdfJacobianNormMinusOne (liveSdfHessian.mulVec liveSdfJacobian)).sdiv
    (sdfJacobianNorm + epsilon)

/-- The matrix form deltaEKilling of the rigidity term, from the warp Jacobian J and
the three warp Hessians. -/
def deltaEKilling (gamma : ℚ) (J H_u H_v H_w : Matrix3f) : Vector3f :=
  let onePlusGamma := 1 + gamma
  let stackedVector0 : Vector3f :=
    ⟨onePlusGamma * J.m00, J.m10 + gamma * J.m01, J.m20 + gamma * J.m02⟩
  let stackedVector1 : Vector3f :=
    ⟨J.m01 + gamma * J.m10, onePlusGamma * J.m11, J.m21 + gamma * J.m12⟩
  let stackedVector2 : Vector3f :=
    ⟨J.m02 + gamma * J.m20, J.m12 + gamma * J.m21, onePlusGamma * J.m22⟩
  Vector3f.smul (-2)
    (((H_u.mulVec stackedVector0).add (H_v.mulVec stackedVector1)).add
      (H_w.mulVec stackedVector2))

/-- The closed form deltaEKillingAlt of the rigidity term. -/
def deltaEKillingAlt (gamma : ℚ) (H_u H_v H_w : Matrix3f) : Vector3f :=
  let altKillingDeltaEu :=
    -2 * ((1 + gamma) * H_u.xx + H_u.yy + H_u.zz + gamma * H_v.xy + gamma * H_w.xz)
  let altKillingDeltaEv :=
    -2 * ((1 + gamma) * H_v.yy + H_v.zz + H_v.xx + gamma * H_u.xy + gamma * H_w.yz)
  let altKillingDeltaEw :=
    -2 * ((1 + gamma) * H_w.zz + H_w.xx + H_w.yy + gamma * H_v.yz + gamma * H_u.xz)
  ⟨altKillingDeltaEu, altKillingDeltaEv, altKillingDeltaEw⟩

/-- The vector warpUpdate computed for one canonical voxel in the first loop of
UpdateWarpField, on the current voxel array.  Every float is a number here; warpUpdateAtF
is the same computation for a stored distance that may be NaN. -/
def warpUpdateAt (codec : VoxelCodec) (smp : WarpSampling) (canonicalVoxels : Nat → Voxel)
    (originalPosition : Vector3i) (canonicalVoxel : Voxel) : Vector3f :=
  let projectedPosition := originalPosition.toFloat.add canonicalVoxel.warp_t
  let liveSdf := smp.interpolateTrilinearly projectedPosition
  let canonicalSdf := codec.valueToFloat canonicalVoxel.sdf
  let useColor : Bool := !(decide (|canonicalSdf| > colorSdfThreshold))
  let live :=
    if |canonicalSdf| > colorSdfThreshold then
      smp.ComputePerPointWarpedLiveJacobianAndHessianAlt canonicalVoxels originalPosition
        canonicalVoxel.warp_t liveSdf
    else
      smp.ComputePerPointWarpedLiveJacobianAndHessian canonicalVoxels originalPosition
        canonicalVoxel.warp_t liveSdf
  let warp := smp.ComputePerPointWarpJacobianAndHessianAlt canonicalVoxels
    canonicalVoxel.warp_t originalPosition
  let dData := deltaEData useColor canonicalVoxel liveSdf canonicalSdf live
  let dLevelSet := deltaELevelSet live.liveSdfJacobian live.liveSdfHessian
  let dKillingAlt := deltaEKillingAlt rigidityEnforcementFactor
    warp.warpHessianU warp.warpHessianV warp.warpHessianW
  let deltaE := (dData.add (Vector3f.smul weightLevelSetTerm dLevelSet)).add
    (Vector3f.smul weightKillingTerm dKillingAlt)
  Vector3f.smul (1 / 10) deltaE

/-- One visit of the first loop of UpdateWarpField; the state is the voxel array and the
running maximum maxVectorUpdate.  The update is stored in warp_t_update and the maximum
is raised when the length of the update exceeds it.  (The accumulators that are only
printed are left out.)  Every float is a number here; computeStepF is the same visit for
floats that may be NaN. -/
def computeStep (codec : VoxelCodec) (smp : WarpSampling) (st : (Nat → Voxel) × ℚ)
    (pi : Vector3i × Nat) : (Nat → Voxel) × ℚ :=
  let canonicalVoxel := st.1 pi.2
  let warpUpdate := warpUpdateAt codec smp st.1 pi.1 canonicalVoxel
  let vecLength := length warpUpdate
  let maxVectorUpdate := if st.2 < vecLength then vecLength else st.2
  (Function.update st.1 pi.2 { canonicalVoxel with warp_t_update := warpUpdate }, maxVectorUpdate)

/-- The constant histBinCount of the second loop. -/
def histBinCount : Nat := 10

/-- The bin index of the second loop for an update of length updateLength, in exact
arithmetic on numbers; binIdxF is the bin index with the rounding of the float operations
and for an update length that may be NaN. -/
def binIdx (maxVectorUpdate updateLength : ℚ) : Int :=
  if maxVectorUpdate > 0 then
    min ((histBinCount : Int) - 1) (truncToInt (updateLength * histBinCount / maxVectorUpdate))
  else 0

/-- One visit of the second loop of UpdateWarpField; the state is the voxel array and
the histogram bins (bin index to count).  The pending update is subtracted from warp_t. -/
def applyStep (maxVectorUpdate : ℚ) (st : (Nat → Voxel) × (Int → Nat))
    (pi : Vector3i × Nat) : (Nat → Voxel) × (Int → Nat) :=
  let canonicalVoxel := st.1 pi.2
  let update := canonicalVoxel.warp_t_update
  let updateLength := length update
  let b := binIdx maxVectorUpdate updateLength
  (Function.update st.1 pi.2 { canonicalVoxel with warp_t := canonicalVoxel.warp_t.sub update },
   Function.update st.2 b (st.2 b + 1))

/-- The first (compute) loop of UpdateWarpField, started with maxVectorUpdate = 0. -/
def computePass (S : Nat) (codec : VoxelCodec) (smp : WarpSampling)
    (entries : List ITMHashEntry) (canonicalVoxels : Nat → Voxel) : (Nat → Voxel) × ℚ :=
  (traversal S entries).foldl (computeStep codec smp) (canonicalVoxels, 0)

/-- The second (apply) loop of UpdateWarpField, started with all bins at 0. -/
def applyPass (S : Nat) (maxVectorUpdate : ℚ) (entries : List ITMHashEntry)
    (canonicalVoxels : Nat → Voxel) : (Nat → Voxel) × (Int → Nat) :=
  (traversal S entries).foldl (applyStep maxVectorUpdate) (canonicalVoxels, fun _ => 0)

/-- UpdateWarpField: the voxel array after both loops and the returned maxVectorUpdate. -/
def UpdateWarpField (S : Nat) (codec : VoxelCodec) (smp : WarpSampling)
    (entries : List ITMHashEntry) (canonicalVoxels : Nat → Voxel) : (Nat → Voxel) × ℚ :=
  let computed := computePass S codec smp entries canonicalVoxels
  ((applyPass S computed.2 entries computed.1).1, computed.2)

/-- Two voxel arrays that differ at most in the pending updates warp_t_update: the
states the first loop of UpdateWarpField passes through, started from m0. -/
def sameUpToUpdate (m m0 : Nat → Voxel) : Prop :=
  ∀ i, { m i with warp_t_update := (m0 i).warp_t_update } = m0 i

/-- An example sampling: the live scene has distance 0 everywhere, with gradient
(2, 0, 0) and the identity as Hessian; the warp field has zero Jacobian and Hessians. -/
def steepLiveSampling : WarpSampling where
  interpolateTrilinearly := fun _ => 0
  ComputePerPointWarpedLiveJacobianAndHessianAlt := fun _ _ _ _ =>
    ⟨⟨0, 0, 0⟩, ⟨2, 0, 0⟩, ⟨0, 0, 0⟩, ⟨1, 0, 0, 0, 1, 0, 0, 0, 1⟩⟩
  ComputePerPointWarpedLiveJacobianAndHessian := fun _ _ _ _ =>
    ⟨⟨0, 0, 0⟩, ⟨2, 0, 0⟩, ⟨0, 0, 0⟩, ⟨1, 0, 0, 0, 1, 0, 0, 0, 1⟩⟩
  ComputePerPointWarpJacobianAndHessianAlt := fun _ _ _ =>
    ⟨Matrix3f.zero, Matrix3f.zero, Matrix3f.zero, Matrix3f.zero, false⟩

/-- An example sampling: the live scene has distance 1 / 2 everywhere, with the unit
gradient (1, 0, 0) and a non-zero Hessian; the warp field has zero Jacobian and Hessians. -/
def unitLiveSampling : WarpSampling where
  interpolateTrilinearly := fun _ => 1 / 2
  ComputePerPointWarpedLiveJacobianAndHessianAlt := fun _ _ _ _ =>
    ⟨⟨0, 0, 0⟩, ⟨1, 0, 0⟩, ⟨0, 0, 0⟩, ⟨1, 2, 3, 2, 1, 0, 3, 0, 1⟩⟩
  ComputePerPointWarpedLiveJacobianAndHessian := fun _ _ _ _ =>
    ⟨⟨0, 0, 0⟩, ⟨1, 0, 0⟩, ⟨0, 0, 0⟩, ⟨1, 2, 3, 2, 1, 0, 3, 0, 1⟩⟩
  ComputePerPointWarpJacobianAndHessianAlt := fun _ _ _ =>
    ⟨Matrix3f.zero, Matrix3f.zero, Matrix3f.zero, Matrix3f.zero, false⟩

/-! ## Rigidity term: the formula of the specification -/

/-- A symmetric 3x3 matrix, as a Hessian is. -/
def Matrix3f.IsSymmetric (H : Matrix3f) : Prop :=
  H.xy = H.yx ∧ H.xz = H.zx ∧ H.yz = H.zy

instance (H : Matrix3f) : Decidable H.IsSymmetric := by
  unfold Matrix3f.IsSymmetric
  infer_instance

/-- The trace xx + yy + zz. -/
def Matrix3f.trace (H : Matrix3f) : ℚ := H.xx + H.yy + H.zz

/-- The matrix read after the cyclic renaming of the axes x -> y -> z -> x: the entry
called ab of the renamed matrix is the entry s(a)s(b) of H, for s the renaming. -/
def Matrix3f.cycle (H : Matrix3f) : Matrix3f :=
  ⟨H.yy, H.yz, H.yx, H.zy, H.zz, H.zx, H.xy, H.xz, H.xx⟩

/-- The closed form of the specification for axis u, following its words:
-2 * [(1 + gamma) * H_u.xx + H_u.yy + H_u.zz + gamma * H_v.xy + gamma * H_w.xz]. -/
def specRigidityU (gamma : ℚ) (H_u H_v H_w : Matrix3f) : ℚ :=
  -2 * ((1 + gamma) * H_u.xx + H_u.yy + H_u.zz + gamma * H_v.xy + gamma * H_w.xz)

/-- The closed form of the specification on the three axes: the v and w components are
the u formula after one and two cyclic substitutions u -> v -> w -> u, x -> y -> z -> x. -/
def specRigidity (gamma : ℚ) (H_u H_v H_w : Matrix3f) : Vector3f :=
  ⟨specRigidityU gamma H_u H_v H_w,
   specRigidityU gamma H_v.cycle H_w.cycle H_u.cycle,
   specRigidityU gamma H_w.cycle.cycle H_u.cycle.cycle H_v.cycle.cycle⟩

/-! ## UpdateWarpField over an arbitrary visiting order -/

/-- The sampling helpers do not read the pending updates: on every voxel array that
differs from m0 at most in warp_t_update they return what they return on m0. -/
def samplingIgnoresUpdate (smp : WarpSampling) (m0 : Nat → Voxel) : Prop :=
  ∀ m, sameUpToUpdate m m0 →
    smp.ComputePerPointWarpedLiveJacobianAndHessianAlt m =
        smp.ComputePerPointWarpedLiveJacobianAndHessianAlt m0 ∧
      smp.ComputePerPointWarpedLiveJacobianAndHessian m =
        smp.ComputePerPointWarpedLiveJacobianAndHessian m0 ∧
      smp.ComputePerPointWarpJacobianAndHessianAlt m =
        smp.ComputePerPointWarpJacobianAndHessianAlt m0

/-- The two loops of UpdateWarpField run over the voxels in the order of the list
visits instead of the order of the hash table; UpdateWarpField is the case
visits = traversal S entries. -/
def UpdateWarpFieldOver (codec : VoxelCodec) (smp : WarpSampling)
    (visits : List (Vector3i × Nat)) (canonicalVoxels : Nat → Voxel) : (Nat → Voxel) × ℚ :=
  let computed := visits.foldl (computeStep codec smp) (canonicalVoxels, 0)
  ((visits.foldl (applyStep computed.2) (computed.1, fun _ => 0)).1, computed.2)

/-! ## Warp update (ITMSceneMotionTracker_CPU_VoxelBlockHash.tpp, UpdateWarps) -/

/-- The mutable members of WarpUpdateFunctor. -/
structure WarpUpdateFunctor where
  maxWarpLength : ℚ
  maxWarpUpdateLength : ℚ
  maxWarpPosition : Vector3i
  maxWarpUpdatePosition : Vector3i
deriving DecidableEq, Repr

/-- The members of a WarpUpdateFunctor after its constructor. -/
def WarpUpdateFunctor.init : WarpUpdateFunctor := ⟨0, 0, ⟨0, 0, 0⟩, ⟨0, 0, 0⟩⟩

/-- The vector warpUpdate of WarpUpdateFunctor::operator(). -/
def warpUpdateOf (learningRate : ℚ) (gradientSmoothingEnabled : Bool)
    (canonicalVoxel : GradientVoxel) : Vector3f :=
  Vector3f.smul (-learningRate)
    (if gradientSmoothingEnabled then canonicalVoxel.gradient1 else canonicalVoxel.gradient0)

/-- WarpUpdateFunctor::operator(): the canonical voxel and the functor after the call
(the live voxel is not used). -/
def WarpUpdateFunctor.call (learningRate : ℚ) (gradientSmoothingEnabled : Bool)
    (f : WarpUpdateFunctor) (canonicalVoxel : GradientVoxel) (position : Vector3i) :
    GradientVoxel × WarpUpdateFunctor :=
  let warpUpdate := warpUpdateOf learningRate gradientSmoothingEnabled canonicalVoxel
  let canonicalVoxel : GradientVoxel :=
    { canonicalVoxel with gradient0 := warpUpdate, warp := canonicalVoxel.warp.add warpUpdate }
  let warpLength := length canonicalVoxel.warp
  let warpUpdateLength := length warpUpdate
  let f := if warpLength > f.maxWarpLength then
    { f with maxWarpLength := warpLength, maxWarpPosition := position } else f
  let f := if warpUpdateLength > f.maxWarpUpdateLength then
    { f with maxWarpUpdateLength := warpUpdateLength, maxWarpUpdatePosition := position } else f
  (canonicalVoxel, f)

/-- One visit of the traversal of UpdateWarps: the functor is called on the voxel at
index pi.2 with position pi.1. -/
def warpsStep (learningRate : ℚ) (gradientSmoothingEnabled : Bool)
    (st : (Nat → GradientVoxel) × WarpUpdateFunctor) (pi : Vector3i × Nat) :
    (Nat → GradientVoxel) × WarpUpdateFunctor :=
  let r := WarpUpdateFunctor.call learningRate gradientSmoothingEnabled st.2 (st.1 pi.2) pi.1
  (Function.update st.1 pi.2 r.1, r.2)

/-- UpdateWarps: the voxel array after the traversal with the WarpUpdateFunctor and the
returned maxWarpUpdateLength.  The traversal DualVoxelPositionTraversal_CPU is not among
the sources; the sequence of (position, voxel index) pairs it presents to the functor is
the parameter visits.  (The second traversal only fills a histogram that is printed.) -/
def UpdateWarps (learningRate : ℚ) (gradientSmoothingEnabled : Bool)
    (visits : List (Vector3i × Nat)) (canonicalVoxels : Nat → GradientVoxel) :
    (Nat → GradientVoxel) × ℚ :=
  let r := visits.foldl (warpsStep learningRate gradientSmoothingEnabled)
    (canonicalVoxels, WarpUpdateFunctor.init)
  (r.1, r.2.maxWarpUpdateLength)

/-! ## Smoothing passes over the scene (SmoothWarpGradient) -/

/-- The two gradient members of a voxel. -/
inductive GradientSlot where
  | gradient0
  | gradient1
deriving DecidableEq, Repr

/-- The content of a gradient member. -/
def GradientSlot.get : GradientSlot → GradientVoxel → Vector3f
  | .gradient0, v => v.gradient0
  | .gradient1, v => v.gradient1

/-- The member that GetGradient returns in the pass along dir (the cases of its switch). -/
def readSlot : TraversalDirection → GradientSlot
  | .X => .gradient0
  | .Y => .gradient1
  | .Z => .gradient0

/-- The member that SetGradient assigns in the pass along dir (the cases of its switch). -/
def writeSlot : TraversalDirection → GradientSlot
  | .X => .gradient1
  | .Y => .gradient0
  | .Z => .gradient1

/-- The member that WarpUpdateFunctor::operator() reads. -/
def warpUpdateSlot (gradientSmoothingEnabled : Bool) : GradientSlot :=
  if gradientSmoothingEnabled then .gradient1 else .gradient0

/-- The unit vector of the axis of a pass. -/
def TraversalDirection.unit : TraversalDirection → Vector3i
  | .X => ⟨1, 0, 0⟩
  | .Y => ⟨0, 1, 0⟩
  | .Z => ⟨0, 0, 1⟩

/-- Modelled from the spec: the helper readVoxel is not among the sources.  A read goes
through the spatial index (the parameter locate, position to voxel index) and a read
through an unallocated slot is "resolved to a defined default", the parameter
defaultVoxel. -/
def readVoxelIn (locate : Vector3i → Option Nat) (defaultVoxel : GradientVoxel)
    (canonicalVoxels : Nat → GradientVoxel) (position : Vector3i) : GradientVoxel :=
  match locate position with
  | some i => canonicalVoxels i
  | none => defaultVoxel

/-- One visit of a smoothing traversal: the functor of direction dir is called on the
voxel at index pi.2 with position pi.1 and reads its neighbours in the current array. -/
def smoothingVisit (dir : TraversalDirection) (locate : Vector3i → Option Nat)
    (defaultVoxel : GradientVoxel) (canonicalVoxels : Nat → GradientVoxel)
    (pi : Vector3i × Nat) : Nat → GradientVoxel :=
  Function.update canonicalVoxels pi.2
    (smoothingPass dir (readVoxelIn locate defaultVoxel canonicalVoxels) (canonicalVoxels pi.2) pi.1)

/-- VoxelPositionTraversal_CPU with the pass functor of direction dir.  The traversal
function is not among the sources; the sequence of (position, voxel index) pairs it
presents to the functor is the parameter visits. -/
def smoothingTraversal (dir : TraversalDirection) (locate : Vector3i → Option Nat)
    (defaultVoxel : GradientVoxel) (visits : List (Vector3i × Nat))
    (canonicalVoxels : Nat → GradientVoxel) : Nat → GradientVoxel :=
  visits.foldl (smoothingVisit dir locate defaultVoxel) canonicalVoxels

/-- SmoothWarpGradient: when gradient smoothing is enabled, the X, Y and Z passes in
this order; otherwise nothing. -/
def SmoothWarpGradient (enableGradientSmoothing : Bool) (locate : Vector3i → Option Nat)
    (defaultVoxel : GradientVoxel) (visits : List (Vector3i × Nat))
    (canonicalVoxels : Nat → GradientVoxel) : Nat → GradientVoxel :=
  if enableGradientSmoothing then
    smoothingTraversal .Z locate defaultVoxel visits
      (smoothingTraversal .Y locate defaultVoxel visits
        (smoothingTraversal .X locate defaultVoxel visits canonicalVoxels))
  else canonicalVoxels

/-! ## Floats that may be NaN

The definitions above take every float for a number.  The comparisons and the cast to
int behave differently on a NaN: a comparison with a NaN operand is false, and the cast
of a NaN to int is undefined.  The definitions below repeat, for floats that may be NaN,
the functions that compare or cast: WarpUpdateFunctor and UpdateWarps, and the two loops
of UpdateWarpField.  Numbers stay exact rationals, except in the bin index of the second
loop, where the rounding of the two float operations is the explicit function rnd; the
infinities, which arise by overflow or by dividing a non-zero number by zero, are left
out. -/

/-- A float: NaN or a number. -/
inductive FloatValue where
  | nan
  | num (q : ℚ)
deriving DecidableEq, Repr

namespace FloatValue

/-- The comparison a < b, false when a or b is NaN. -/
def lt : FloatValue → FloatValue → Bool
  | num a, num b => decide (a < b)
  | _, _ => false

/-- The comparison a > b, false when a or b is NaN. -/
def gt (a b : FloatValue) : Bool := lt b a

/-- The comparison a <= b, false when a or b is NaN. -/
def le : FloatValue → FloatValue → Bool
  | num a, num b => decide (a ≤ b)
  | _, _ => false

/-- The comparison a != b, true when a or b is NaN. -/
def ne : FloatValue → FloatValue → Bool
  | num a, num b => decide (a ≠ b)
  | _, _ => true

/-- The function std::abs. -/
def abs : FloatValue → FloatValue
  | num a => num |a|
  | nan => nan

/-- Unary minus. -/
def neg : FloatValue → FloatValue
  | num a => num (-a)
  | nan => nan

/-- The sum a + b, NaN when a or b is NaN. -/
def add : FloatValue → FloatValue → FloatValue
  | num a, num b => num (a + b)
  | _, _ => nan

/-- The difference a - b, NaN when a or b is NaN. -/
def sub : FloatValue → FloatValue → FloatValue
  | num a, num b => num (a - b)
  | _, _ => nan

/-- The product a * b, NaN when a or b is NaN. -/
def mul : FloatValue → FloatValue → FloatValue
  | num a, num b => num (a * b)
  | _, _ => nan

/-- The square root, NaN for NaN and for a negative number. -/
def sqrt : FloatValue → FloatValue
  | num a => if a < 0 then nan else num (sqrtf a)
  | nan => nan

end FloatValue

/-- A Vector3f whose components may be NaN. -/
structure FloatVector3 where
  x : FloatValue
  y : FloatValue
  z : FloatValue
deriving DecidableEq, Repr

namespace FloatVector3

/-- A vector of numbers. -/
def ofNumbers (v : Vector3f) : FloatVector3 :=
  ⟨FloatValue.num v.x, FloatValue.num v.y, FloatValue.num v.z⟩

/-- Component-wise sum. -/
def add (a b : FloatVector3) : FloatVector3 := ⟨a.x.add b.x, a.y.add b.y, a.z.add b.z⟩

/-- Component-wise difference. -/
def sub (a b : FloatVector3) : FloatVector3 := ⟨a.x.sub b.x, a.y.sub b.y, a.z.sub b.z⟩

/-- Scalar times vector (and vector times scalar). -/
def smul (k : FloatValue) (a : FloatVector3) : FloatVector3 := ⟨k.mul a.x, k.mul a.y, k.mul a.z⟩

/-- Dot product. -/
def dot (a b : FloatVector3) : FloatValue := ((a.x.mul b.x).add (a.y.mul b.y)).add (a.z.mul b.z)

/-- The function length: NaN as soon as one component is NaN. -/
def length (v : FloatVector3) : FloatValue := (v.dot v).sqrt

end FloatVector3

/-! ### WarpUpdateFunctor and UpdateWarps on floats that may be NaN -/

/-- The warp and the two gradient members of a canonical voxel, each possibly NaN. -/
structure FloatGradientVoxel where
  warp : FloatVector3
  gradient0 : FloatVector3
  gradient1 : FloatVector3
deriving DecidableEq, Repr

/-- The mutable members of WarpUpdateFunctor, the maxima as floats that may be NaN. -/
structure FloatWarpUpdateFunctor where
  maxWarpLength : FloatValue
  maxWarpUpdateLength : FloatValue
  maxWarpPosition : Vector3i
  maxWarpUpdatePosition : Vector3i
deriving DecidableEq, Repr

/-- The members after the constructor: both maxima are 0.0f. -/
def FloatWarpUpdateFunctor.init : FloatWarpUpdateFunctor :=
  ⟨FloatValue.num 0, FloatValue.num 0, ⟨0, 0, 0⟩, ⟨0, 0, 0⟩⟩

/-- WarpUpdateFunctor::operator() on floats that may be NaN: the canonical voxel and the
functor after the call. -/
def FloatWarpUpdateFunctor.call (learningRate : FloatValue) (gradientSmoothingEnabled : Bool)
    (f : FloatWarpUpdateFunctor) (canonicalVoxel : FloatGradientVoxel) (position : Vector3i) :
    FloatGradientVoxel × FloatWarpUpdateFunctor :=
  let warpUpdate := FloatVector3.smul learningRate.neg
    (if gradientSmoothingEnabled then canonicalVoxel.gradient1 else canonicalVoxel.gradient0)
  let canonicalVoxel : FloatGradientVoxel :=
    { canonicalVoxel with gradient0 := warpUpdate, warp := canonicalVoxel.warp.add warpUpdate }
  let warpLength := canonicalVoxel.warp.length
  let warpUpdateLength := warpUpdate.length
  let f := if warpLength.gt f.maxWarpLength then
    { f with maxWarpLength := warpLength, maxWarpPosition := position } else f
  let f := if warpUpdateLength.gt f.maxWarpUpdateLength then
    { f with maxWarpUpdateLength := warpUpdateLength, maxWarpUpdatePosition := position } else f
  (canonicalVoxel, f)

/-- One visit of the traversal of UpdateWarps on floats that may be NaN. -/
def warpsStepF (learningRate : FloatValue) (gradientSmoothingEnabled : Bool)
    (st : (Nat → FloatGradientVoxel) × FloatWarpUpdateFunctor) (pi : Vector3i × Nat) :
    (Nat → FloatGradientVoxel) × FloatWarpUpdateFunctor :=
  let r := FloatWarpUpdateFunctor.call learningRate gradientSmoothingEnabled st.2 (st.1 pi.2) pi.1
  (Function.update st.1 pi.2 r.1, r.2)

/-- UpdateWarps on floats that may be NaN: the voxel array after the traversal and the
returned maxWarpUpdateLength.  As in UpdateWarps, the sequence of visits of the
traversal is a parameter. -/
def UpdateWarpsF (learningRate : FloatValue) (gradientSmoothingEnabled : Bool)
    (visits : List (Vector3i × Nat)) (canonicalVoxels : Nat → FloatGradientVoxel) :
    (Nat → FloatGradientVoxel) × FloatValue :=
  let r := visits.foldl (warpsStepF learningRate gradientSmoothingEnabled)
    (canonicalVoxels, FloatWarpUpdateFunctor.init)
  (r.1, r.2.maxWarpUpdateLength)

/-! ### UpdateWarpField on floats that may be NaN -/

/-- The fields of a canonical voxel that UpdateWarpField accesses, the floats possibly
NaN.  A NaN in sdf is a stored NaN distance (of a voxel type that stores a float). -/
structure FloatVoxel where
  sdf : FloatValue
  w_depth : Nat
  w_color : Nat
  clr : Vector3u
  confidence : FloatValue
  warp_t : FloatVector3
  warp_t_update : FloatVector3
deriving DecidableEq, Repr

/-- The conversion TVoxel::valueToFloat on a stored value that may be NaN: a number is
converted by the codec, a NaN stays a NaN. -/
def VoxelCodec.valueToFloatF (codec : VoxelCodec) : FloatValue → FloatValue
  | FloatValue.num s => FloatValue.num (codec.valueToFloat s)
  | FloatValue.nan => FloatValue.nan

/-- The sampling helpers that UpdateWarpField calls and that are not among the sources,
as parameters, for a canonical voxel array and warps whose floats may be NaN.  What the
helpers return is taken to be numbers. -/
structure FloatSampling where
  interpolateTrilinearly : FloatVector3 → ℚ
  ComputePerPointWarpedLiveJacobianAndHessianAlt :
    (Nat → FloatVoxel) → Vector3i → FloatVector3 → ℚ → LiveDerivatives
  ComputePerPointWarpedLiveJacobianAndHessian :
    (Nat → FloatVoxel) → Vector3i → FloatVector3 → ℚ → LiveDerivatives
  ComputePerPointWarpJacobianAndHessianAlt :
    (Nat → FloatVoxel) → FloatVector3 → Vector3i → WarpDerivatives

/-- The flag useColor of UpdateWarpField for a canonical distance that may be NaN: false
when abs(canonicalSdf) > colorSdfThreshold, true otherwise. -/
def useColor (canonicalSdf : FloatValue) : Bool :=
  if canonicalSdf.abs.gt (FloatValue.num colorSdfThreshold) then false else true

/-- The data term deltaEData for a canonical distance that may be NaN. -/
def deltaEDataF (useColor : Bool) (clr : Vector3u) (liveSdf : ℚ) (canonicalSdf : FloatValue)
    (live : LiveDerivatives) : FloatVector3 :=
  let diffSdf := (FloatValue.num liveSdf).sub canonicalSdf
  let deltaEData := FloatVector3.smul diffSdf (FloatVector3.ofNumbers live.liveSdfJacobian)
  if useColor then
    let diffColor := weightColorDataTerm *
      squareDistance live.liveColor ((TO_FLOAT3 clr).sdiv 255)
    deltaEData.add
      (FloatVector3.smul (FloatValue.num diffColor) (FloatVector3.ofNumbers live.liveColorJacobian))
  else deltaEData

/-- The vector warpUpdate computed for one canonical voxel in the first loop of
UpdateWarpField, for a stored distance that may be NaN.  The level-set and the rigidity
term are computed from what the helpers return, hence from numbers. -/
def warpUpdateAtF (codec : VoxelCodec) (smp : FloatSampling) (canonicalVoxels : Nat → FloatVoxel)
    (originalPosition : Vector3i) (canonicalVoxel : FloatVoxel) : FloatVector3 :=
  let projectedPosition :=
    (FloatVector3.ofNumbers originalPosition.toFloat).add canonicalVoxel.warp_t
  let liveSdf := smp.interpolateTrilinearly projectedPosition
  let canonicalSdf := codec.valueToFloatF canonicalVoxel.sdf
  let live :=
    if canonicalSdf.abs.gt (FloatValue.num colorSdfThreshold) then
      smp.ComputePerPointWarpedLiveJacobianAndHessianAlt canonicalVoxels originalPosition
        canonicalVoxel.warp_t liveSdf
    else
      smp.ComputePerPointWarpedLiveJacobianAndHessian canonicalVoxels originalPosition
        canonicalVoxel.warp_t liveSdf
  let warp := smp.ComputePerPointWarpJacobianAndHessianAlt canonicalVoxels
    canonicalVoxel.warp_t originalPosition
  let dData := deltaEDataF (useColor canonicalSdf) canonicalVoxel.clr liveSdf canonicalSdf live
  let dLevelSet := deltaELevelSet live.liveSdfJacobian live.liveSdfHessian
  let dKillingAlt := deltaEKillingAlt rigidityEnforcementFactor
    warp.warpHessianU warp.warpHessianV warp.warpHessianW
  let deltaE := (dData.add (FloatVector3.ofNumbers (Vector3f.smul weightLevelSetTerm dLevelSet))).add
    (FloatVector3.ofNumbers (Vector3f.smul weightKillingTerm dKillingAlt))
  FloatVector3.smul (FloatValue.num (1 / 10)) deltaE

/-- One visit of the first loop of UpdateWarpField on floats that may be NaN; the state
is the voxel array and the running maximum maxVectorUpdate. -/
def computeStepF (codec : VoxelCodec) (smp : FloatSampling)
    (st : (Nat → FloatVoxel) × FloatValue) (pi : Vector3i × Nat) :
    (Nat → FloatVoxel) × FloatValue :=
  let canonicalVoxel := st.1 pi.2
  let warpUpdate := warpUpdateAtF codec smp st.1 pi.1 canonicalVoxel
  let vecLength := warpUpdate.length
  let maxVectorUpdate := if st.2.lt vecLength then vecLength else st.2
  (Function.update st.1 pi.2 { canonicalVoxel with warp_t_update := warpUpdate }, maxVectorUpdate)

/-- The cast (int) of a float: rounding toward zero when the result fits a 32-bit int,
undefined (none) for a NaN and for a value outside that range. -/
def castToInt : FloatValue → Option Int
  | FloatValue.num q => if -(2 : ℚ) ^ 31 - 1 < q ∧ q < 2 ^ 31 then some (truncToInt q) else none
  | FloatValue.nan => none

/-- The float updateLength * histBinCount / maxVectorUpdate of the second loop, for a
divisor maxVectorUpdate that is a number; rnd is the rounding of a float operation. -/
def binQuotient (rnd : ℚ → ℚ) (maxVectorUpdate : ℚ) : FloatValue → FloatValue
  | FloatValue.num updateLength =>
    FloatValue.num (rnd (rnd (updateLength * histBinCount) / maxVectorUpdate))
  | FloatValue.nan => FloatValue.nan

/-- The bin index of the second loop for an update length that may be NaN, none when the
cast to int is undefined.  The test maxVectorUpdate > 0 is false for a NaN maximum. -/
def binIdxF (rnd : ℚ → ℚ) (maxVectorUpdate updateLength : FloatValue) : Option Int :=
  match maxVectorUpdate with
  | FloatValue.num mx =>
    if mx > 0 then
      (castToInt (binQuotient rnd mx updateLength)).map
        fun i => min ((histBinCount : Int) - 1) i
    else some 0
  | FloatValue.nan => some 0

/-- One visit of the second loop of UpdateWarpField on floats that may be NaN; none when
the bin index is undefined or outside the array bins. -/
def applyStepF (rnd : ℚ → ℚ) (maxVectorUpdate : FloatValue)
    (st : (Nat → FloatVoxel) × (Int → Nat)) (pi : Vector3i × Nat) :
    Option ((Nat → FloatVoxel) × (Int → Nat)) :=
  let canonicalVoxel := st.1 pi.2
  let update := canonicalVoxel.warp_t_update
  let updateLength := update.length
  match binIdxF rnd maxVectorUpdate updateLength with
  | some b =>
    if 0 ≤ b ∧ b < histBinCount then
      some (Function.update st.1 pi.2
          { canonicalVoxel with warp_t := canonicalVoxel.warp_t.sub update },
        Function.update st.2 b (st.2 b + 1))
    else none
  | none => none

/-- The first loop of UpdateWarpField on floats that may be NaN, started with
maxVectorUpdate = 0. -/
def computePassF (S : Nat) (codec : VoxelCodec) (smp : FloatSampling)
    (entries : List ITMHashEntry) (canonicalVoxels : Nat → FloatVoxel) :
    (Nat → FloatVoxel) × FloatValue :=
  (traversal S entries).foldl (computeStepF codec smp) (canonicalVoxels, FloatValue.num 0)

/-- The second loop of UpdateWarpField on floats that may be NaN, started with all bins
at 0; none when a visit is undefined. -/
def applyPassF (S : Nat) (rnd : ℚ → ℚ) (maxVectorUpdate : FloatValue)
    (entries : List ITMHashEntry) (canonicalVoxels : Nat → FloatVoxel) :
    Option ((Nat → FloatVoxel) × (Int → Nat)) :=
  (traversal S entries).foldlM (applyStepF rnd maxVectorUpdate) (canonicalVoxels, fun _ => 0)

/-- UpdateWarpField on floats that may be NaN: the voxel array after both loops and the
returned maxVectorUpdate; none when the second loop is undefined. -/
def UpdateWarpFieldF (S : Nat) (rnd : ℚ → ℚ) (codec : VoxelCodec) (smp : FloatSampling)
    (entries : List ITMHashEntry) (canonicalVoxels : Nat → FloatVoxel) :
    Option ((Nat → FloatVoxel) × FloatValue) :=
  let computed := computePassF S codec smp entries canonicalVoxels
  (applyPassF S rnd computed.2 entries computed.1).map fun r => (r.1, computed.2)

/-- An example sampling for a voxel array whose floats may be NaN: the live scene has
distance 0 everywhere, with gradient (2, 0, 0) and the identity as Hessian; the warp
field has zero Jacobian and Hessians. -/
def steepFloatSampling : FloatSampling where
  interpolateTrilinearly := fun _ => 0
  ComputePerPointWarpedLiveJacobianAndHessianAlt := fun _ _ _ _ =>
    ⟨⟨0, 0, 0⟩, ⟨2, 0, 0⟩, ⟨0, 0, 0⟩, ⟨1, 0, 0, 0, 1, 0, 0, 0, 1⟩⟩
  ComputePerPointWarpedLiveJacobianAndHessian := fun _ _ _ _ =>
    ⟨⟨0, 0, 0⟩, ⟨2, 0, 0⟩, ⟨0, 0, 0⟩, ⟨1, 0, 0, 0, 1, 0, 0, 0, 1⟩⟩
  ComputePerPointWarpJacobianAndHessianAlt := fun _ _ _ =>
    ⟨Matrix3f.zero, Matrix3f.zero, Matrix3f.zero, Matrix3f.zero, false⟩

/-- Rounding of a number to the nearest float: the nearest number with a significand
of 24 bits, ties to the even significand.  The exponent is not limited (no overflow to
an infinity and no subnormal numbers). -/
def roundToFloat (q : ℚ) : ℚ :=
  if q = 0 then 0
  else
    let ulp : ℚ := 2 ^ (Int.log 2 |q| - 23)
    let n : Int := ⌊q / ulp⌋
    let rest : ℚ := q / ulp - n
    let significand : Int :=
      if rest < 1 / 2 then n else if 1 / 2 < rest then n + 1 else if n % 2 = 0 then n else n + 1
    significand * ulp

end ITMLib

/-! ## Theorems -/

namespace ITMLib

/-! ### Block traversal -/

/-- Membership in the list of local offsets. -/
theorem mem_blockOffsets (S : Nat) (o : Nat × Nat × Nat) :
    o ∈ blockOffsets S ↔ o.1 < S ∧ o.2.1 < S ∧ o.2.2 < S := by
  obtain ⟨x, y, z⟩ := o
  simp only [blockOffsets, List.mem_flatMap, List.mem_map, List.mem_range, Prod.mk.injEq]
  constructor
  · rintro ⟨z', hz, y', hy, x', hx, rfl, rfl, rfl⟩
    exact ⟨hx, hy, hz⟩
  · rintro ⟨hx, hy, hz⟩
    exact ⟨z, hz, y, hy, x, hx, rfl, rfl, rfl⟩

/-- Every linear index of an offset inside the block is below SDF_BLOCK_SIZE3. -/
theorem locId_lt (S x y z : Nat) (hx : x < S) (hy : y < S) (hz : z < S) :
    locId S x y z < S * S * S := by
  unfold locId
  have h1 : x + y * S < (y + 1) * S := by rw [Nat.add_mul, Nat.one_mul]; omega
  have h2 : (y + 1) * S ≤ S * S := Nat.mul_le_mul_right S hy
  have h3 : z * S * S + S * S = (z + 1) * S * S := by ring
  have h4 : (z + 1) * S * S ≤ S * S * S :=
    Nat.mul_le_mul_right S (Nat.mul_le_mul_right S hz)
  omega

/-- Two offsets inside the block with the same linear index are equal. -/
theorem locId_inj (S x y z x' y' z' : Nat) (hx : x < S) (hy : y < S)
    (hx' : x' < S) (hy' : y' < S) (h : locId S x y z = locId S x' y' z') :
    x = x' ∧ y = y' ∧ z = z' := by
  unfold locId at h
  have hS : 0 < S := Nat.lt_of_le_of_lt (Nat.zero_le x) hx
  have e1 : x + y * S + z * S * S = x + S * (y + S * z) := by ring
  have e2 : x' + y' * S + z' * S * S = x' + S * (y' + S * z') := by ring
  rw [e1, e2] at h
  have hxx : x = x' := by
    have := congrArg (· % S) h
    simpa [Nat.add_mul_mod_self_left, Nat.mod_eq_of_lt hx, Nat.mod_eq_of_lt hx'] using this
  subst hxx
  have h' : y + S * z = y' + S * z' := Nat.eq_of_mul_eq_mul_left hS (Nat.add_left_cancel h)
  have hyy : y = y' := by
    have := congrArg (· % S) h'
    simpa [Nat.add_mul_mod_self_left, Nat.mod_eq_of_lt hy, Nat.mod_eq_of_lt hy'] using this
  subst hyy
  exact ⟨rfl, rfl, Nat.eq_of_mul_eq_mul_left hS (Nat.add_left_cancel h')⟩

/-- The list of local offsets has no repetition. -/
theorem blockOffsets_nodup (S : Nat) : (blockOffsets S).Nodup := by
  unfold blockOffsets
  rw [List.nodup_flatMap]
  refine ⟨fun z _ => ?_, ?_⟩
  · rw [List.nodup_flatMap]
    refine ⟨fun y _ => ?_, ?_⟩
    · exact (List.nodup_range S).map (fun a b h => by simpa using h)
    · refine (List.nodup_range S).imp ?_
      intro a b hab
      simp only [Function.onFun, List.Disjoint, List.mem_map, not_exists, not_and]
      rintro o ⟨x, _, rfl⟩ ⟨x', _, h⟩
      simp at h
      exact hab h.2.symm
  · refine (List.nodup_range S).imp ?_
    intro a b hab
    simp only [Function.onFun, List.Disjoint, List.mem_flatMap, List.mem_map]
    rintro o ⟨y, _, x, _, rfl⟩ ⟨y', _, x', _, h⟩
    simp at h
    exact hab h.2.2.symm

/-- Membership in the traversal: the visited pairs are the positions and indices of the
offsets of the entries with ptr >= 0. -/
theorem mem_traversal (S : Nat) (entries : List ITMHashEntry) (pi : Vector3i × Nat) :
    pi ∈ traversal S entries ↔
      ∃ e ∈ entries, 0 ≤ e.ptr ∧ ∃ x y z, x < S ∧ y < S ∧ z < S ∧
        pi = ((e.pos.scale S).add ⟨x, y, z⟩, e.ptr.toNat * (S * S * S) + locId S x y z) := by
  simp only [traversal, List.mem_flatMap, entryVoxels]
  constructor
  · rintro ⟨e, he, hpi⟩
    by_cases hp : e.ptr < 0
    · simp [hp] at hpi
    · rw [if_neg hp, List.mem_map] at hpi
      obtain ⟨o, ho, rfl⟩ := hpi
      rw [mem_blockOffsets] at ho
      exact ⟨e, he, not_lt.mp hp, o.1, o.2.1, o.2.2, ho.1, ho.2.1, ho.2.2, rfl⟩
  · rintro ⟨e, he, hp, x, y, z, hx, hy, hz, rfl⟩
    refine ⟨e, he, ?_⟩
    rw [if_neg (not_lt.mpr hp), List.mem_map]
    exact ⟨(x, y, z), (mem_blockOffsets S _).mpr ⟨hx, hy, hz⟩, rfl⟩

/-- A voxel index determines its block pointer and its linear index within the block. -/
theorem block_index_inj (N p1 l1 p2 l2 : Nat) (h1 : l1 < N) (h2 : l2 < N)
    (h : p1 * N + l1 = p2 * N + l2) : p1 = p2 ∧ l1 = l2 := by
  have hp : p1 = p2 := by
    rcases Nat.lt_trichotomy p1 p2 with hlt | heq | hgt
    · exfalso
      have : (p1 + 1) * N ≤ p2 * N := Nat.mul_le_mul_right N hlt
      rw [Nat.add_mul, Nat.one_mul] at this
      omega
    · exact heq
    · exfalso
      have : (p2 + 1) * N ≤ p1 * N := Nat.mul_le_mul_right N hgt
      rw [Nat.add_mul, Nat.one_mul] at this
      omega
  subst hp
  exact ⟨rfl, Nat.add_left_cancel h⟩

/-- In a table with pairwise distinct block pointers no voxel index is visited twice. -/
theorem traversal_indices_nodup (S : Nat) (entries : List ITMHashEntry)
    (h : distinctPtrs entries) : ((traversal S entries).map Prod.snd).Nodup := by
  unfold traversal
  rw [List.map_flatMap, List.nodup_flatMap]
  refine ⟨fun e _ => ?_, ?_⟩
  · unfold entryVoxels
    by_cases hp : e.ptr < 0
    · simp [hp]
    · rw [if_neg hp, List.map_map]
      refine List.Nodup.map_on ?_ (blockOffsets_nodup S)
      intro o ho o' ho' heq
      rw [mem_blockOffsets] at ho ho'
      simp only [Function.comp] at heq
      have hl := Nat.add_left_cancel heq
      obtain ⟨h1, h2, h3⟩ := locId_inj S _ _ _ _ _ _ ho.1 ho.2.1 ho'.1 ho'.2.1 hl
      exact Prod.ext h1 (Prod.ext h2 h3)
  · refine List.Pairwise.imp ?_ h
    intro a b hab
    simp only [Function.onFun, List.Disjoint, List.mem_map]
    rintro i ⟨pa, hpa, rfl⟩ ⟨pb, hpb, hi⟩
    unfold entryVoxels at hpa hpb
    by_cases ha : a.ptr < 0
    · simp [ha] at hpa
    by_cases hb : b.ptr < 0
    · simp [hb] at hpb
    rw [if_neg ha, List.mem_map] at hpa
    rw [if_neg hb, List.mem_map] at hpb
    obtain ⟨oa, hoa, rfl⟩ := hpa
    obtain ⟨ob, hob, rfl⟩ := hpb
    rw [mem_blockOffsets] at hoa hob
    simp only at hi
    have := (block_index_inj (S * S * S) _ _ _ _
      (locId_lt S _ _ _ hob.1 hob.2.1 hob.2.2) (locId_lt S _ _ _ hoa.1 hoa.2.1 hoa.2.2) hi).1
    exact hab (not_lt.mp ha) (not_lt.mp hb) (by omega)

/-- A fold of writes, each replacing the cell idx b by a value computed from b and the
old content of that cell, over a list that names no cell twice: every named cell ends
with the value computed from its initial content. -/
theorem foldl_update_apply {α β : Type} (idx : β → Nat) (g : β → α → α) (l : List β)
    (m : Nat → α) (hnd : (l.map idx).Nodup) (b : β) (hb : b ∈ l) :
    (l.foldl (fun m b => Function.update m (idx b) (g b (m (idx b)))) m) (idx b) =
      g b (m (idx b)) := by
  induction l generalizing m with
  | nil => cases hb
  | cons a as ih =>
    rw [List.map_cons, List.nodup_cons] at hnd
    rw [List.foldl_cons]
    have hframe : ∀ (l : List β) (m : Nat → α) (i : Nat), i ∉ l.map idx →
        (l.foldl (fun m b => Function.update m (idx b) (g b (m (idx b)))) m) i = m i := by
      intro l
      induction l with
      | nil => intro m i _; rfl
      | cons c cs ihc =>
        intro m i hi
        rw [List.map_cons, List.mem_cons, not_or] at hi
        rw [List.foldl_cons, ihc _ _ hi.2, Function.update_noteq hi.1]
    rcases List.mem_cons.mp hb with rfl | hmem
    · rw [hframe _ _ _ hnd.1, Function.update_same]
    · rw [ih _ hnd.2 hmem]
      have hne : idx b ≠ idx a := fun h => hnd.1 (h ▸ List.mem_map_of_mem idx hmem)
      rw [Function.update_noteq hne]

/-- A fold of writes leaves every cell that the list does not name as it was. -/
theorem foldl_update_frame {α β : Type} (idx : β → Nat) (step : (Nat → α) → β → (Nat → α))
    (hstep : ∀ m b i, i ≠ idx b → step m b i = m i) (l : List β) (m : Nat → α) (i : Nat)
    (hi : i ∉ l.map idx) : (l.foldl step m) i = m i := by
  induction l generalizing m with
  | nil => rfl
  | cons c cs ih =>
    rw [List.map_cons, List.mem_cons, not_or] at hi
    rw [List.foldl_cons, ih _ hi.2, hstep _ _ _ hi.1]

/-- A fold of writes establishes a property of cell contents at every named cell, and
keeps it at the others, when every written value has the property. -/
theorem foldl_update_invariant {α β : Type} (idx : β → Nat) (step : (Nat → α) → β → (Nat → α))
    (Q : α → Prop) (hwrite : ∀ m b, Q (step m b (idx b)))
    (hstep : ∀ m b i, i ≠ idx b → step m b i = m i) (l : List β) (m : Nat → α) (i : Nat)
    (hi : Q (m i) ∨ i ∈ l.map idx) : Q ((l.foldl step m) i) := by
  induction l generalizing m with
  | nil =>
    rcases hi with h | h
    · exact h
    · cases h
  | cons c cs ih =>
    rw [List.foldl_cons]
    apply ih
    by_cases hic : i = idx c
    · left; rw [hic]; exact hwrite m c
    · rcases hi with h | h
      · left; rw [hstep _ _ _ hic]; exact h
      · rw [List.map_cons, List.mem_cons] at h
        rcases h with h | h
        · exact absurd h hic
        · right; exact h

/-! ### Smoothing kernel -/

/-- The exact value of the sum of the seven kernel coefficients. -/
theorem sobolevFilterSum_value :
    sobolevFilterSum = 5682500550904782245391 / 5000000000000000000000 := by
  norm_num [sobolevFilterSum, sobolevFilter1D]

/-- C1, as stated, fails: the seven coefficients of sobolevFilter1D do not sum to 1
within 1e-6; the sum exceeds 1 by more than 0.13. -/
theorem sobolevFilter1D_sum_not_one :
    sobolevFilter1D.length = sobolevFilterSize ∧
      ¬ (|sobolevFilter1D.sum - 1| ≤ 1 / 10 ^ 6) ∧ sobolevFilter1D.sum - 1 > 13 / 100 := by
  refine ⟨by decide, ?_, ?_⟩
  · norm_num [sobolevFilter1D, abs_le]
  · norm_num [sobolevFilter1D]

/-- C1 (amended): sobolevFilter1D has seven coefficients and, taken as the exact decimal
values of the source, they sum to 1.1365 within 1e-6. -/
theorem sobolevFilter1D_sum_approx :
    sobolevFilter1D.length = 7 ∧ |sobolevFilter1D.sum - 11365 / 10000| ≤ 1 / 10 ^ 6 := by
  refine ⟨by decide, ?_⟩
  norm_num [sobolevFilter1D, abs_le]

/-- The loop of the smoothing pass reads the seven positions at offsets -3 .. +3 along
the pass axis and returns the weighted sum of the gradients found there. -/
theorem smoothedGradientAt_eq (dir : TraversalDirection) (readVoxel : Vector3i → GradientVoxel)
    (position : Vector3i) :
    smoothedGradientAt dir readVoxel position =
      (List.range 7).foldl (fun acc i => acc.add (Vector3f.smul (sobolevFilter1D.getD i 0)
        (GetGradient dir (readVoxel (receptivePosition dir position i))))) Vector3f.zero := by
  cases dir <;>
    simp [smoothedGradientAt, smoothingStep, receptivePosition, sobolevFilterSize, List.range_succ,
      Vector3i.set, Vector3i.get, TraversalDirection.toIndex] <;>
    ring_nf

/-- C2 (amended): when the seven receptive voxels along the pass axis (offsets -3 .. +3)
all hold the gradient g in the slot the pass reads, one smoothing pass writes the
gradient g scaled by the sum of the kernel coefficients (about 1.1365), in the slot the
pass writes; the written gradient equals g only for g = 0. -/
theorem smoothingPass_constant_field (dir : TraversalDirection)
    (readVoxel : Vector3i → GradientVoxel) (voxel : GradientVoxel) (position : Vector3i)
    (g : Vector3f)
    (h : ∀ i, i < sobolevFilterSize →
      GetGradient dir (readVoxel (receptivePosition dir position i)) = g) :
    smoothingPass dir readVoxel voxel position =
        SetGradient dir voxel (Vector3f.smul sobolevFilterSum g) ∧
      (Vector3f.smul sobolevFilterSum g = g ↔ g = Vector3f.zero) := by
  constructor
  · unfold smoothingPass
    rw [smoothedGradientAt_eq]
    have h0 := h 0 (by decide)
    have h1 := h 1 (by decide)
    have h2 := h 2 (by decide)
    have h3 := h 3 (by decide)
    have h4 := h 4 (by decide)
    have h5 := h 5 (by decide)
    have h6 := h 6 (by decide)
    congr 1
    simp only [List.range_succ, List.range_zero, List.nil_append, List.cons_append,
      List.foldl_cons, List.foldl_nil, h0, h1, h2, h3, h4, h5, h6]
    ext <;>
      simp [Vector3f.add, Vector3f.smul, Vector3f.zero, sobolevFilterSum, sobolevFilter1D] <;>
      ring
  · rw [sobolevFilterSum_value]
    constructor
    · intro hg
      have hx := congrArg Vector3f.x hg
      have hy := congrArg Vector3f.y hg
      have hz := congrArg Vector3f.z hg
      simp only [Vector3f.smul] at hx hy hz
      ext
      · simp only [Vector3f.zero]; linarith
      · simp only [Vector3f.zero]; linarith
      · simp only [Vector3f.zero]; linarith
    · intro hg
      subst hg
      simp [Vector3f.smul, Vector3f.zero]

/-- Witness for C2: the Y pass over a field whose gradient1 is (1, 2, 3) everywhere. -/
theorem smoothingPass_constant_field_witness :
    smoothingPass .Y (fun _ => ⟨⟨0, 0, 0⟩, ⟨0, 0, 0⟩, ⟨1, 2, 3⟩⟩)
        ⟨⟨0, 0, 0⟩, ⟨0, 0, 0⟩, ⟨1, 2, 3⟩⟩ ⟨4, 5, 6⟩ =
        SetGradient .Y ⟨⟨0, 0, 0⟩, ⟨0, 0, 0⟩, ⟨1, 2, 3⟩⟩
          (Vector3f.smul sobolevFilterSum ⟨1, 2, 3⟩) ∧
      (Vector3f.smul sobolevFilterSum ⟨1, 2, 3⟩ = (⟨1, 2, 3⟩ : Vector3f) ↔
        (⟨1, 2, 3⟩ : Vector3f) = Vector3f.zero) :=
  smoothingPass_constant_field .Y (fun _ => ⟨⟨0, 0, 0⟩, ⟨0, 0, 0⟩, ⟨1, 2, 3⟩⟩)
    ⟨⟨0, 0, 0⟩, ⟨0, 0, 0⟩, ⟨1, 2, 3⟩⟩ ⟨4, 5, 6⟩ ⟨1, 2, 3⟩ (fun _ _ => rfl)

/-- C2, as stated, fails: in a field whose gradient0 is g = (1, 0, 0) at every voxel
(so each component has absolute value at most 1), the X pass writes a gradient whose x
component differs from that of g by more than 1e-6 (it is larger by more than 0.13). -/
theorem smoothingPass_constant_field_changed :
    (∀ i, i < sobolevFilterSize →
      GetGradient .X ((fun _ => (⟨⟨0, 0, 0⟩, ⟨1, 0, 0⟩, ⟨0, 0, 0⟩⟩ : GradientVoxel))
        (receptivePosition .X ⟨0, 0, 0⟩ i)) = ⟨1, 0, 0⟩) ∧
      ¬ (|(smoothingPass .X (fun _ => ⟨⟨0, 0, 0⟩, ⟨1, 0, 0⟩, ⟨0, 0, 0⟩⟩)
          ⟨⟨0, 0, 0⟩, ⟨1, 0, 0⟩, ⟨0, 0, 0⟩⟩ ⟨0, 0, 0⟩).gradient1.x - 1| ≤ 1 / 10 ^ 6) := by
  refine ⟨fun _ _ => rfl, ?_⟩
  rw [smoothingPass, smoothedGradientAt_eq]
  simp only [List.range_succ, List.range_zero, List.nil_append, List.cons_append,
    List.foldl_cons, List.foldl_nil, SetGradient, GetGradient]
  norm_num [Vector3f.add, Vector3f.smul, Vector3f.zero, sobolevFilter1D, abs_le]

/-! ### Scene statistics -/

/-- The counting loop started at c adds SDF_BLOCK_SIZE3 once per entry with ptr >= 0. -/
theorem countLoop_eq (S : Nat) (entries : List ITMHashEntry) (c : Int) :
    entries.foldl (fun count currentHashEntry =>
        if currentHashEntry.ptr < 0 then count else count + ((S * S * S : Nat) : Int)) c =
      c + ((S * S * S : Nat) : Int) * ((entries.filter fun e => decide (0 ≤ e.ptr)).length : Nat) := by
  induction entries generalizing c with
  | nil => simp
  | cons e es ih =>
    rw [List.foldl_cons, ih]
    by_cases he : e.ptr < 0
    · have hn : ¬ 0 ≤ e.ptr := not_le.mpr he
      simp [he, hn]
    · have hp : 0 ≤ e.ptr := not_lt.mp he
      simp [he, hp]
      ring

/-- The loop body of ComputeVoxelBounds skips an entry with negative ptr and otherwise
lowers each component of the minimum to the block origin and raises each component of
the maximum to the block limit. -/
theorem boundsStep_eq (S : Nat) (st : Vector3i × Vector3i) (e : ITMHashEntry) :
    boundsStep S st e =
      if e.ptr < 0 then st
      else (⟨min st.1.x (e.pos.x * S), min st.1.y (e.pos.y * S), min st.1.z (e.pos.z * S)⟩,
            ⟨max st.2.x ((e.pos.x + 1) * S), max st.2.y ((e.pos.y + 1) * S),
             max st.2.z ((e.pos.z + 1) * S)⟩) := by
  unfold boundsStep
  by_cases he : e.ptr < 0
  · simp [he]
  · simp only [he, if_false, Vector3i.scale, Vector3i.add, gt_iff_lt]
    refine Prod.ext ?_ ?_
    · ext
      · show (if _ then _ else _ : Vector3i).x = _
        split_ifs <;> simp_all [min_def] <;> omega
      · show (if _ then _ else _ : Vector3i).y = _
        split_ifs <;> simp_all [min_def] <;> omega
      · show (if _ then _ else _ : Vector3i).z = _
        split_ifs <;> simp_all [min_def] <;> omega
    · ext
      · show (if _ then _ else _ : Vector3i).x = _
        split_ifs <;> simp_all [max_def] <;> omega
      · show (if _ then _ else _ : Vector3i).y = _
        split_ifs <;> simp_all [max_def] <;> omega
      · show (if _ then _ else _ : Vector3i).z = _
        split_ifs <;> simp_all [max_def] <;> omega

/-- A fold whose projected state is lowered to f e at every entry with ptr >= 0 ends at
the least element of the start value and the values f e of those entries. -/
theorem foldl_lower_isLeast {σ : Type} (f : ITMHashEntry → Int) (proj : σ → Int)
    (step : σ → ITMHashEntry → σ)
    (hstep : ∀ st e, proj (step st e) = if e.ptr < 0 then proj st else min (proj st) (f e))
    (entries : List ITMHashEntry) (st : σ) :
    IsLeast (insert (proj st) {v | ∃ e ∈ entries, 0 ≤ e.ptr ∧ v = f e})
      (proj (entries.foldl step st)) := by
  induction entries generalizing st with
  | nil =>
    refine ⟨by simp, fun v hv => ?_⟩
    have hvs : v = proj st := by simpa using hv
    exact hvs.ge
  | cons e es ih =>
    rw [List.foldl_cons]
    obtain ⟨hmem, hlow⟩ := ih (step st e)
    rw [hstep] at hmem hlow
    by_cases he : e.ptr < 0
    · rw [if_pos he] at hmem hlow
      refine ⟨?_, ?_⟩
      · rcases hmem with h | ⟨e', he', hp, hv⟩
        · exact Or.inl h
        · exact Or.inr ⟨e', List.mem_cons_of_mem _ he', hp, hv⟩
      · rintro v (rfl | ⟨e', he', hp, hv⟩)
        · exact hlow (Or.inl rfl)
        · rcases List.mem_cons.mp he' with rfl | h
          · exact absurd hp (not_le.mpr he)
          · exact hlow (Or.inr ⟨e', h, hp, hv⟩)
    · rw [if_neg he] at hmem hlow
      have hp0 : 0 ≤ e.ptr := not_lt.mp he
      have hmin : proj (List.foldl step (step st e) es) ≤ min (proj st) (f e) := hlow (Or.inl rfl)
      refine ⟨?_, ?_⟩
      · rcases hmem with h | ⟨e', he', hp, hv⟩
        · rcases min_choice (proj st) (f e) with hc | hc
          · exact Or.inl (h.trans hc)
          · exact Or.inr ⟨e, List.mem_cons_self _ _, hp0, h.trans hc⟩
        · exact Or.inr ⟨e', List.mem_cons_of_mem _ he', hp, hv⟩
      · rintro v (rfl | ⟨e', he', hp, hv⟩)
        · exact hmin.trans (min_le_left _ _)
        · rcases List.mem_cons.mp he' with rfl | h
          · rw [hv]; exact hmin.trans (min_le_right _ _)
          · exact hlow (Or.inr ⟨e', h, hp, hv⟩)

/-- A fold whose projected state is raised to f e at every entry with ptr >= 0 ends at
the greatest element of the start value and the values f e of those entries. -/
theorem foldl_raise_isGreatest {σ : Type} (f : ITMHashEntry → Int) (proj : σ → Int)
    (step : σ → ITMHashEntry → σ)
    (hstep : ∀ st e, proj (step st e) = if e.ptr < 0 then proj st else max (proj st) (f e))
    (entries : List ITMHashEntry) (st : σ) :
    IsGreatest (insert (proj st) {v | ∃ e ∈ entries, 0 ≤ e.ptr ∧ v = f e})
      (proj (entries.foldl step st)) := by
  induction entries generalizing st with
  | nil =>
    refine ⟨by simp, fun v hv => ?_⟩
    have hvs : v = proj st := by simpa using hv
    exact hvs.le
  | cons e es ih =>
    rw [List.foldl_cons]
    obtain ⟨hmem, hupp⟩ := ih (step st e)
    rw [hstep] at hmem hupp
    by_cases he : e.ptr < 0
    · rw [if_pos he] at hmem hupp
      refine ⟨?_, ?_⟩
      · rcases hmem with h | ⟨e', he', hp, hv⟩
        · exact Or.inl h
        · exact Or.inr ⟨e', List.mem_cons_of_mem _ he', hp, hv⟩
      · rintro v (rfl | ⟨e', he', hp, hv⟩)
        · exact hupp (Or.inl rfl)
        · rcases List.mem_cons.mp he' with rfl | h
          · exact absurd hp (not_le.mpr he)
          · exact hupp (Or.inr ⟨e', h, hp, hv⟩)
    · rw [if_neg he] at hmem hupp
      have hp0 : 0 ≤ e.ptr := not_lt.mp he
      have hmax : max (proj st) (f e) ≤ proj (List.foldl step (step st e) es) := hupp (Or.inl rfl)
      refine ⟨?_, ?_⟩
      · rcases hmem with h | ⟨e', he', hp, hv⟩
        · rcases max_choice (proj st) (f e) with hc | hc
          · exact Or.inl (h.trans hc)
          · exact Or.inr ⟨e, List.mem_cons_self _ _, hp0, h.trans hc⟩
        · exact Or.inr ⟨e', List.mem_cons_of_mem _ he', hp, hv⟩
      · rintro v (rfl | ⟨e', he', hp, hv⟩)
        · exact (le_max_left _ _).trans hmax
        · rcases List.mem_cons.mp he' with rfl | h
          · rw [hv]; exact (le_max_right _ _).trans hmax
          · exact hupp (Or.inr ⟨e', h, hp, hv⟩)

/-- A hash table without allocated entries leaves the state of the bounds loop as it is. -/
theorem boundsLoop_unallocated (S : Nat) (entries : List ITMHashEntry)
    (st : Vector3i × Vector3i) (h : ∀ e ∈ entries, e.ptr < 0) :
    entries.foldl (boundsStep S) st = st := by
  induction entries generalizing st with
  | nil => rfl
  | cons e es ih =>
    have he : e.ptr < 0 := h e (List.mem_cons_self _ _)
    rw [List.foldl_cons, boundsStep_eq, if_pos he]
    exact ih st fun e' he' => h e' (List.mem_cons_of_mem _ he')

/-- C8, as stated, fails: for the table with the single allocated block at (1, 1, 1)
and block size 8, the returned minimum is (0, 0, 0), which is not the minimum (8, 8, 8)
of the block origins over the allocated entries (and is no block origin at all). -/
theorem ComputeVoxelBounds_min_not_block_min :
    (∃ e ∈ [(⟨⟨1, 1, 1⟩, 0⟩ : ITMHashEntry)], 0 ≤ e.ptr) ∧
      (ComputeVoxelBounds 8 [⟨⟨1, 1, 1⟩, 0⟩]).1 = ⟨0, 0, 0⟩ ∧
      ¬ IsLeast {v | ∃ e ∈ [(⟨⟨1, 1, 1⟩, 0⟩ : ITMHashEntry)], 0 ≤ e.ptr ∧ v = e.pos.x * 8}
        (ComputeVoxelBounds 8 [⟨⟨1, 1, 1⟩, 0⟩]).1.x := by
  have hval : (ComputeVoxelBounds 8 [⟨⟨1, 1, 1⟩, 0⟩]).1 = ⟨0, 0, 0⟩ := by
    simp [ComputeVoxelBounds, boundsStep_eq]
  refine ⟨⟨_, List.mem_singleton.mpr rfl, le_refl _⟩, hval, ?_⟩
  rw [hval]
  rintro ⟨⟨e, he, -, hv⟩, -⟩
  rw [List.mem_singleton.mp he] at hv
  norm_num at hv

/-- C8 (amended): ComputeVoxelBounds returns, in each component, the minimum of 0 and
the block origins pos * SDF_BLOCK_SIZE, and the maximum of 0 and the block limits
(pos + 1) * SDF_BLOCK_SIZE, taken over exactly the entries with ptr >= 0. -/
theorem ComputeVoxelBounds_isLeast_isGreatest (S : Nat) (entries : List ITMHashEntry) :
    IsLeast (insert 0 {v | ∃ e ∈ entries, 0 ≤ e.ptr ∧ v = e.pos.x * S})
        (ComputeVoxelBounds S entries).1.x ∧
      IsLeast (insert 0 {v | ∃ e ∈ entries, 0 ≤ e.ptr ∧ v = e.pos.y * S})
        (ComputeVoxelBounds S entries).1.y ∧
      IsLeast (insert 0 {v | ∃ e ∈ entries, 0 ≤ e.ptr ∧ v = e.pos.z * S})
        (ComputeVoxelBounds S entries).1.z ∧
      IsGreatest (insert 0 {v | ∃ e ∈ entries, 0 ≤ e.ptr ∧ v = (e.pos.x + 1) * S})
        (ComputeVoxelBounds S entries).2.x ∧
      IsGreatest (insert 0 {v | ∃ e ∈ entries, 0 ≤ e.ptr ∧ v = (e.pos.y + 1) * S})
        (ComputeVoxelBounds S entries).2.y ∧
      IsGreatest (insert 0 {v | ∃ e ∈ entries, 0 ≤ e.ptr ∧ v = (e.pos.z + 1) * S})
        (ComputeVoxelBounds S entries).2.z := by
  refine ⟨?_, ?_, ?_, ?_, ?_, ?_⟩
  · exact foldl_lower_isLeast (fun e => e.pos.x * S) (fun st => st.1.x) (boundsStep S)
      (fun st e => by rw [boundsStep_eq]; split_ifs <;> rfl) entries (⟨0, 0, 0⟩, ⟨0, 0, 0⟩)
  · exact foldl_lower_isLeast (fun e => e.pos.y * S) (fun st => st.1.y) (boundsStep S)
      (fun st e => by rw [boundsStep_eq]; split_ifs <;> rfl) entries (⟨0, 0, 0⟩, ⟨0, 0, 0⟩)
  · exact foldl_lower_isLeast (fun e => e.pos.z * S) (fun st => st.1.z) (boundsStep S)
      (fun st e => by rw [boundsStep_eq]; split_ifs <;> rfl) entries (⟨0, 0, 0⟩, ⟨0, 0, 0⟩)
  · exact foldl_raise_isGreatest (fun e => (e.pos.x + 1) * S) (fun st => st.2.x) (boundsStep S)
      (fun st e => by rw [boundsStep_eq]; split_ifs <;> rfl) entries (⟨0, 0, 0⟩, ⟨0, 0, 0⟩)
  · exact foldl_raise_isGreatest (fun e => (e.pos.y + 1) * S) (fun st => st.2.y) (boundsStep S)
      (fun st e => by rw [boundsStep_eq]; split_ifs <;> rfl) entries (⟨0, 0, 0⟩, ⟨0, 0, 0⟩)
  · exact foldl_raise_isGreatest (fun e => (e.pos.z + 1) * S) (fun st => st.2.z) (boundsStep S)
      (fun st e => by rw [boundsStep_eq]; split_ifs <;> rfl) entries (⟨0, 0, 0⟩, ⟨0, 0, 0⟩)

/-- C9: for a hash table of any length in which every entry has ptr < 0 (the empty
table included), ComputeHashedVoxelCount returns 0 and ComputeVoxelBounds returns
minVoxelPoint = maxVoxelPoint = (0, 0, 0); both functions are total. -/
theorem statistics_of_empty_scene (S : Nat) (entries : List ITMHashEntry)
    (h : ∀ e ∈ entries, e.ptr < 0) :
    ComputeHashedVoxelCount S entries = 0 ∧
      ComputeVoxelBounds S entries = (⟨0, 0, 0⟩, ⟨0, 0, 0⟩) := by
  constructor
  · unfold ComputeHashedVoxelCount
    rw [countLoop_eq]
    have hf : (entries.filter fun e => decide (0 ≤ e.ptr)) = [] := by
      rw [List.filter_eq_nil_iff]
      intro e he
      simpa using h e he
    simp [hf]
  · exact boundsLoop_unallocated S entries _ h

/-- Witness for C9: a table of three free slots (ptr -1 and -2) with block size 8. -/
theorem statistics_of_empty_scene_witness :
    ComputeHashedVoxelCount 8 [⟨⟨3, -4, 5⟩, -1⟩, ⟨⟨0, 0, 0⟩, -2⟩, ⟨⟨-7, 1, 2⟩, -1⟩] = 0 ∧
      ComputeVoxelBounds 8 [⟨⟨3, -4, 5⟩, -1⟩, ⟨⟨0, 0, 0⟩, -2⟩, ⟨⟨-7, 1, 2⟩, -1⟩] =
        (⟨0, 0, 0⟩, ⟨0, 0, 0⟩) :=
  statistics_of_empty_scene 8 [⟨⟨3, -4, 5⟩, -1⟩, ⟨⟨0, 0, 0⟩, -2⟩, ⟨⟨-7, 1, 2⟩, -1⟩]
    (by decide)

/-- C10: ComputeHashedVoxelCount returns SDF_BLOCK_SIZE3 times the number of entries
with ptr >= 0; dropping the entries with ptr < 0 from the table does not change it. -/
theorem ComputeHashedVoxelCount_eq (S : Nat) (entries : List ITMHashEntry) :
    ComputeHashedVoxelCount S entries =
        ((S * S * S : Nat) : Int) * ((entries.filter fun e => decide (0 ≤ e.ptr)).length : Nat) ∧
      ComputeHashedVoxelCount S entries =
        ComputeHashedVoxelCount S (entries.filter fun e => decide (0 ≤ e.ptr)) := by
  unfold ComputeHashedVoxelCount
  rw [countLoop_eq, countLoop_eq, List.filter_filter]
  simp

/-! ### Fusion -/

/-- Rounding toward zero leaves an integer as it is. -/
theorem truncToInt_intCast (n : Int) : truncToInt (n : ℚ) = n := by
  unfold truncToInt
  split_ifs <;> simp

/-- The macro MIN on two integers is their minimum. -/
theorem MIN_intCast (a b : Int) : MIN (a : ℚ) (b : ℚ) = ((min a b : Int) : ℚ) := by
  unfold MIN
  rcases lt_or_le a b with h | h
  · rw [if_pos (by exact_mod_cast h), min_eq_left h.le]
  · rw [if_neg (by exact_mod_cast not_lt.mpr h), min_eq_right h]

/-- The byte cast is exact on the integers 0 .. 255. -/
theorem toUchar_intCast (n : Int) (h0 : 0 ≤ n) (h1 : n ≤ 255) :
    ((toUchar (n : ℚ) : Nat) : Int) = n := by
  unfold toUchar
  rw [truncToInt_intCast]
  omega

/-- The clamped depth weight of FuseFrame is the integer min(oldWDepth + liveWDepth, maxW). -/
theorem fusedWDepth_eq (maxW : Int) (v : Voxel) (live : LiveFusionSample) :
    fusedWDepth maxW v live = ((min ((v.w_depth : Int) + live.liveWDepth) maxW : Int) : ℚ) := by
  unfold fusedWDepth
  exact MIN_intCast _ _

/-- The clamped colour weight of FuseFrame is the integer
min(min(oldWDepth + liveWDepth, maxW), maxW). -/
theorem fusedWColor_eq (maxW : Int) (v : Voxel) (live : LiveFusionSample) :
    fusedWColor maxW v live =
      ((min (min ((v.w_depth : Int) + live.liveWDepth) maxW) maxW : Int) : ℚ) := by
  unfold fusedWColor
  rw [fusedWDepth_eq]
  exact MIN_intCast _ _

/-- The two weights stored by one fusion step, for a cap in 0 .. 255 and a non-negative
live depth weight. -/
theorem fuseVoxel_weights (codec : VoxelCodec) (maxW : Int) (v : Voxel)
    (live : LiveFusionSample) (h0 : 0 ≤ maxW) (h1 : maxW ≤ 255) (hl : 0 ≤ live.liveWDepth) :
    (((fuseVoxel codec maxW v live).w_depth : Nat) : Int) =
        min ((v.w_depth : Int) + live.liveWDepth) maxW ∧
      (((fuseVoxel codec maxW v live).w_color : Nat) : Int) =
        min (min ((v.w_depth : Int) + live.liveWDepth) maxW) maxW := by
  have hw : (0 : Int) ≤ (v.w_depth : Int) := Int.natCast_nonneg _
  constructor
  · show ((toUchar (fusedWDepth maxW v live) : Nat) : Int) = _
    rw [fusedWDepth_eq]
    exact toUchar_intCast _ (le_min (by omega) h0) ((min_le_right _ _).trans h1)
  · show ((toUchar (fusedWColor maxW v live) : Nat) : Int) = _
    rw [fusedWColor_eq]
    exact toUchar_intCast _ (le_min (le_min (by omega) h0) h0) ((min_le_right _ _).trans h1)

/-- FuseFrame changes a voxel only through fuseVoxel: in a table with pairwise distinct
block pointers every visited voxel ends as the fusion of its initial content with the
live sample at its warped position. -/
theorem FuseFrame_apply (S : Nat) (codec : VoxelCodec) (maxW : Int)
    (interpolateTrilinearly : Vector3f → LiveFusionSample) (entries : List ITMHashEntry)
    (canonicalVoxels : Nat → Voxel) (h : distinctPtrs entries) (pi : Vector3i × Nat)
    (hpi : pi ∈ traversal S entries) :
    FuseFrame S codec maxW interpolateTrilinearly entries canonicalVoxels pi.2 =
      fuseVoxel codec maxW (canonicalVoxels pi.2)
        (interpolateTrilinearly (pi.1.toFloat.add (canonicalVoxels pi.2).warp_t)) :=
  foldl_update_apply Prod.snd
    (fun (b : Vector3i × Nat) (v : Voxel) =>
      fuseVoxel codec maxW v (interpolateTrilinearly (b.1.toFloat.add v.warp_t)))
    (traversal S entries) canonicalVoxels (traversal_indices_nodup S entries h) pi hpi

/-- The traversal visits the voxel at every offset of every entry with ptr >= 0. -/
theorem traversal_visits (S : Nat) (entries : List ITMHashEntry) (e : ITMHashEntry)
    (he : e ∈ entries) (hp : 0 ≤ e.ptr) (x y z : Nat) (hx : x < S) (hy : y < S) (hz : z < S) :
    ((e.pos.scale S).add ⟨x, y, z⟩, e.ptr.toNat * (S * S * S) + locId S x y z) ∈
      traversal S entries :=
  (mem_traversal S entries _).mpr ⟨e, he, hp, x, y, z, hx, hy, hz, rfl⟩

/-- C3: after FuseFrame, for every voxel of every entry with ptr >= 0, the stored
weights w_depth and w_color are at most maxW, for every cap maxW in 0 .. 255, all old
weights (bytes) and all non-negative live weights. -/
theorem FuseFrame_weights_le_maxW (S : Nat) (codec : VoxelCodec) (maxW : Int)
    (interpolateTrilinearly : Vector3f → LiveFusionSample) (entries : List ITMHashEntry)
    (canonicalVoxels : Nat → Voxel) (h0 : 0 ≤ maxW) (h1 : maxW ≤ 255)
    (hlive : ∀ p, 0 ≤ (interpolateTrilinearly p).liveWDepth)
    (e : ITMHashEntry) (he : e ∈ entries) (hp : 0 ≤ e.ptr) (x y z : Nat)
    (hx : x < S) (hy : y < S) (hz : z < S) :
    (((FuseFrame S codec maxW interpolateTrilinearly entries canonicalVoxels
        (e.ptr.toNat * (S * S * S) + locId S x y z)).w_depth : Nat) : Int) ≤ maxW ∧
      (((FuseFrame S codec maxW interpolateTrilinearly entries canonicalVoxels
        (e.ptr.toNat * (S * S * S) + locId S x y z)).w_color : Nat) : Int) ≤ maxW := by
  have hmem := traversal_visits S entries e he hp x y z hx hy hz
  refine foldl_update_invariant Prod.snd (fuseStep codec maxW interpolateTrilinearly)
    (fun v => ((v.w_depth : Nat) : Int) ≤ maxW ∧ ((v.w_color : Nat) : Int) ≤ maxW)
    ?_ ?_ (traversal S entries) canonicalVoxels _ (Or.inr (List.mem_map_of_mem Prod.snd hmem))
  · intro m b
    simp only [fuseStep, Function.update_same]
    obtain ⟨hd, hc⟩ := fuseVoxel_weights codec maxW (m b.2)
      (interpolateTrilinearly (b.1.toFloat.add (m b.2).warp_t)) h0 h1 (hlive _)
    rw [hd, hc]
    exact ⟨min_le_right _ _, min_le_right _ _⟩
  · intro m b i hi
    simp only [fuseStep]
    exact Function.update_noteq hi _ _

/-- Witness for C3: a table with two allocated blocks and a free slot, cap 100, an old
depth weight of 200 and a live depth weight of 100. -/
theorem FuseFrame_weights_le_maxW_witness :
    (((FuseFrame 8 floatCodec 100 (fun _ => ⟨1 / 2, ⟨0, 0, 0⟩, 100, 3, 0⟩)
        [⟨⟨0, 0, 0⟩, 0⟩, ⟨⟨5, 5, 5⟩, -1⟩, ⟨⟨1, 0, -2⟩, 1⟩]
        (fun _ => ⟨1 / 4, 200, 7, ⟨0, 0, 0⟩, 0, ⟨0, 0, 0⟩, ⟨0, 0, 0⟩⟩)
        ((⟨⟨1, 0, -2⟩, 1⟩ : ITMHashEntry).ptr.toNat * (8 * 8 * 8) + locId 8 1 2 3)).w_depth : Nat) :
          Int) ≤ 100 ∧
      (((FuseFrame 8 floatCodec 100 (fun _ => ⟨1 / 2, ⟨0, 0, 0⟩, 100, 3, 0⟩)
        [⟨⟨0, 0, 0⟩, 0⟩, ⟨⟨5, 5, 5⟩, -1⟩, ⟨⟨1, 0, -2⟩, 1⟩]
        (fun _ => ⟨1 / 4, 200, 7, ⟨0, 0, 0⟩, 0, ⟨0, 0, 0⟩, ⟨0, 0, 0⟩⟩)
        ((⟨⟨1, 0, -2⟩, 1⟩ : ITMHashEntry).ptr.toNat * (8 * 8 * 8) + locId 8 1 2 3)).w_color : Nat) :
          Int) ≤ 100 :=
  FuseFrame_weights_le_maxW 8 floatCodec 100 (fun _ => ⟨1 / 2, ⟨0, 0, 0⟩, 100, 3, 0⟩)
    [⟨⟨0, 0, 0⟩, 0⟩, ⟨⟨5, 5, 5⟩, -1⟩, ⟨⟨1, 0, -2⟩, 1⟩]
    (fun _ => ⟨1 / 4, 200, 7, ⟨0, 0, 0⟩, 0, ⟨0, 0, 0⟩, ⟨0, 0, 0⟩⟩)
    (by decide) (by decide) (fun _ => (by decide : (0 : Int) ≤ 100)) ⟨⟨1, 0, -2⟩, 1⟩ (by decide) (by decide)
    1 2 3 (by decide) (by decide) (by decide)

/-- What FuseFrame stores as distance: the encoded weighted average of the stored
value as it is (not decoded by valueToFloat) and the live distance. -/
theorem FuseFrame_sdf_eq (S : Nat) (codec : VoxelCodec) (maxW : Int)
    (interpolateTrilinearly : Vector3f → LiveFusionSample) (entries : List ITMHashEntry)
    (canonicalVoxels : Nat → Voxel) (h : distinctPtrs entries) (pi : Vector3i × Nat)
    (hpi : pi ∈ traversal S entries) :
    (FuseFrame S codec maxW interpolateTrilinearly entries canonicalVoxels pi.2).sdf =
      codec.floatToValue
        ((((canonicalVoxels pi.2).w_depth : Int) * (canonicalVoxels pi.2).sdf +
          (interpolateTrilinearly (pi.1.toFloat.add (canonicalVoxels pi.2).warp_t)).liveWDepth *
            (interpolateTrilinearly (pi.1.toFloat.add (canonicalVoxels pi.2).warp_t)).liveSdf) /
          ((((canonicalVoxels pi.2).w_depth : Int) +
            (interpolateTrilinearly (pi.1.toFloat.add (canonicalVoxels pi.2).warp_t)).liveWDepth :
              Int) : ℚ)) := by
  rw [FuseFrame_apply S codec maxW interpolateTrilinearly entries canonicalVoxels h pi hpi]
  rfl

/-- The first voxel of a one-block table is visited by the traversal. -/
theorem origin_mem_traversal :
    ((⟨0, 0, 0⟩ : Vector3i), 0) ∈ traversal 8 [⟨⟨0, 0, 0⟩, 0⟩] :=
  traversal_visits 8 [⟨⟨0, 0, 0⟩, 0⟩] ⟨⟨0, 0, 0⟩, 0⟩ (List.mem_singleton.mpr rfl) (le_refl _)
    0 0 0 (by decide) (by decide) (by decide)

/-- C4 (the code at the failing input): with a 16-bit distance (stored value v for the
distance v / 32767), a voxel storing 1 with depth weight 1 and a live sample of distance
1 / 32767 with weight 1, FuseFrame stores 16384, whereas the encoded weighted average
of the decoded old distance and the live distance is 1. -/
theorem FuseFrame_sdf_not_decoded :
    (FuseFrame 8 shortCodec 100 (fun _ => ⟨1 / 32767, ⟨0, 0, 0⟩, 1, 1, 0⟩) [⟨⟨0, 0, 0⟩, 0⟩]
        (fun _ => ⟨1, 1, 1, ⟨0, 0, 0⟩, 0, ⟨0, 0, 0⟩, ⟨0, 0, 0⟩⟩) 0).sdf = 16384 ∧
      shortCodec.floatToValue
        ((((1 : Int) : ℚ) * shortCodec.valueToFloat 1 + ((1 : Int) : ℚ) * (1 / 32767)) /
          (((1 + 1 : Int)) : ℚ)) = 1 := by
  constructor
  · have h := FuseFrame_sdf_eq 8 shortCodec 100 (fun _ => ⟨1 / 32767, ⟨0, 0, 0⟩, 1, 1, 0⟩)
      [⟨⟨0, 0, 0⟩, 0⟩] (fun _ => ⟨1, 1, 1, ⟨0, 0, 0⟩, 0, ⟨0, 0, 0⟩, ⟨0, 0, 0⟩⟩) (by decide)
      (⟨0, 0, 0⟩, 0) origin_mem_traversal
    rw [h]
    norm_num [shortCodec, truncToInt]
  · norm_num [shortCodec, truncToInt]

/-- C5: in FuseFrame the colour weight is clamped against the depth weight: for every
visited voxel of a table with distinct block pointers, a cap in 0 .. 255 and a
non-negative live depth weight, the stored w_color is
min(min(oldWDepth + liveWDepth, maxW), maxW), it equals the stored w_depth, and it is
the same for every old and live colour weight. -/
theorem FuseFrame_w_color_from_depth (S : Nat) (codec : VoxelCodec) (maxW : Int)
    (interpolateTrilinearly : Vector3f → LiveFusionSample) (entries : List ITMHashEntry)
    (canonicalVoxels : Nat → Voxel) (hd : distinctPtrs entries) (h0 : 0 ≤ maxW)
    (h1 : maxW ≤ 255) (pi : Vector3i × Nat) (hpi : pi ∈ traversal S entries)
    (hl : 0 ≤ (interpolateTrilinearly
      (pi.1.toFloat.add (canonicalVoxels pi.2).warp_t)).liveWDepth) :
    (((FuseFrame S codec maxW interpolateTrilinearly entries canonicalVoxels pi.2).w_color : Nat) :
        Int) =
        min (min (((canonicalVoxels pi.2).w_depth : Int) +
          (interpolateTrilinearly (pi.1.toFloat.add (canonicalVoxels pi.2).warp_t)).liveWDepth)
          maxW) maxW ∧
      (FuseFrame S codec maxW interpolateTrilinearly entries canonicalVoxels pi.2).w_color =
        (FuseFrame S codec maxW interpolateTrilinearly entries canonicalVoxels pi.2).w_depth ∧
      ∀ (oldWColor : Nat) (liveWColor : Int),
        (fuseVoxel codec maxW { canonicalVoxels pi.2 with w_color := oldWColor }
          { interpolateTrilinearly (pi.1.toFloat.add (canonicalVoxels pi.2).warp_t) with
            liveWColor := liveWColor }).w_color =
        (FuseFrame S codec maxW interpolateTrilinearly entries canonicalVoxels pi.2).w_color := by
  rw [FuseFrame_apply S codec maxW interpolateTrilinearly entries canonicalVoxels hd pi hpi]
  obtain ⟨hdep, hcol⟩ := fuseVoxel_weights codec maxW (canonicalVoxels pi.2)
    (interpolateTrilinearly (pi.1.toFloat.add (canonicalVoxels pi.2).warp_t)) h0 h1 hl
  refine ⟨hcol, ?_, fun _ _ => rfl⟩
  have : (((fuseVoxel codec maxW (canonicalVoxels pi.2)
      (interpolateTrilinearly (pi.1.toFloat.add (canonicalVoxels pi.2).warp_t))).w_color : Nat) :
        Int) =
      (((fuseVoxel codec maxW (canonicalVoxels pi.2)
      (interpolateTrilinearly (pi.1.toFloat.add (canonicalVoxels pi.2).warp_t))).w_depth : Nat) :
        Int) := by
    rw [hcol, hdep, min_assoc, min_self]
  exact_mod_cast this

/-- Witness for C5: one allocated block, cap 100, old depth weight 40, live depth
weight 30, old colour weight 7, live colour weight 3. -/
theorem FuseFrame_w_color_from_depth_witness :
    (((FuseFrame 8 floatCodec 100 (fun _ => ⟨1 / 2, ⟨0, 0, 0⟩, 30, 3, 0⟩) [⟨⟨0, 0, 0⟩, 0⟩]
        (fun _ => ⟨1 / 4, 40, 7, ⟨0, 0, 0⟩, 0, ⟨0, 0, 0⟩, ⟨0, 0, 0⟩⟩) 0).w_color : Nat) : Int) =
        min (min (((40 : Nat) : Int) + 30) 100) 100 ∧
      (FuseFrame 8 floatCodec 100 (fun _ => ⟨1 / 2, ⟨0, 0, 0⟩, 30, 3, 0⟩) [⟨⟨0, 0, 0⟩, 0⟩]
        (fun _ => ⟨1 / 4, 40, 7, ⟨0, 0, 0⟩, 0, ⟨0, 0, 0⟩, ⟨0, 0, 0⟩⟩) 0).w_color =
      (FuseFrame 8 floatCodec 100 (fun _ => ⟨1 / 2, ⟨0, 0, 0⟩, 30, 3, 0⟩) [⟨⟨0, 0, 0⟩, 0⟩]
        (fun _ => ⟨1 / 4, 40, 7, ⟨0, 0, 0⟩, 0, ⟨0, 0, 0⟩, ⟨0, 0, 0⟩⟩) 0).w_depth :=
  ⟨(FuseFrame_w_color_from_depth 8 floatCodec 100 (fun _ => ⟨1 / 2, ⟨0, 0, 0⟩, 30, 3, 0⟩)
      [⟨⟨0, 0, 0⟩, 0⟩] (fun _ => ⟨1 / 4, 40, 7, ⟨0, 0, 0⟩, 0, ⟨0, 0, 0⟩, ⟨0, 0, 0⟩⟩)
      (by decide) (by decide) (by decide) (⟨0, 0, 0⟩, 0) origin_mem_traversal
      (by decide : (0 : Int) ≤ 30)).1,
   (FuseFrame_w_color_from_depth 8 floatCodec 100 (fun _ => ⟨1 / 2, ⟨0, 0, 0⟩, 30, 3, 0⟩)
      [⟨⟨0, 0, 0⟩, 0⟩] (fun _ => ⟨1 / 4, 40, 7, ⟨0, 0, 0⟩, 0, ⟨0, 0, 0⟩, ⟨0, 0, 0⟩⟩)
      (by decide) (by decide) (by decide) (⟨0, 0, 0⟩, 0) origin_mem_traversal
      (by decide : (0 : Int) ≤ 30)).2.1⟩

/-- The weighted average of FuseFrame returns the common value when the live distance
equals the stored value as FuseFrame reads it and the weights sum to a positive number. -/
theorem fusedSdf_of_equal (v : Voxel) (live : LiveFusionSample) (h : live.liveSdf = v.sdf)
    (hw : 0 < (v.w_depth : Int) + live.liveWDepth) : fusedSdf v live = v.sdf := by
  unfold fusedSdf
  have hq : (((v.w_depth : Int) + live.liveWDepth : Int) : ℚ) ≠ 0 := by
    exact_mod_cast hw.ne'
  rw [h, div_eq_iff hq]
  push_cast
  ring

/-- C6 (the code at the failing input): with a 16-bit distance (stored value v for the
distance v / 32767), a voxel storing 1 (distance 1 / 32767) with depth weight 1, and a
live sample of that same distance 1 / 32767 with weight 1, the weighted average computed
by FuseFrame is 16384 / 32767 and not the common distance, and the stored distance
changes from 1 / 32767 to 16384 / 32767. -/
theorem FuseFrame_zero_difference_changes_distance :
    (⟨1 / 32767, ⟨0, 0, 0⟩, 1, 1, 0⟩ : LiveFusionSample).liveSdf =
        shortCodec.valueToFloat (⟨1, 1, 1, ⟨0, 0, 0⟩, 0, ⟨0, 0, 0⟩, ⟨0, 0, 0⟩⟩ : Voxel).sdf ∧
      fusedSdf ⟨1, 1, 1, ⟨0, 0, 0⟩, 0, ⟨0, 0, 0⟩, ⟨0, 0, 0⟩⟩ ⟨1 / 32767, ⟨0, 0, 0⟩, 1, 1, 0⟩ =
        16384 / 32767 ∧
      shortCodec.valueToFloat
        (FuseFrame 8 shortCodec 100 (fun _ => ⟨1 / 32767, ⟨0, 0, 0⟩, 1, 1, 0⟩) [⟨⟨0, 0, 0⟩, 0⟩]
          (fun _ => ⟨1, 1, 1, ⟨0, 0, 0⟩, 0, ⟨0, 0, 0⟩, ⟨0, 0, 0⟩⟩) 0).sdf = 16384 / 32767 := by
  refine ⟨by norm_num [shortCodec], by norm_num [fusedSdf], ?_⟩
  have h := FuseFrame_sdf_eq 8 shortCodec 100 (fun _ => ⟨1 / 32767, ⟨0, 0, 0⟩, 1, 1, 0⟩)
    [⟨⟨0, 0, 0⟩, 0⟩] (fun _ => ⟨1, 1, 1, ⟨0, 0, 0⟩, 0, ⟨0, 0, 0⟩, ⟨0, 0, 0⟩⟩) (by decide)
    (⟨0, 0, 0⟩, 0) origin_mem_traversal
  rw [h]
  norm_num [shortCodec, truncToInt]

/-! ### Warp field update -/

/-- The square root stand-in is 0 at 0. -/
theorem sqrtf_zero : sqrtf 0 = 0 := by
  simp [sqrtf]

/-- The square root stand-in is exact on squares. -/
theorem sqrtf_mul_self (r : ℚ) : sqrtf (r * r) = |r| := by
  unfold sqrtf
  rw [Rat.mul_self_num, Rat.mul_self_den]
  have hn : (r.num * r.num).toNat = r.num.natAbs * r.num.natAbs := by
    rw [← Int.natAbs_mul_self]
    exact Int.toNat_natCast _
  have hsq : r.num.natAbs * r.num.natAbs * (r.den * r.den) * 4 ^ 32 =
      (r.num.natAbs * r.den * 2 ^ 32) * (r.num.natAbs * r.den * 2 ^ 32) := by ring
  rw [hn, hsq, Nat.sqrt_eq]
  have hden : (r.den : ℚ) ≠ 0 := Nat.cast_ne_zero.mpr r.den_nz
  have habs : |r| = (r.num.natAbs : ℚ) / r.den := by
    conv_lhs => rw [← Rat.num_div_den r]
    rw [abs_div, Nat.abs_cast, Nat.cast_natAbs, Int.cast_abs]
  rw [habs]
  push_cast
  field_simp
  ring

/-- The length of the zero vector is 0. -/
theorem length_zero : length Vector3f.zero = 0 := by
  simp [length, Vector3f.dot, Vector3f.zero, sqrtf_zero]

/-- The length of a vector along the x axis is the absolute value of its x component. -/
theorem length_x_axis (a : ℚ) : length ⟨a, 0, 0⟩ = |a| := by
  simp [length, Vector3f.dot, sqrtf_mul_self]

/-- The level-set term vanishes when the live gradient has unit length. -/
theorem deltaELevelSet_of_unit (J : Vector3f) (H : Matrix3f) (h : length J = 1) :
    deltaELevelSet J H = Vector3f.zero := by
  simp [deltaELevelSet, h, Vector3f.smul, Vector3f.sdiv, Vector3f.zero]

/-- The closed form of the rigidity term vanishes when the three warp Hessians are zero. -/
theorem deltaEKillingAlt_zero (gamma : ℚ) :
    deltaEKillingAlt gamma Matrix3f.zero Matrix3f.zero Matrix3f.zero = Vector3f.zero := by
  simp [deltaEKillingAlt, Matrix3f.zero, Vector3f.zero]

/-- With colorSdfThreshold = -1 the test abs(canonicalSdf) > colorSdfThreshold always
succeeds, so the update of a voxel is built from the Alt sampling without colour. -/
theorem warpUpdateAt_eq (codec : VoxelCodec) (smp : WarpSampling) (m : Nat → Voxel)
    (p : Vector3i) (v : Voxel) :
    warpUpdateAt codec smp m p v =
      Vector3f.smul (1 / 10)
        (((Vector3f.smul
            (smp.interpolateTrilinearly (p.toFloat.add v.warp_t) - codec.valueToFloat v.sdf)
            (smp.ComputePerPointWarpedLiveJacobianAndHessianAlt m p v.warp_t
              (smp.interpolateTrilinearly (p.toFloat.add v.warp_t))).liveSdfJacobian).add
          (Vector3f.smul weightLevelSetTerm
            (deltaELevelSet
              (smp.ComputePerPointWarpedLiveJacobianAndHessianAlt m p v.warp_t
                (smp.interpolateTrilinearly (p.toFloat.add v.warp_t))).liveSdfJacobian
              (smp.ComputePerPointWarpedLiveJacobianAndHessianAlt m p v.warp_t
                (smp.interpolateTrilinearly (p.toFloat.add v.warp_t))).liveSdfHessian))).add
          (Vector3f.smul weightKillingTerm
            (deltaEKillingAlt rigidityEnforcementFactor
              (smp.ComputePerPointWarpJacobianAndHessianAlt m v.warp_t p).warpHessianU
              (smp.ComputePerPointWarpJacobianAndHessianAlt m v.warp_t p).warpHessianV
              (smp.ComputePerPointWarpJacobianAndHessianAlt m v.warp_t p).warpHessianW))) := by
  have hthr : |codec.valueToFloat v.sdf| > colorSdfThreshold := by
    unfold colorSdfThreshold
    have := abs_nonneg (codec.valueToFloat v.sdf)
    linarith
  simp only [warpUpdateAt, hthr, if_true, decide_True, Bool.not_true, deltaEData]
  rfl

/-- The running maximum of the first loop never decreases. -/
theorem computeLoop_max_mono (codec : VoxelCodec) (smp : WarpSampling)
    (l : List (Vector3i × Nat)) (st : (Nat → Voxel) × ℚ) :
    st.2 ≤ (l.foldl (computeStep codec smp) st).2 := by
  induction l generalizing st with
  | nil => exact le_refl _
  | cons a as ih =>
    rw [List.foldl_cons]
    refine le_trans ?_ (ih _)
    simp only [computeStep]
    split_ifs with h
    · exact h.le
    · exact le_refl _

/-- The traversal of a table whose first entry is allocated starts at offset (0, 0, 0)
of that entry. -/
theorem traversal_head (S : Nat) (hS : 0 < S) (e : ITMHashEntry) (hp : 0 ≤ e.ptr)
    (es : List ITMHashEntry) :
    ∃ tail, traversal S (e :: es) =
      ((e.pos.scale S).add ⟨(0 : Nat), (0 : Nat), (0 : Nat)⟩,
        e.ptr.toNat * (S * S * S) + locId S 0 0 0) :: tail := by
  obtain ⟨n, rfl⟩ : ∃ n, S = n + 1 := ⟨S - 1, by omega⟩
  have hb : ∃ t, blockOffsets (n + 1) = (0, 0, 0) :: t := by
    unfold blockOffsets
    rw [List.range_succ_eq_map]
    simp only [List.flatMap_cons, List.map_cons, List.cons_append]
    exact ⟨_, rfl⟩
  obtain ⟨t, ht⟩ := hb
  unfold traversal
  rw [List.flatMap_cons]
  unfold entryVoxels
  rw [if_neg (not_lt.mpr hp), ht, List.map_cons, List.cons_append]
  exact ⟨_, rfl⟩

/-- Writing a pending update into one voxel keeps the array equal to the entry array
up to pending updates. -/
theorem sameUpToUpdate_write (m m0 : Nat → Voxel) (h : sameUpToUpdate m m0) (i : Nat)
    (u : Vector3f) :
    sameUpToUpdate (Function.update m i { m i with warp_t_update := u }) m0 := by
  intro j
  by_cases hj : j = i
  · subst hj
    rw [Function.update_same]
    exact h j
  · rw [Function.update_noteq hj]
    exact h j

/-- The first loop of UpdateWarpField keeps the maximum at 0 when every visited voxel
gets the zero update. -/
theorem computeLoop_zero (codec : VoxelCodec) (smp : WarpSampling) (m0 : Nat → Voxel)
    (l : List (Vector3i × Nat))
    (hz : ∀ m, sameUpToUpdate m m0 → ∀ pi ∈ l,
      warpUpdateAt codec smp m pi.1 (m pi.2) = Vector3f.zero)
    (m : Nat → Voxel) (hm : sameUpToUpdate m m0) :
    (l.foldl (computeStep codec smp) (m, 0)).2 = 0 := by
  induction l generalizing m with
  | nil => rfl
  | cons a as ih =>
    rw [List.foldl_cons]
    have hu := hz m hm a (List.mem_cons_self _ _)
    have hstep : computeStep codec smp (m, 0) a =
        (Function.update m a.2 { m a.2 with warp_t_update := Vector3f.zero }, 0) := by
      simp only [computeStep, hu, length_zero, lt_self_iff_false, if_false]
    rw [hstep]
    exact ih (fun m' hm' pi hpi => hz m' hm' pi (List.mem_cons_of_mem _ hpi)) _
      (sameUpToUpdate_write m m0 hm a.2 Vector3f.zero)

/-- The value returned by UpdateWarpField is the maximum reached by the first loop. -/
theorem UpdateWarpField_snd (S : Nat) (codec : VoxelCodec) (smp : WarpSampling)
    (entries : List ITMHashEntry) (canonicalVoxels : Nat → Voxel) :
    (UpdateWarpField S codec smp entries canonicalVoxels).2 =
      (computePass S codec smp entries canonicalVoxels).2 := rfl

/-- C7 (amended): if at every visited voxel the sampled live distance equals the
canonical distance, the three warp Hessians are zero and, in addition, the level-set
term deltaELevelSet of the sampled live gradient and Hessian vanishes (as it does for
a live gradient of unit length), then UpdateWarpField returns the maximum update
magnitude 0.  The samples are those of the states of the first loop, which differ from
the entry array at most in the pending updates. -/
theorem UpdateWarpField_zero_difference (S : Nat) (codec : VoxelCodec) (smp : WarpSampling)
    (entries : List ITMHashEntry) (canonicalVoxels : Nat → Voxel)
    (hzero : ∀ m, sameUpToUpdate m canonicalVoxels → ∀ pi ∈ traversal S entries,
      smp.interpolateTrilinearly (pi.1.toFloat.add (m pi.2).warp_t) =
          codec.valueToFloat (m pi.2).sdf ∧
        (smp.ComputePerPointWarpJacobianAndHessianAlt m (m pi.2).warp_t pi.1).warpHessianU =
          Matrix3f.zero ∧
        (smp.ComputePerPointWarpJacobianAndHessianAlt m (m pi.2).warp_t pi.1).warpHessianV =
          Matrix3f.zero ∧
        (smp.ComputePerPointWarpJacobianAndHessianAlt m (m pi.2).warp_t pi.1).warpHessianW =
          Matrix3f.zero ∧
        deltaELevelSet
          (smp.ComputePerPointWarpedLiveJacobianAndHessianAlt m pi.1 (m pi.2).warp_t
            (smp.interpolateTrilinearly (pi.1.toFloat.add (m pi.2).warp_t))).liveSdfJacobian
          (smp.ComputePerPointWarpedLiveJacobianAndHessianAlt m pi.1 (m pi.2).warp_t
            (smp.interpolateTrilinearly (pi.1.toFloat.add (m pi.2).warp_t))).liveSdfHessian =
          Vector3f.zero) :
    (UpdateWarpField S codec smp entries canonicalVoxels).2 = 0 := by
  rw [UpdateWarpField_snd]
  unfold computePass
  refine computeLoop_zero codec smp canonicalVoxels _ ?_ canonicalVoxels (fun i => rfl)
  intro m hm pi hpi
  obtain ⟨hd, hu, hv, hw, hls⟩ := hzero m hm pi hpi
  rw [warpUpdateAt_eq, hu, hv, hw, hls, hd, deltaEKillingAlt_zero]
  simp [Vector3f.smul, Vector3f.add, Vector3f.zero]

/-- Witness for C7: one allocated block whose voxels all hold distance 1 / 2, and a
live scene of distance 1 / 2 with unit gradient (1, 0, 0). -/
theorem UpdateWarpField_zero_difference_witness :
    (UpdateWarpField 8 floatCodec unitLiveSampling [⟨⟨0, 0, 0⟩, 0⟩]
      (fun _ => ⟨1 / 2, 1, 1, ⟨0, 0, 0⟩, 0, ⟨0, 0, 0⟩, ⟨0, 0, 0⟩⟩)).2 = 0 :=
  UpdateWarpField_zero_difference 8 floatCodec unitLiveSampling [⟨⟨0, 0, 0⟩, 0⟩]
    (fun _ => ⟨1 / 2, 1, 1, ⟨0, 0, 0⟩, 0, ⟨0, 0, 0⟩, ⟨0, 0, 0⟩⟩)
    (fun m hm pi _ => by
      have hsdf : (m pi.2).sdf = 1 / 2 := congrArg Voxel.sdf (hm pi.2)
      refine ⟨?_, rfl, rfl, rfl, ?_⟩
      · simp [unitLiveSampling, floatCodec, hsdf]
      · refine deltaELevelSet_of_unit _ _ ?_
        have h1 : length ⟨1, 0, 0⟩ = |(1 : ℚ)| := length_x_axis 1
        simpa [unitLiveSampling] using h1)

/-- C7, as stated, fails: in a one-block scene whose voxels all have distance 0 and warp
0, with a live scene that has distance 0 at every sample (equal to the canonical
distance), live gradient (2, 0, 0), identity live Hessian, and zero warp Jacobian and
Hessians, UpdateWarpField returns a maximum update magnitude that is not 0. -/
theorem UpdateWarpField_zero_difference_nonzero :
    (∀ pi ∈ traversal 8 [⟨⟨0, 0, 0⟩, 0⟩],
      steepLiveSampling.interpolateTrilinearly
          (pi.1.toFloat.add ((fun _ => ⟨0, 1, 1, ⟨0, 0, 0⟩, 0, ⟨0, 0, 0⟩, ⟨0, 0, 0⟩⟩ : Nat → Voxel)
            pi.2).warp_t) =
        floatCodec.valueToFloat
          ((fun _ => ⟨0, 1, 1, ⟨0, 0, 0⟩, 0, ⟨0, 0, 0⟩, ⟨0, 0, 0⟩⟩ : Nat → Voxel) pi.2).sdf ∧
      ((fun _ => ⟨0, 1, 1, ⟨0, 0, 0⟩, 0, ⟨0, 0, 0⟩, ⟨0, 0, 0⟩⟩ : Nat → Voxel) pi.2).warp_t =
        Vector3f.zero) ∧
      (∀ m w p, steepLiveSampling.ComputePerPointWarpJacobianAndHessianAlt m w p =
        ⟨Matrix3f.zero, Matrix3f.zero, Matrix3f.zero, Matrix3f.zero, false⟩) ∧
      0 < (UpdateWarpField 8 floatCodec steepLiveSampling [⟨⟨0, 0, 0⟩, 0⟩]
        (fun _ => ⟨0, 1, 1, ⟨0, 0, 0⟩, 0, ⟨0, 0, 0⟩, ⟨0, 0, 0⟩⟩)).2 := by
  refine ⟨fun pi _ => ⟨rfl, rfl⟩, fun _ _ _ => rfl, ?_⟩
  rw [UpdateWarpField_snd]
  unfold computePass
  obtain ⟨tail, ht⟩ := traversal_head 8 (by decide) ⟨⟨0, 0, 0⟩, 0⟩ (le_refl _) []
  rw [ht, List.foldl_cons]
  refine lt_of_lt_of_le ?_ (computeLoop_max_mono _ _ _ _)
  have hJ : length ⟨2, 0, 0⟩ = 2 := by
    rw [length_x_axis]; norm_num
  have hupd : warpUpdateAt floatCodec steepLiveSampling
      (fun _ => ⟨0, 1, 1, ⟨0, 0, 0⟩, 0, ⟨0, 0, 0⟩, ⟨0, 0, 0⟩⟩)
      ((⟨0, 0, 0⟩ : Vector3i).scale ((8 : Nat) : Int) |>.add ⟨(0 : Nat), (0 : Nat), (0 : Nat)⟩)
      ⟨0, 1, 1, ⟨0, 0, 0⟩, 0, ⟨0, 0, 0⟩, ⟨0, 0, 0⟩⟩ =
      ⟨1 / 10 * (1 / 5 * (2 / (2 + 1 / 2 ^ 23))), 0, 0⟩ := by
    rw [warpUpdateAt_eq]
    simp only [steepLiveSampling, deltaELevelSet, hJ, deltaEKillingAlt_zero]
    ext <;>
      simp [Vector3f.smul, Vector3f.add, Vector3f.sdiv, Vector3f.zero, Matrix3f.mulVec,
        Matrix3f.m00, Matrix3f.m01, Matrix3f.m02, Matrix3f.m10, Matrix3f.m11, Matrix3f.m12,
        Matrix3f.m20, Matrix3f.m21, Matrix3f.m22, floatCodec, weightLevelSetTerm,
        weightKillingTerm, epsilon]
    norm_num
  simp only [computeStep]
  rw [hupd, length_x_axis]
  norm_num

/-! ### Reduction of the statistics over partitions -/

/-- The six extrema of ComputeVoxelBounds: each component of the minimum is the least
of 0 and the block origins, each component of the maximum the greatest of 0 and the
block limits, over the entries with ptr >= 0 (f gives the origin or limit of an entry). -/
theorem boundsLoop_min_isLeast (S : Nat) (entries : List ITMHashEntry) :
    IsLeast (insert 0 {v | ∃ e ∈ entries, 0 ≤ e.ptr ∧ v = e.pos.x * S})
        (ComputeVoxelBounds S entries).1.x ∧
      IsLeast (insert 0 {v | ∃ e ∈ entries, 0 ≤ e.ptr ∧ v = e.pos.y * S})
        (ComputeVoxelBounds S entries).1.y ∧
      IsLeast (insert 0 {v | ∃ e ∈ entries, 0 ≤ e.ptr ∧ v = e.pos.z * S})
        (ComputeVoxelBounds S entries).1.z :=
  ⟨foldl_lower_isLeast (fun e => e.pos.x * S) (fun st => st.1.x) (boundsStep S)
      (fun st e => by rw [boundsStep_eq]; split_ifs <;> rfl) entries (⟨0, 0, 0⟩, ⟨0, 0, 0⟩),
   foldl_lower_isLeast (fun e => e.pos.y * S) (fun st => st.1.y) (boundsStep S)
      (fun st e => by rw [boundsStep_eq]; split_ifs <;> rfl) entries (⟨0, 0, 0⟩, ⟨0, 0, 0⟩),
   foldl_lower_isLeast (fun e => e.pos.z * S) (fun st => st.1.z) (boundsStep S)
      (fun st e => by rw [boundsStep_eq]; split_ifs <;> rfl) entries (⟨0, 0, 0⟩, ⟨0, 0, 0⟩)⟩

/-- The three components of the maximum of ComputeVoxelBounds as greatest elements. -/
theorem boundsLoop_max_isGreatest (S : Nat) (entries : List ITMHashEntry) :
    IsGreatest (insert 0 {v | ∃ e ∈ entries, 0 ≤ e.ptr ∧ v = (e.pos.x + 1) * S})
        (ComputeVoxelBounds S entries).2.x ∧
      IsGreatest (insert 0 {v | ∃ e ∈ entries, 0 ≤ e.ptr ∧ v = (e.pos.y + 1) * S})
        (ComputeVoxelBounds S entries).2.y ∧
      IsGreatest (insert 0 {v | ∃ e ∈ entries, 0 ≤ e.ptr ∧ v = (e.pos.z + 1) * S})
        (ComputeVoxelBounds S entries).2.z :=
  ⟨foldl_raise_isGreatest (fun e => (e.pos.x + 1) * S) (fun st => st.2.x) (boundsStep S)
      (fun st e => by rw [boundsStep_eq]; split_ifs <;> rfl) entries (⟨0, 0, 0⟩, ⟨0, 0, 0⟩),
   foldl_raise_isGreatest (fun e => (e.pos.y + 1) * S) (fun st => st.2.y) (boundsStep S)
      (fun st e => by rw [boundsStep_eq]; split_ifs <;> rfl) entries (⟨0, 0, 0⟩, ⟨0, 0, 0⟩),
   foldl_raise_isGreatest (fun e => (e.pos.z + 1) * S) (fun st => st.2.z) (boundsStep S)
      (fun st e => by rw [boundsStep_eq]; split_ifs <;> rfl) entries (⟨0, 0, 0⟩, ⟨0, 0, 0⟩)⟩

/-- The values contributed by a concatenated table are those of its two parts. -/
theorem contributions_append (f : ITMHashEntry → Int) (A B : List ITMHashEntry) :
    insert 0 {v | ∃ e ∈ A ++ B, 0 ≤ e.ptr ∧ v = f e} =
      insert 0 {v | ∃ e ∈ A, 0 ≤ e.ptr ∧ v = f e} ∪
        insert 0 {v | ∃ e ∈ B, 0 ≤ e.ptr ∧ v = f e} := by
  ext v
  simp only [Set.mem_insert_iff, Set.mem_setOf_eq, Set.mem_union, List.mem_append]
  constructor
  · rintro (h | ⟨e, he | he, hp, hv⟩)
    · exact Or.inl (Or.inl h)
    · exact Or.inl (Or.inr ⟨e, he, hp, hv⟩)
    · exact Or.inr (Or.inr ⟨e, he, hp, hv⟩)
  · rintro ((h | ⟨e, he, hp, hv⟩) | (h | ⟨e, he, hp, hv⟩))
    · exact Or.inl h
    · exact Or.inr ⟨e, Or.inl he, hp, hv⟩
    · exact Or.inl h
    · exact Or.inr ⟨e, Or.inr he, hp, hv⟩

/-- The values contributed by a table do not depend on the order of its entries. -/
theorem contributions_perm (f : ITMHashEntry → Int) (A B : List ITMHashEntry)
    (h : A.Perm B) :
    insert 0 {v | ∃ e ∈ A, 0 ≤ e.ptr ∧ v = f e} =
      insert 0 {v | ∃ e ∈ B, 0 ≤ e.ptr ∧ v = f e} := by
  ext v
  simp only [Set.mem_insert_iff, Set.mem_setOf_eq, h.mem_iff]

/-- The least element over a concatenated table is the smaller of the two partial ones. -/
theorem isLeast_append (f : ITMHashEntry → Int) (A B : List ITMHashEntry) (a b c : Int)
    (ha : IsLeast (insert 0 {v | ∃ e ∈ A, 0 ≤ e.ptr ∧ v = f e}) a)
    (hb : IsLeast (insert 0 {v | ∃ e ∈ B, 0 ≤ e.ptr ∧ v = f e}) b)
    (hc : IsLeast (insert 0 {v | ∃ e ∈ A ++ B, 0 ≤ e.ptr ∧ v = f e}) c) : c = min a b := by
  rw [contributions_append] at hc
  exact hc.unique (ha.union hb)

/-- The greatest element over a concatenated table is the larger of the two partial ones. -/
theorem isGreatest_append (f : ITMHashEntry → Int) (A B : List ITMHashEntry) (a b c : Int)
    (ha : IsGreatest (insert 0 {v | ∃ e ∈ A, 0 ≤ e.ptr ∧ v = f e}) a)
    (hb : IsGreatest (insert 0 {v | ∃ e ∈ B, 0 ≤ e.ptr ∧ v = f e}) b)
    (hc : IsGreatest (insert 0 {v | ∃ e ∈ A ++ B, 0 ≤ e.ptr ∧ v = f e}) c) : c = max a b := by
  rw [contributions_append] at hc
  exact hc.unique (ha.union hb)

/-- ComputeVoxelBounds gives the same result on two tables with the same entries in a
different order. -/
theorem ComputeVoxelBounds_perm (S : Nat) (A B : List ITMHashEntry) (h : A.Perm B) :
    ComputeVoxelBounds S A = ComputeVoxelBounds S B := by
  obtain ⟨ax, ay, az⟩ := boundsLoop_min_isLeast S A
  obtain ⟨bx, by', bz⟩ := boundsLoop_min_isLeast S B
  obtain ⟨aX, aY, aZ⟩ := boundsLoop_max_isGreatest S A
  obtain ⟨bX, bY, bZ⟩ := boundsLoop_max_isGreatest S B
  rw [contributions_perm _ A B h] at ax ay az aX aY aZ
  refine Prod.ext (Vector3i.ext ?_ ?_ ?_) (Vector3i.ext ?_ ?_ ?_)
  · exact ax.unique bx
  · exact ay.unique by'
  · exact az.unique bz
  · exact aX.unique bX
  · exact aY.unique bY
  · exact aZ.unique bZ

/-- ComputeHashedVoxelCount gives the same result on two tables with the same entries
in a different order. -/
theorem ComputeHashedVoxelCount_perm (S : Nat) (A B : List ITMHashEntry) (h : A.Perm B) :
    ComputeHashedVoxelCount S A = ComputeHashedVoxelCount S B := by
  unfold ComputeHashedVoxelCount
  rw [countLoop_eq, countLoop_eq, (h.filter _).length_eq]

/-- C11: the statistics are reducible over partitions of the entry table:
ComputeHashedVoxelCount of A ++ B is the sum of the two partial counts, the minimum of
ComputeVoxelBounds of A ++ B is the component-wise minimum of the two partial minima and
its maximum the component-wise maximum of the two partial maxima; and both results are
the same for every permutation of the entries. -/
theorem statistics_reducible (S : Nat) (A B : List ITMHashEntry) :
    ComputeHashedVoxelCount S (A ++ B) =
        ComputeHashedVoxelCount S A + ComputeHashedVoxelCount S B ∧
      (ComputeVoxelBounds S (A ++ B)).1 =
        ⟨min (ComputeVoxelBounds S A).1.x (ComputeVoxelBounds S B).1.x,
         min (ComputeVoxelBounds S A).1.y (ComputeVoxelBounds S B).1.y,
         min (ComputeVoxelBounds S A).1.z (ComputeVoxelBounds S B).1.z⟩ ∧
      (ComputeVoxelBounds S (A ++ B)).2 =
        ⟨max (ComputeVoxelBounds S A).2.x (ComputeVoxelBounds S B).2.x,
         max (ComputeVoxelBounds S A).2.y (ComputeVoxelBounds S B).2.y,
         max (ComputeVoxelBounds S A).2.z (ComputeVoxelBounds S B).2.z⟩ ∧
      ∀ C : List ITMHashEntry, C.Perm A →
        ComputeHashedVoxelCount S C = ComputeHashedVoxelCount S A ∧
          ComputeVoxelBounds S C = ComputeVoxelBounds S A := by
  obtain ⟨ax, ay, az⟩ := boundsLoop_min_isLeast S A
  obtain ⟨bx, by', bz⟩ := boundsLoop_min_isLeast S B
  obtain ⟨cx, cy, cz⟩ := boundsLoop_min_isLeast S (A ++ B)
  obtain ⟨aX, aY, aZ⟩ := boundsLoop_max_isGreatest S A
  obtain ⟨bX, bY, bZ⟩ := boundsLoop_max_isGreatest S B
  obtain ⟨cX, cY, cZ⟩ := boundsLoop_max_isGreatest S (A ++ B)
  refine ⟨?_, ?_, ?_, fun C hC =>
    ⟨ComputeHashedVoxelCount_perm S C A hC, ComputeVoxelBounds_perm S C A hC⟩⟩
  · unfold ComputeHashedVoxelCount
    rw [countLoop_eq, countLoop_eq, countLoop_eq, List.filter_append, List.length_append]
    push_cast
    ring
  · exact Vector3i.ext (isLeast_append _ A B _ _ _ ax bx cx)
      (isLeast_append _ A B _ _ _ ay by' cy) (isLeast_append _ A B _ _ _ az bz cz)
  · exact Vector3i.ext (isGreatest_append _ A B _ _ _ aX bX cX)
      (isGreatest_append _ A B _ _ _ aY bY cY) (isGreatest_append _ A B _ _ _ aZ bZ cZ)

/-- Witness for C11: a table split into two parts, and the same entries in reverse order. -/
theorem statistics_reducible_witness :
    ComputeHashedVoxelCount 8 [⟨⟨-3, 0, 1⟩, 2⟩, ⟨⟨0, 0, 0⟩, -1⟩, ⟨⟨2, 5, -1⟩, 0⟩] =
        ComputeHashedVoxelCount 8 [⟨⟨2, 5, -1⟩, 0⟩, ⟨⟨0, 0, 0⟩, -1⟩, ⟨⟨-3, 0, 1⟩, 2⟩] ∧
      ComputeVoxelBounds 8 [⟨⟨-3, 0, 1⟩, 2⟩, ⟨⟨0, 0, 0⟩, -1⟩, ⟨⟨2, 5, -1⟩, 0⟩] =
        ComputeVoxelBounds 8 [⟨⟨2, 5, -1⟩, 0⟩, ⟨⟨0, 0, 0⟩, -1⟩, ⟨⟨-3, 0, 1⟩, 2⟩] :=
  (statistics_reducible 8 [⟨⟨2, 5, -1⟩, 0⟩, ⟨⟨0, 0, 0⟩, -1⟩, ⟨⟨-3, 0, 1⟩, 2⟩] []).2.2.2
    [⟨⟨-3, 0, 1⟩, 2⟩, ⟨⟨0, 0, 0⟩, -1⟩, ⟨⟨2, 5, -1⟩, 0⟩]
    (by decide)

/-! ### Rigidity and level-set terms -/

/-- C12: for every gamma and every triple of symmetric warp Hessians, the closed form
deltaEKillingAlt of UpdateWarpField equals the formula of the specification on all three
axes: the u component is -2 * [(1 + gamma) * H_u.xx + H_u.yy + H_u.zz + gamma * H_v.xy +
gamma * H_w.xz], and the v and w components are this formula after the cyclic
substitution u -> v -> w -> u, x -> y -> z -> x. -/
theorem deltaEKillingAlt_eq_spec (gamma : ℚ) (H_u H_v H_w : Matrix3f)
    (hu : H_u.IsSymmetric) (hv : H_v.IsSymmetric) (hw : H_w.IsSymmetric) :
    deltaEKillingAlt gamma H_u H_v H_w = specRigidity gamma H_u H_v H_w ∧
      (deltaEKillingAlt gamma H_u H_v H_w).x =
        -2 * ((1 + gamma) * H_u.xx + H_u.yy + H_u.zz + gamma * H_v.xy + gamma * H_w.xz) := by
  obtain ⟨hu1, hu2, hu3⟩ := hu
  obtain ⟨hv1, hv2, hv3⟩ := hv
  obtain ⟨hw1, hw2, hw3⟩ := hw
  refine ⟨?_, rfl⟩
  ext
  · rfl
  · simp only [deltaEKillingAlt, specRigidity, specRigidityU, Matrix3f.cycle]
    rw [hu1]
    ring
  · simp only [deltaEKillingAlt, specRigidity, specRigidityU, Matrix3f.cycle]
    rw [hv3, hu2]
    ring

/-- Witness for C12: gamma = 1 / 10 and three symmetric Hessians. -/
theorem deltaEKillingAlt_eq_spec_witness :
    deltaEKillingAlt (1 / 10) ⟨1, 2, 3, 2, 4, 5, 3, 5, 6⟩ ⟨7, 1, 0, 1, 8, 2, 0, 2, 9⟩
        ⟨-1, 3, 4, 3, -2, 6, 4, 6, -3⟩ =
      specRigidity (1 / 10) ⟨1, 2, 3, 2, 4, 5, 3, 5, 6⟩ ⟨7, 1, 0, 1, 8, 2, 0, 2, 9⟩
        ⟨-1, 3, 4, 3, -2, 6, 4, 6, -3⟩ :=
  (deltaEKillingAlt_eq_spec (1 / 10) ⟨1, 2, 3, 2, 4, 5, 3, 5, 6⟩ ⟨7, 1, 0, 1, 8, 2, 0, 2, 9⟩
    ⟨-1, 3, 4, 3, -2, 6, 4, 6, -3⟩ (by decide) (by decide) (by decide)).1

/-- C13: with gamma = 0 each component of deltaEKillingAlt is -2 times the trace
xx + yy + zz of the Hessian of that warp component; the Hessians of the other two
components do not contribute. -/
theorem deltaEKillingAlt_gamma_zero (H_u H_v H_w : Matrix3f) :
    deltaEKillingAlt 0 H_u H_v H_w = ⟨-2 * H_u.trace, -2 * H_v.trace, -2 * H_w.trace⟩ ∧
      ∀ K_u K_v K_w : Matrix3f,
        (deltaEKillingAlt 0 H_u K_v K_w).x = (deltaEKillingAlt 0 H_u H_v H_w).x ∧
        (deltaEKillingAlt 0 K_u H_v K_w).y = (deltaEKillingAlt 0 H_u H_v H_w).y ∧
        (deltaEKillingAlt 0 K_u K_v H_w).z = (deltaEKillingAlt 0 H_u H_v H_w).z := by
  constructor
  · ext <;> simp [deltaEKillingAlt, Matrix3f.trace] <;> ring
  · intro K_u K_v K_w
    simp [deltaEKillingAlt]

/-- C14, as stated, fails: with gamma = 1 / 10, the zero warp Jacobian and the three
warp Hessians equal to the identity, the matrix form deltaEKilling is the zero vector
while the closed form deltaEKillingAlt is (-31 / 5, -31 / 5, -31 / 5). -/
theorem deltaEKilling_ne_alt :
    deltaEKilling (1 / 10) Matrix3f.zero ⟨1, 0, 0, 0, 1, 0, 0, 0, 1⟩ ⟨1, 0, 0, 0, 1, 0, 0, 0, 1⟩
        ⟨1, 0, 0, 0, 1, 0, 0, 0, 1⟩ = ⟨0, 0, 0⟩ ∧
      deltaEKillingAlt (1 / 10) ⟨1, 0, 0, 0, 1, 0, 0, 0, 1⟩ ⟨1, 0, 0, 0, 1, 0, 0, 0, 1⟩
        ⟨1, 0, 0, 0, 1, 0, 0, 0, 1⟩ = ⟨-31 / 5, -31 / 5, -31 / 5⟩ ∧
      deltaEKilling (1 / 10) Matrix3f.zero ⟨1, 0, 0, 0, 1, 0, 0, 0, 1⟩ ⟨1, 0, 0, 0, 1, 0, 0, 0, 1⟩
        ⟨1, 0, 0, 0, 1, 0, 0, 0, 1⟩ ≠
      deltaEKillingAlt (1 / 10) ⟨1, 0, 0, 0, 1, 0, 0, 0, 1⟩ ⟨1, 0, 0, 0, 1, 0, 0, 0, 1⟩
        ⟨1, 0, 0, 0, 1, 0, 0, 0, 1⟩ := by
  have h1 : deltaEKilling (1 / 10) Matrix3f.zero ⟨1, 0, 0, 0, 1, 0, 0, 0, 1⟩
      ⟨1, 0, 0, 0, 1, 0, 0, 0, 1⟩ ⟨1, 0, 0, 0, 1, 0, 0, 0, 1⟩ = ⟨0, 0, 0⟩ := by
    ext <;> norm_num [deltaEKilling, Matrix3f.zero, Matrix3f.mulVec, Vector3f.smul, Vector3f.add,
      Matrix3f.m00, Matrix3f.m01, Matrix3f.m02, Matrix3f.m10, Matrix3f.m11, Matrix3f.m12,
      Matrix3f.m20, Matrix3f.m21, Matrix3f.m22]
  have h2 : deltaEKillingAlt (1 / 10) ⟨1, 0, 0, 0, 1, 0, 0, 0, 1⟩ ⟨1, 0, 0, 0, 1, 0, 0, 0, 1⟩
      ⟨1, 0, 0, 0, 1, 0, 0, 0, 1⟩ = ⟨-31 / 5, -31 / 5, -31 / 5⟩ := by
    ext <;> norm_num [deltaEKillingAlt]
  refine ⟨h1, h2, ?_⟩
  rw [h1, h2]
  intro h
  have := congrArg Vector3f.x h
  norm_num at this

/-- C14 (amended): the matrix form deltaEKilling is linear in the stacked vectors built
from the warp Jacobian J, and the closed form deltaEKillingAlt does not depend on J; the
two agree (both are the zero vector) when the three warp Hessians are zero, and the
matrix form is the zero vector whenever J is zero, for every gamma. -/
theorem deltaEKilling_agree_of_zero_hessians (gamma : ℚ) (J H_u H_v H_w : Matrix3f) :
    deltaEKilling gamma J Matrix3f.zero Matrix3f.zero Matrix3f.zero =
        deltaEKillingAlt gamma Matrix3f.zero Matrix3f.zero Matrix3f.zero ∧
      deltaEKilling gamma Matrix3f.zero H_u H_v H_w = Vector3f.zero := by
  constructor
  · ext <;> simp [deltaEKilling, deltaEKillingAlt, Matrix3f.zero, Matrix3f.mulVec, Vector3f.smul,
      Vector3f.add, Matrix3f.m00, Matrix3f.m01, Matrix3f.m02, Matrix3f.m10, Matrix3f.m11,
      Matrix3f.m12, Matrix3f.m20, Matrix3f.m21, Matrix3f.m22]
  · ext <;> simp [deltaEKilling, Matrix3f.zero, Matrix3f.mulVec, Vector3f.smul,
      Vector3f.add, Vector3f.zero, Matrix3f.m00, Matrix3f.m01, Matrix3f.m02, Matrix3f.m10,
      Matrix3f.m11, Matrix3f.m12, Matrix3f.m20, Matrix3f.m21, Matrix3f.m22]

/-- The square root stand-in is never negative. -/
theorem sqrtf_nonneg (q : ℚ) : 0 ≤ sqrtf q := by
  unfold sqrtf
  positivity

/-- The length of a vector is never negative. -/
theorem length_nonneg (v : Vector3f) : 0 ≤ length v := sqrtf_nonneg _

/-! ### The two loops of UpdateWarpField -/

/-- A fold of writes, seen through a projection mem of its state, leaves every cell
that the list does not name as it was. -/
theorem foldl_frame_proj {σ α β : Type} (mem : σ → Nat → α) (idx : β → Nat) (step : σ → β → σ)
    (hframe : ∀ st b i, i ≠ idx b → mem (step st b) i = mem st i) (l : List β) (st : σ)
    (i : Nat) (hi : i ∉ l.map idx) : mem (l.foldl step st) i = mem st i := by
  induction l generalizing st with
  | nil => rfl
  | cons c cs ih =>
    rw [List.map_cons, List.mem_cons, not_or] at hi
    rw [List.foldl_cons, ih _ hi.2, hframe _ _ _ hi.1]

/-- A fold that writes one cell per visit and raises a running maximum mx to the value
val of the cell just written: the maximum never decreases, it bounds the value of every
visited cell at the end, and when no cell is visited twice it is the start value or the
value of a visited cell. -/
theorem runningMax_fold {σ α β : Type} (mem : σ → Nat → α) (mx : σ → ℚ) (idx : β → Nat)
    (val : α → ℚ) (step : σ → β → σ)
    (hframe : ∀ st b i, i ≠ idx b → mem (step st b) i = mem st i)
    (hmax : ∀ st b, mx (step st b) =
      if mx st < val (mem (step st b) (idx b)) then val (mem (step st b) (idx b)) else mx st)
    (l : List β) (st : σ) :
    mx st ≤ mx (l.foldl step st) ∧
      (∀ b ∈ l, val (mem (l.foldl step st) (idx b)) ≤ mx (l.foldl step st)) ∧
      ((l.map idx).Nodup → mx (l.foldl step st) = mx st ∨
        ∃ b ∈ l, mx (l.foldl step st) = val (mem (l.foldl step st) (idx b))) := by
  induction l generalizing st with
  | nil => exact ⟨le_refl _, fun b hb => absurd hb (List.not_mem_nil b), fun _ => Or.inl rfl⟩
  | cons a as ih =>
    rw [List.foldl_cons]
    obtain ⟨hmono, hub, hatt⟩ := ih (step st a)
    have hstep_le : mx st ≤ mx (step st a) := by
      rw [hmax]; split_ifs with h
      · exact h.le
      · exact le_refl _
    have hval_le : val (mem (step st a) (idx a)) ≤ mx (step st a) := by
      rw [hmax]; split_ifs with h
      · exact le_refl _
      · exact not_lt.mp h
    refine ⟨hstep_le.trans hmono, ?_, ?_⟩
    · intro b hb
      rcases List.mem_cons.mp hb with rfl | hb'
      · by_cases hin : idx b ∈ as.map idx
        · obtain ⟨b', hb', hidx⟩ := List.mem_map.mp hin
          rw [← hidx]
          exact hub b' hb'
        · rw [foldl_frame_proj mem idx step hframe as _ _ hin]
          exact hval_le.trans hmono
      · exact hub b hb'
    · intro hnd
      rw [List.map_cons, List.nodup_cons] at hnd
      rcases hatt hnd.2 with h | ⟨b, hb, h⟩
      · rw [h, hmax]
        split_ifs with hlt
        · right
          refine ⟨a, List.mem_cons_self _ _, ?_⟩
          rw [foldl_frame_proj mem idx step hframe as _ _ hnd.1]
        · exact Or.inl rfl
      · exact Or.inr ⟨b, List.mem_cons_of_mem _ hb, h⟩

/-- A visit of the first loop changes only the visited voxel. -/
theorem computeStep_frame (codec : VoxelCodec) (smp : WarpSampling) (st : (Nat → Voxel) × ℚ)
    (b : Vector3i × Nat) (i : Nat) (hi : i ≠ b.2) : (computeStep codec smp st b).1 i = st.1 i := by
  simp only [computeStep]
  exact Function.update_noteq hi _ _

/-- A visit of the first loop raises the maximum to the length of the update it stored. -/
theorem computeStep_max (codec : VoxelCodec) (smp : WarpSampling) (st : (Nat → Voxel) × ℚ)
    (b : Vector3i × Nat) :
    (computeStep codec smp st b).2 =
      if st.2 < length ((computeStep codec smp st b).1 b.2).warp_t_update then
        length ((computeStep codec smp st b).1 b.2).warp_t_update else st.2 := by
  simp only [computeStep, Function.update_same]

/-- The first loop changes nothing but pending updates. -/
theorem computeLoop_same (codec : VoxelCodec) (smp : WarpSampling) (m0 : Nat → Voxel)
    (l : List (Vector3i × Nat)) (st : (Nat → Voxel) × ℚ) (h : sameUpToUpdate st.1 m0) :
    sameUpToUpdate (l.foldl (computeStep codec smp) st).1 m0 := by
  induction l generalizing st with
  | nil => exact h
  | cons a as ih =>
    rw [List.foldl_cons]
    apply ih
    simp only [computeStep]
    exact sameUpToUpdate_write _ _ h _ _

/-- On a state of the first loop, helpers that do not read the pending updates give a
voxel the update they give it on the entry array. -/
theorem warpUpdateAt_entry (codec : VoxelCodec) (smp : WarpSampling) (m m0 : Nat → Voxel)
    (hm : sameUpToUpdate m m0) (hs : samplingIgnoresUpdate smp m0) (p : Vector3i) (i : Nat) :
    warpUpdateAt codec smp m p (m i) = warpUpdateAt codec smp m0 p (m0 i) := by
  obtain ⟨h1, -, h3⟩ := hs m hm
  have hw : (m i).warp_t = (m0 i).warp_t := by
    have h := congrArg Voxel.warp_t (hm i)
    exact h
  have hsdf : (m i).sdf = (m0 i).sdf := by
    have h := congrArg Voxel.sdf (hm i)
    exact h
  rw [warpUpdateAt_eq, warpUpdateAt_eq, h1, h3, hw, hsdf]

/-- With helpers that do not read the pending updates, the voxel array after the first
loop is the entry array with, at every visit, the update computed on the entry array
written into the visited voxel. -/
theorem computeLoop_mem (codec : VoxelCodec) (smp : WarpSampling) (m0 : Nat → Voxel)
    (hs : samplingIgnoresUpdate smp m0) (l : List (Vector3i × Nat))
    (st : (Nat → Voxel) × ℚ) (h : sameUpToUpdate st.1 m0) :
    (l.foldl (computeStep codec smp) st).1 =
      l.foldl (fun (m : Nat → Voxel) (b : Vector3i × Nat) => Function.update m b.2
        ((fun (b : Vector3i × Nat) (v : Voxel) =>
          { v with warp_t_update := warpUpdateAt codec smp m0 b.1 (m0 b.2) }) b (m b.2))) st.1 := by
  induction l generalizing st with
  | nil => rfl
  | cons a as ih =>
    rw [List.foldl_cons, List.foldl_cons]
    have hstep : (computeStep codec smp st a).1 = Function.update st.1 a.2
        { st.1 a.2 with warp_t_update := warpUpdateAt codec smp m0 a.1 (m0 a.2) } := by
      simp only [computeStep]
      rw [warpUpdateAt_entry codec smp st.1 m0 h hs]
    rw [ih _ (by rw [hstep]; exact sameUpToUpdate_write _ _ h _ _), hstep]

/-- The voxel array after the second loop is the array before it with, at every visit,
the pending update subtracted from the warp of the visited voxel. -/
theorem applyLoop_mem (maxVectorUpdate : ℚ) (l : List (Vector3i × Nat))
    (st : (Nat → Voxel) × (Int → Nat)) :
    (l.foldl (applyStep maxVectorUpdate) st).1 =
      l.foldl (fun (m : Nat → Voxel) (b : Vector3i × Nat) => Function.update m b.2
        ((fun (_ : Vector3i × Nat) (v : Voxel) =>
          { v with warp_t := v.warp_t.sub v.warp_t_update }) b (m b.2))) st.1 := by
  induction l generalizing st with
  | nil => rfl
  | cons a as ih =>
    rw [List.foldl_cons, List.foldl_cons, ih]
    rfl

/-- The second loop leaves every pending update as it is. -/
theorem applyLoop_update (maxVectorUpdate : ℚ) (l : List (Vector3i × Nat))
    (st : (Nat → Voxel) × (Int → Nat)) (i : Nat) :
    ((l.foldl (applyStep maxVectorUpdate) st).1 i).warp_t_update = (st.1 i).warp_t_update := by
  induction l generalizing st with
  | nil => rfl
  | cons a as ih =>
    rw [List.foldl_cons, ih]
    simp only [applyStep]
    by_cases hi : i = a.2
    · subst hi; rw [Function.update_same]
    · rw [Function.update_noteq hi]

/-- UpdateWarpField is UpdateWarpFieldOver on the traversal of the hash table. -/
theorem UpdateWarpField_eq_over (S : Nat) (codec : VoxelCodec) (smp : WarpSampling)
    (entries : List ITMHashEntry) (canonicalVoxels : Nat → Voxel) :
    UpdateWarpField S codec smp entries canonicalVoxels =
      UpdateWarpFieldOver codec smp (traversal S entries) canonicalVoxels := rfl

/-- The voxel array returned by UpdateWarpFieldOver, with its two loops written out. -/
theorem UpdateWarpFieldOver_fst (codec : VoxelCodec) (smp : WarpSampling)
    (l : List (Vector3i × Nat)) (m0 : Nat → Voxel) :
    (UpdateWarpFieldOver codec smp l m0).1 =
      (l.foldl (applyStep (l.foldl (computeStep codec smp) (m0, 0)).2)
        ((l.foldl (computeStep codec smp) (m0, 0)).1, fun _ => 0)).1 := rfl

/-- The voxel a visit leaves behind after both loops, for a visiting order that names
no voxel twice and helpers that do not read the pending updates: the entry voxel with
the update computed on the entry array as pending update, subtracted from its warp. -/
theorem UpdateWarpFieldOver_apply (codec : VoxelCodec) (smp : WarpSampling)
    (l : List (Vector3i × Nat)) (m0 : Nat → Voxel) (hnd : (l.map Prod.snd).Nodup)
    (hs : samplingIgnoresUpdate smp m0) (b : Vector3i × Nat) (hb : b ∈ l) :
    (UpdateWarpFieldOver codec smp l m0).1 b.2 =
      { m0 b.2 with
        warp_t_update := warpUpdateAt codec smp m0 b.1 (m0 b.2)
        warp_t := (m0 b.2).warp_t.sub (warpUpdateAt codec smp m0 b.1 (m0 b.2)) } := by
  have h1 := foldl_update_apply Prod.snd
    (fun (b : Vector3i × Nat) (v : Voxel) =>
      { v with warp_t_update := warpUpdateAt codec smp m0 b.1 (m0 b.2) }) l m0 hnd b hb
  have h2 := foldl_update_apply Prod.snd
    (fun (_ : Vector3i × Nat) (v : Voxel) => { v with warp_t := v.warp_t.sub v.warp_t_update })
    l (l.foldl (fun (m : Nat → Voxel) (b : Vector3i × Nat) => Function.update m b.2
        ((fun (b : Vector3i × Nat) (v : Voxel) =>
          { v with warp_t_update := warpUpdateAt codec smp m0 b.1 (m0 b.2) }) b (m b.2))) m0)
    hnd b hb
  rw [UpdateWarpFieldOver_fst, applyLoop_mem,
    computeLoop_mem codec smp m0 hs l (m0, 0) (fun i => rfl)]
  refine h2.trans ?_
  rw [h1]

/-- A voxel that is not visited is left as it was by both loops. -/
theorem UpdateWarpFieldOver_frame (codec : VoxelCodec) (smp : WarpSampling)
    (l : List (Vector3i × Nat)) (m0 : Nat → Voxel) (i : Nat) (hi : i ∉ l.map Prod.snd) :
    (UpdateWarpFieldOver codec smp l m0).1 i = m0 i := by
  rw [UpdateWarpFieldOver_fst]
  rw [foldl_frame_proj Prod.fst Prod.snd (applyStep _)
    (fun st b i hi => by simp only [applyStep]; exact Function.update_noteq hi _ _) l _ i hi]
  exact foldl_frame_proj Prod.fst Prod.snd (computeStep codec smp)
    (computeStep_frame codec smp) l _ i hi

/-- C15: for every visited voxel, in a table with distinct block pointers and with
helpers that do not read the pending updates, the pending update that UpdateWarpField
leaves in warp_t_update is gradientDescentLearningRate times the weighted sum
deltaEData + weightLevelSetTerm * deltaELevelSet + weightKillingTerm * deltaEKillingAlt,
with deltaEData = liveSdfJacobian * (liveSdf - canonicalSdf) (colour is not used), all
sampled on the voxel array as it was on entry. -/
theorem UpdateWarpField_pending_update (S : Nat) (codec : VoxelCodec) (smp : WarpSampling)
    (entries : List ITMHashEntry) (m0 : Nat → Voxel) (hd : distinctPtrs entries)
    (hs : samplingIgnoresUpdate smp m0) (pi : Vector3i × Nat) (hpi : pi ∈ traversal S entries) :
    ((UpdateWarpField S codec smp entries m0).1 pi.2).warp_t_update =
      Vector3f.smul gradientDescentLearningRate
        (((Vector3f.smul
            (smp.interpolateTrilinearly (pi.1.toFloat.add (m0 pi.2).warp_t) -
              codec.valueToFloat (m0 pi.2).sdf)
            (smp.ComputePerPointWarpedLiveJacobianAndHessianAlt m0 pi.1 (m0 pi.2).warp_t
              (smp.interpolateTrilinearly
                (pi.1.toFloat.add (m0 pi.2).warp_t))).liveSdfJacobian).add
          (Vector3f.smul weightLevelSetTerm
            (deltaELevelSet
              (smp.ComputePerPointWarpedLiveJacobianAndHessianAlt m0 pi.1 (m0 pi.2).warp_t
                (smp.interpolateTrilinearly
                  (pi.1.toFloat.add (m0 pi.2).warp_t))).liveSdfJacobian
              (smp.ComputePerPointWarpedLiveJacobianAndHessianAlt m0 pi.1 (m0 pi.2).warp_t
                (smp.interpolateTrilinearly
                  (pi.1.toFloat.add (m0 pi.2).warp_t))).liveSdfHessian))).add
          (Vector3f.smul weightKillingTerm
            (deltaEKillingAlt rigidityEnforcementFactor
              (smp.ComputePerPointWarpJacobianAndHessianAlt m0 (m0 pi.2).warp_t pi.1).warpHessianU
              (smp.ComputePerPointWarpJacobianAndHessianAlt m0 (m0 pi.2).warp_t pi.1).warpHessianV
              (smp.ComputePerPointWarpJacobianAndHessianAlt m0 (m0 pi.2).warp_t
                pi.1).warpHessianW))) := by
  rw [UpdateWarpField_eq_over,
    UpdateWarpFieldOver_apply codec smp _ m0 (traversal_indices_nodup S entries hd) hs pi hpi]
  show warpUpdateAt codec smp m0 pi.1 (m0 pi.2) = _
  rw [warpUpdateAt_eq]
  rfl

/-- The live distance of the example sampling steepLiveSampling. -/
theorem steepLiveSampling_interpolate (p : Vector3f) :
    steepLiveSampling.interpolateTrilinearly p = 0 := rfl

/-- The live derivatives of the example sampling steepLiveSampling. -/
theorem steepLiveSampling_live (m : Nat → Voxel) (p : Vector3i) (w : Vector3f) (s : ℚ) :
    steepLiveSampling.ComputePerPointWarpedLiveJacobianAndHessianAlt m p w s =
      ⟨⟨0, 0, 0⟩, ⟨2, 0, 0⟩, ⟨0, 0, 0⟩, ⟨1, 0, 0, 0, 1, 0, 0, 0, 1⟩⟩ := rfl

/-- The warp derivatives of the example sampling steepLiveSampling. -/
theorem steepLiveSampling_warp (m : Nat → Voxel) (w : Vector3f) (p : Vector3i) :
    steepLiveSampling.ComputePerPointWarpJacobianAndHessianAlt m w p =
      ⟨Matrix3f.zero, Matrix3f.zero, Matrix3f.zero, Matrix3f.zero, false⟩ := rfl

/-- The decoding of a float voxel is the identity. -/
theorem floatCodec_valueToFloat (x : ℚ) : floatCodec.valueToFloat x = x := rfl

/-- Witness for C15: one allocated block of voxels at distance 0 and the live scene of
distance 0 with gradient (2, 0, 0); the pending update of the first voxel is
gradientDescentLearningRate times the weighted level-set term. -/
theorem UpdateWarpField_pending_update_witness :
    ((UpdateWarpField 8 floatCodec steepLiveSampling [⟨⟨0, 0, 0⟩, 0⟩]
        (fun _ => ⟨0, 1, 1, ⟨0, 0, 0⟩, 0, ⟨0, 0, 0⟩, ⟨0, 0, 0⟩⟩)).1 0).warp_t_update =
      Vector3f.smul gradientDescentLearningRate
        (((Vector3f.smul (0 - 0) ⟨2, 0, 0⟩).add
          (Vector3f.smul weightLevelSetTerm
            (deltaELevelSet ⟨2, 0, 0⟩ ⟨1, 0, 0, 0, 1, 0, 0, 0, 1⟩))).add
          (Vector3f.smul weightKillingTerm
            (deltaEKillingAlt rigidityEnforcementFactor Matrix3f.zero Matrix3f.zero
              Matrix3f.zero))) := by
  have h := UpdateWarpField_pending_update 8 floatCodec steepLiveSampling [⟨⟨0, 0, 0⟩, 0⟩]
    (fun _ => ⟨0, 1, 1, ⟨0, 0, 0⟩, 0, ⟨0, 0, 0⟩, ⟨0, 0, 0⟩⟩) (by decide)
    (fun _ _ => ⟨rfl, rfl, rfl⟩) (⟨0, 0, 0⟩, 0) origin_mem_traversal
  simp only [steepLiveSampling_interpolate, steepLiveSampling_live, steepLiveSampling_warp,
    floatCodec_valueToFloat] at h
  exact h

/-- C17: UpdateWarpField is Jacobi-style.  Its first loop changes no field of any voxel
but warp_t_update.  In a table with distinct block pointers and with helpers that do
not read the pending updates, the pending update of every visited voxel is the update
computed on the voxel array as it was on entry, after the call the warp_t of every
visited voxel is its entry warp_t minus that update, and the voxel array after the call
is the same for every order in which the voxels are visited. -/
theorem UpdateWarpField_jacobi (S : Nat) (codec : VoxelCodec) (smp : WarpSampling)
    (entries : List ITMHashEntry) (m0 : Nat → Voxel) (hd : distinctPtrs entries)
    (hs : samplingIgnoresUpdate smp m0) :
    sameUpToUpdate (computePass S codec smp entries m0).1 m0 ∧
      (∀ pi ∈ traversal S entries,
        ((computePass S codec smp entries m0).1 pi.2).warp_t_update =
          warpUpdateAt codec smp m0 pi.1 (m0 pi.2)) ∧
      (∀ pi ∈ traversal S entries,
        ((UpdateWarpField S codec smp entries m0).1 pi.2).warp_t =
          (m0 pi.2).warp_t.sub (warpUpdateAt codec smp m0 pi.1 (m0 pi.2))) ∧
      ∀ visits : List (Vector3i × Nat), visits.Perm (traversal S entries) →
        (UpdateWarpFieldOver codec smp visits m0).1 =
          (UpdateWarpField S codec smp entries m0).1 := by
  have hnd := traversal_indices_nodup S entries hd
  refine ⟨computeLoop_same codec smp m0 _ (m0, 0) (fun i => rfl), ?_, ?_, ?_⟩
  · intro pi hpi
    unfold computePass
    rw [computeLoop_mem codec smp m0 hs _ (m0, 0) (fun i => rfl)]
    have h1 := foldl_update_apply Prod.snd
      (fun (b : Vector3i × Nat) (v : Voxel) =>
        { v with warp_t_update := warpUpdateAt codec smp m0 b.1 (m0 b.2) })
      (traversal S entries) m0 hnd pi hpi
    exact congrArg Voxel.warp_t_update h1
  · intro pi hpi
    rw [UpdateWarpField_eq_over, UpdateWarpFieldOver_apply codec smp _ m0 hnd hs pi hpi]
  · intro visits hperm
    have hndv : (visits.map Prod.snd).Nodup := ((hperm.map Prod.snd).nodup_iff).mpr hnd
    rw [UpdateWarpField_eq_over]
    funext i
    by_cases hi : i ∈ (traversal S entries).map Prod.snd
    · obtain ⟨b, hb, rfl⟩ := List.mem_map.mp hi
      rw [UpdateWarpFieldOver_apply codec smp _ m0 hnd hs b hb,
        UpdateWarpFieldOver_apply codec smp _ m0 hndv hs b (hperm.mem_iff.mpr hb)]
    · have hiv : i ∉ visits.map Prod.snd := fun h => hi ((hperm.map Prod.snd).mem_iff.mp h)
      rw [UpdateWarpFieldOver_frame codec smp _ m0 i hi,
        UpdateWarpFieldOver_frame codec smp _ m0 i hiv]

/-- Witness for C17: one allocated block and the example live scene; the warp of the
first voxel after the call is its entry warp minus the update computed on entry. -/
theorem UpdateWarpField_jacobi_witness :
    ((UpdateWarpField 8 floatCodec steepLiveSampling [⟨⟨0, 0, 0⟩, 0⟩]
        (fun _ => ⟨0, 1, 1, ⟨0, 0, 0⟩, 0, ⟨1, 2, 3⟩, ⟨0, 0, 0⟩⟩)).1 0).warp_t =
      (⟨1, 2, 3⟩ : Vector3f).sub
        (warpUpdateAt floatCodec steepLiveSampling
          (fun _ => ⟨0, 1, 1, ⟨0, 0, 0⟩, 0, ⟨1, 2, 3⟩, ⟨0, 0, 0⟩⟩) ⟨0, 0, 0⟩
          ⟨0, 1, 1, ⟨0, 0, 0⟩, 0, ⟨1, 2, 3⟩, ⟨0, 0, 0⟩⟩) := by
  have h := (UpdateWarpField_jacobi 8 floatCodec steepLiveSampling [⟨⟨0, 0, 0⟩, 0⟩]
    (fun _ => ⟨0, 1, 1, ⟨0, 0, 0⟩, 0, ⟨1, 2, 3⟩, ⟨0, 0, 0⟩⟩) (by decide)
    (fun _ _ => ⟨rfl, rfl, rfl⟩)).2.2.1 (⟨0, 0, 0⟩, 0) origin_mem_traversal
  dsimp only at h
  exact h

/-! ### UpdateWarps and the returned maximum -/

/-- The voxel that WarpUpdateFunctor::operator() leaves behind does not depend on the
members of the functor. -/
theorem WarpUpdateFunctor_call_voxel (learningRate : ℚ) (enabled : Bool)
    (f : WarpUpdateFunctor) (v : GradientVoxel) (p : Vector3i) :
    (WarpUpdateFunctor.call learningRate enabled f v p).1 =
      { v with
        gradient0 := warpUpdateOf learningRate enabled v
        warp := v.warp.add (warpUpdateOf learningRate enabled v) } := rfl

/-- A call of the functor raises maxWarpUpdateLength to the length of the update it
stored in gradient0. -/
theorem WarpUpdateFunctor_call_max (learningRate : ℚ) (enabled : Bool)
    (f : WarpUpdateFunctor) (v : GradientVoxel) (p : Vector3i) :
    (WarpUpdateFunctor.call learningRate enabled f v p).2.maxWarpUpdateLength =
      if f.maxWarpUpdateLength <
          length (WarpUpdateFunctor.call learningRate enabled f v p).1.gradient0 then
        length (WarpUpdateFunctor.call learningRate enabled f v p).1.gradient0
      else f.maxWarpUpdateLength := by
  simp only [WarpUpdateFunctor.call, gt_iff_lt]
  split_ifs <;> rfl

/-- A visit of UpdateWarps changes only the visited voxel. -/
theorem warpsStep_frame (learningRate : ℚ) (enabled : Bool)
    (st : (Nat → GradientVoxel) × WarpUpdateFunctor) (b : Vector3i × Nat) (i : Nat)
    (hi : i ≠ b.2) : (warpsStep learningRate enabled st b).1 i = st.1 i := by
  simp only [warpsStep]
  exact Function.update_noteq hi _ _

/-- The voxel array after the traversal of UpdateWarps is the array before it with the
functor applied to every visited voxel. -/
theorem warpsLoop_mem (learningRate : ℚ) (enabled : Bool) (l : List (Vector3i × Nat))
    (st : (Nat → GradientVoxel) × WarpUpdateFunctor) :
    (l.foldl (warpsStep learningRate enabled) st).1 =
      l.foldl (fun (m : Nat → GradientVoxel) (b : Vector3i × Nat) => Function.update m b.2
        ((fun (_ : Vector3i × Nat) (v : GradientVoxel) =>
          { v with
            gradient0 := warpUpdateOf learningRate enabled v
            warp := v.warp.add (warpUpdateOf learningRate enabled v) }) b (m b.2))) st.1 := by
  induction l generalizing st with
  | nil => rfl
  | cons a as ih =>
    rw [List.foldl_cons, List.foldl_cons, ih]
    rfl

/-- The voxel a visit of UpdateWarps leaves behind, for a visiting order that names no
voxel twice. -/
theorem UpdateWarps_apply (learningRate : ℚ) (enabled : Bool) (visits : List (Vector3i × Nat))
    (m0 : Nat → GradientVoxel) (hnd : (visits.map Prod.snd).Nodup) (b : Vector3i × Nat)
    (hb : b ∈ visits) :
    (UpdateWarps learningRate enabled visits m0).1 b.2 =
      { m0 b.2 with
        gradient0 := warpUpdateOf learningRate enabled (m0 b.2)
        warp := (m0 b.2).warp.add (warpUpdateOf learningRate enabled (m0 b.2)) } := by
  have h := foldl_update_apply Prod.snd
    (fun (_ : Vector3i × Nat) (v : GradientVoxel) =>
      { v with
        gradient0 := warpUpdateOf learningRate enabled v
        warp := v.warp.add (warpUpdateOf learningRate enabled v) }) visits m0 hnd b hb
  show (visits.foldl (warpsStep learningRate enabled) (m0, WarpUpdateFunctor.init)).1 b.2 = _
  rw [warpsLoop_mem]
  exact h

/-- C19: UpdateWarps performs one gradient-descent step per voxel: for every visited
voxel (of a visiting order that names no voxel twice) the new warp is the old warp minus
learningRate times the current gradient, which is gradient1 when gradient smoothing is
enabled and gradient0 otherwise; gradient0 afterwards holds the applied update
-learningRate * gradient, and gradient1 is unchanged. -/
theorem UpdateWarps_descent_step (learningRate : ℚ) (enabled : Bool)
    (visits : List (Vector3i × Nat)) (m0 : Nat → GradientVoxel)
    (hnd : (visits.map Prod.snd).Nodup) (pi : Vector3i × Nat) (hpi : pi ∈ visits) :
    ((UpdateWarps learningRate enabled visits m0).1 pi.2).warp =
        (m0 pi.2).warp.sub (Vector3f.smul learningRate
          (if enabled then (m0 pi.2).gradient1 else (m0 pi.2).gradient0)) ∧
      ((UpdateWarps learningRate enabled visits m0).1 pi.2).gradient0 =
        Vector3f.smul (-learningRate)
          (if enabled then (m0 pi.2).gradient1 else (m0 pi.2).gradient0) ∧
      ((UpdateWarps learningRate enabled visits m0).1 pi.2).gradient1 = (m0 pi.2).gradient1 := by
  rw [UpdateWarps_apply learningRate enabled visits m0 hnd pi hpi]
  refine ⟨?_, rfl, rfl⟩
  ext <;> simp [warpUpdateOf, Vector3f.add, Vector3f.sub, Vector3f.smul] <;> ring

/-- Witness for C19: three visited voxels, smoothing enabled, learning rate 1 / 10. -/
theorem UpdateWarps_descent_step_witness :
    ((UpdateWarps (1 / 10) true [(⟨0, 0, 0⟩, 0), (⟨1, 0, 0⟩, 1), (⟨2, 0, 0⟩, 2)]
        (fun _ => ⟨⟨5, 5, 5⟩, ⟨1, 0, 0⟩, ⟨0, 3, 0⟩⟩)).1 1).warp =
      (⟨5, 5, 5⟩ : Vector3f).sub (Vector3f.smul (1 / 10) ⟨0, 3, 0⟩) := by
  have h := (UpdateWarps_descent_step (1 / 10) true
    [(⟨0, 0, 0⟩, 0), (⟨1, 0, 0⟩, 1), (⟨2, 0, 0⟩, 2)]
    (fun _ => ⟨⟨5, 5, 5⟩, ⟨1, 0, 0⟩, ⟨0, 3, 0⟩⟩) (by decide) (⟨1, 0, 0⟩, 1) (by simp)).1
  simpa using h

/-! ### Fusion: bounds of the weighted average -/

/-- A weighted average with non-negative weights of positive sum lies between the
smaller and the larger of the two averaged values. -/
theorem weighted_average_between (a b x y : ℚ) (ha : 0 ≤ a) (hb : 0 ≤ b) (hab : 0 < a + b) :
    min x y ≤ (a * x + b * y) / (a + b) ∧ (a * x + b * y) / (a + b) ≤ max x y := by
  constructor
  · rw [le_div_iff₀ hab]
    have h1 : a * min x y ≤ a * x := mul_le_mul_of_nonneg_left (min_le_left x y) ha
    have h2 : b * min x y ≤ b * y := mul_le_mul_of_nonneg_left (min_le_right x y) hb
    nlinarith
  · rw [div_le_iff₀ hab]
    have h1 : a * x ≤ a * max x y := mul_le_mul_of_nonneg_left (le_max_left x y) ha
    have h2 : b * y ≤ b * max x y := mul_le_mul_of_nonneg_left (le_max_right x y) hb
    nlinarith

/-- The weighted average of FuseFrame lies between the old distance as FuseFrame reads
it and the live distance, for non-negative weights of positive sum. -/
theorem fusedSdf_between (v : Voxel) (live : LiveFusionSample) (hl : 0 ≤ live.liveWDepth)
    (hw : 0 < (v.w_depth : Int) + live.liveWDepth) :
    min v.sdf live.liveSdf ≤ fusedSdf v live ∧ fusedSdf v live ≤ max v.sdf live.liveSdf := by
  have h := weighted_average_between ((v.w_depth : Int) : ℚ) (live.liveWDepth : ℚ) v.sdf
    live.liveSdf (by exact_mod_cast Int.natCast_nonneg v.w_depth) (by exact_mod_cast hl)
    (by exact_mod_cast hw)
  unfold fusedSdf
  simp only [Int.cast_add]
  exact h

/-- C20 (the code at the failing input): with a 16-bit distance (stored value v for the
distance v / 32767), a voxel storing 1 (distance 1 / 32767) with depth weight 1 and a
live sample of distance 0 and weight 3, FuseFrame averages the stored value 1 with the
live distance 0, 1 / 4, and stores 8191 (distance 8191 / 32767), which is above both
the old and the live distance. -/
theorem FuseFrame_distance_not_between :
    (FuseFrame 8 shortCodec 100 (fun _ => ⟨0, ⟨0, 0, 0⟩, 3, 0, 0⟩) [⟨⟨0, 0, 0⟩, 0⟩]
        (fun _ => ⟨1, 1, 1, ⟨0, 0, 0⟩, 0, ⟨0, 0, 0⟩, ⟨0, 0, 0⟩⟩) 0).sdf = 8191 ∧
      max (shortCodec.valueToFloat 1) 0 < shortCodec.valueToFloat 8191 ∧
      |shortCodec.valueToFloat 1| ≤ 1 := by
  have ha := FuseFrame_apply 8 shortCodec 100 (fun _ => ⟨0, ⟨0, 0, 0⟩, 3, 0, 0⟩)
    [⟨⟨0, 0, 0⟩, 0⟩] (fun _ => ⟨1, 1, 1, ⟨0, 0, 0⟩, 0, ⟨0, 0, 0⟩, ⟨0, 0, 0⟩⟩) (by decide)
    (⟨0, 0, 0⟩, 0) origin_mem_traversal
  dsimp only at ha
  refine ⟨?_, by norm_num [shortCodec], by norm_num [shortCodec, abs_le]⟩
  rw [ha]
  have h : truncToInt ((1 : ℚ) / 4 * 32767) = 8191 := by
    unfold truncToInt
    rw [if_pos (by norm_num), Int.floor_eq_iff]
    norm_num
  have hf : fusedSdf ⟨1, 1, 1, ⟨0, 0, 0⟩, 0, ⟨0, 0, 0⟩, ⟨0, 0, 0⟩⟩ ⟨0, ⟨0, 0, 0⟩, 3, 0, 0⟩ = 1 / 4 := by
    norm_num [fusedSdf]
  show shortCodec.floatToValue (fusedSdf _ _) = 8191
  rw [hf]
  show ((truncToInt ((1 : ℚ) / 4 * 32767) : Int) : ℚ) = 8191
  rw [h]
  norm_num

/-! ### Linear index of a block -/

/-- Every index below SDF_BLOCK_SIZE3 is the linear index of an offset inside the block. -/
theorem locId_surj (S i : Nat) (hi : i < S * S * S) :
    ∃ x y z, x < S ∧ y < S ∧ z < S ∧ locId S x y z = i := by
  have hS : 0 < S := by
    rcases Nat.eq_zero_or_pos S with h | h
    · subst h; simp at hi
    · exact h
  refine ⟨i % S, (i / S) % S, i / S / S, Nat.mod_lt _ hS, Nat.mod_lt _ hS, ?_, ?_⟩
  · rw [Nat.div_div_eq_div_mul]
    exact Nat.div_lt_of_lt_mul hi
  · unfold locId
    have h1 := Nat.mod_add_div i S
    have h2 := Nat.mod_add_div (i / S) S
    calc i % S + i / S % S * S + i / S / S * S * S
        = i % S + S * (i / S % S + S * (i / S / S)) := by ring
      _ = i := by rw [h2, h1]

/-- C21: for every block edge length S, the conversion locId = x + y * S + z * S * S is
a bijection from the offsets {0..S-1}^3 onto the indices {0..S^3-1}: every locId is in
range, two distinct offsets never have the same locId, and every index is reached. -/
theorem locId_bijOn (S : Nat) :
    Set.BijOn (fun o : Nat × Nat × Nat => locId S o.1 o.2.1 o.2.2)
      {o | o.1 < S ∧ o.2.1 < S ∧ o.2.2 < S} {i | i < S * S * S} := by
  refine ⟨?_, ?_, ?_⟩
  · rintro ⟨x, y, z⟩ ⟨hx, hy, hz⟩
    exact locId_lt S x y z hx hy hz
  · rintro ⟨x, y, z⟩ ⟨hx, hy, -⟩ ⟨x', y', z'⟩ ⟨hx', hy', -⟩ h
    obtain ⟨h1, h2, h3⟩ := locId_inj S x y z x' y' z' hx hy hx' hy' h
    rw [h1, h2, h3]
  · rintro i hi
    obtain ⟨x, y, z, hx, hy, hz, h⟩ := locId_surj S i hi
    exact ⟨(x, y, z), ⟨hx, hy, hz⟩, h⟩

/-! ### Bounds contain the origin and every allocated block -/

/-- C27: the bounds returned by ComputeVoxelBounds contain the origin and every
allocated block: minVoxelPoint <= (0,0,0) <= maxVoxelPoint component-wise, for every
entry with ptr >= 0 minVoxelPoint <= pos * SDF_BLOCK_SIZE and
(pos + (1,1,1)) * SDF_BLOCK_SIZE <= maxVoxelPoint, and each component of minVoxelPoint
(maxVoxelPoint) is 0 or the origin (limit) component of an entry with ptr >= 0, hence
the minimum (maximum) of 0 and these. -/
theorem ComputeVoxelBounds_contains (S : Nat) (entries : List ITMHashEntry) :
    ((ComputeVoxelBounds S entries).1.x ≤ 0 ∧ (ComputeVoxelBounds S entries).1.y ≤ 0 ∧
        (ComputeVoxelBounds S entries).1.z ≤ 0 ∧ 0 ≤ (ComputeVoxelBounds S entries).2.x ∧
        0 ≤ (ComputeVoxelBounds S entries).2.y ∧ 0 ≤ (ComputeVoxelBounds S entries).2.z) ∧
      (∀ e ∈ entries, 0 ≤ e.ptr →
        (ComputeVoxelBounds S entries).1.x ≤ (e.pos.scale S).x ∧
        (ComputeVoxelBounds S entries).1.y ≤ (e.pos.scale S).y ∧
        (ComputeVoxelBounds S entries).1.z ≤ (e.pos.scale S).z ∧
        ((e.pos.add ⟨1, 1, 1⟩).scale S).x ≤ (ComputeVoxelBounds S entries).2.x ∧
        ((e.pos.add ⟨1, 1, 1⟩).scale S).y ≤ (ComputeVoxelBounds S entries).2.y ∧
        ((e.pos.add ⟨1, 1, 1⟩).scale S).z ≤ (ComputeVoxelBounds S entries).2.z) ∧
      (((ComputeVoxelBounds S entries).1.x = 0 ∨
          ∃ e ∈ entries, 0 ≤ e.ptr ∧ (ComputeVoxelBounds S entries).1.x = (e.pos.scale S).x) ∧
        ((ComputeVoxelBounds S entries).1.y = 0 ∨
          ∃ e ∈ entries, 0 ≤ e.ptr ∧ (ComputeVoxelBounds S entries).1.y = (e.pos.scale S).y) ∧
        ((ComputeVoxelBounds S entries).1.z = 0 ∨
          ∃ e ∈ entries, 0 ≤ e.ptr ∧ (ComputeVoxelBounds S entries).1.z = (e.pos.scale S).z) ∧
        ((ComputeVoxelBounds S entries).2.x = 0 ∨
          ∃ e ∈ entries, 0 ≤ e.ptr ∧
            (ComputeVoxelBounds S entries).2.x = ((e.pos.add ⟨1, 1, 1⟩).scale S).x) ∧
        ((ComputeVoxelBounds S entries).2.y = 0 ∨
          ∃ e ∈ entries, 0 ≤ e.ptr ∧
            (ComputeVoxelBounds S entries).2.y = ((e.pos.add ⟨1, 1, 1⟩).scale S).y) ∧
        ((ComputeVoxelBounds S entries).2.z = 0 ∨
          ∃ e ∈ entries, 0 ≤ e.ptr ∧
            (ComputeVoxelBounds S entries).2.z = ((e.pos.add ⟨1, 1, 1⟩).scale S).z)) := by
  obtain ⟨⟨mx, lx⟩, ⟨my, ly⟩, ⟨mz, lz⟩⟩ := boundsLoop_min_isLeast S entries
  obtain ⟨⟨mX, uX⟩, ⟨mY, uY⟩, ⟨mZ, uZ⟩⟩ := boundsLoop_max_isGreatest S entries
  refine ⟨⟨lx (Or.inl rfl), ly (Or.inl rfl), lz (Or.inl rfl), uX (Or.inl rfl),
    uY (Or.inl rfl), uZ (Or.inl rfl)⟩, ?_, ⟨mx, my, mz, mX, mY, mZ⟩⟩
  intro e he hp
  exact ⟨lx (Or.inr ⟨e, he, hp, rfl⟩), ly (Or.inr ⟨e, he, hp, rfl⟩),
    lz (Or.inr ⟨e, he, hp, rfl⟩), uX (Or.inr ⟨e, he, hp, rfl⟩),
    uY (Or.inr ⟨e, he, hp, rfl⟩), uZ (Or.inr ⟨e, he, hp, rfl⟩)⟩

/-! ### Fusion: colour and confidence -/

/-- C22: for every visited voxel of a table with distinct block pointers and with
oldWColor + liveWColor > 0, the new colour of FuseFrame, as a fraction of 255, is
(oldWColor * oldColor + liveWColor * liveColor) / (oldWColor + liveWColor) in each
component, with oldColor the stored bytes divided by 255; the stored colour is that
value times 255 cast to bytes, and the stored confidence is the old confidence plus the
live confidence. -/
theorem FuseFrame_colour_confidence (S : Nat) (codec : VoxelCodec) (maxW : Int)
    (interpolateTrilinearly : Vector3f → LiveFusionSample) (entries : List ITMHashEntry)
    (canonicalVoxels : Nat → Voxel) (hd : distinctPtrs entries) (pi : Vector3i × Nat)
    (hpi : pi ∈ traversal S entries)
    (_hw : 0 < ((canonicalVoxels pi.2).w_color : Int) +
      (interpolateTrilinearly (pi.1.toFloat.add (canonicalVoxels pi.2).warp_t)).liveWColor) :
    (fusedColor (canonicalVoxels pi.2)
        (interpolateTrilinearly (pi.1.toFloat.add (canonicalVoxels pi.2).warp_t)) =
      ⟨(((canonicalVoxels pi.2).w_color : Int) * (((canonicalVoxels pi.2).clr.x : ℚ) / 255) +
          (interpolateTrilinearly (pi.1.toFloat.add (canonicalVoxels pi.2).warp_t)).liveWColor *
            (interpolateTrilinearly
              (pi.1.toFloat.add (canonicalVoxels pi.2).warp_t)).liveColor.x) /
          ((((canonicalVoxels pi.2).w_color : Int) +
            (interpolateTrilinearly
              (pi.1.toFloat.add (canonicalVoxels pi.2).warp_t)).liveWColor : Int) : ℚ),
        (((canonicalVoxels pi.2).w_color : Int) * (((canonicalVoxels pi.2).clr.y : ℚ) / 255) +
          (interpolateTrilinearly (pi.1.toFloat.add (canonicalVoxels pi.2).warp_t)).liveWColor *
            (interpolateTrilinearly
              (pi.1.toFloat.add (canonicalVoxels pi.2).warp_t)).liveColor.y) /
          ((((canonicalVoxels pi.2).w_color : Int) +
            (interpolateTrilinearly
              (pi.1.toFloat.add (canonicalVoxels pi.2).warp_t)).liveWColor : Int) : ℚ),
        (((canonicalVoxels pi.2).w_color : Int) * (((canonicalVoxels pi.2).clr.z : ℚ) / 255) +
          (interpolateTrilinearly (pi.1.toFloat.add (canonicalVoxels pi.2).warp_t)).liveWColor *
            (interpolateTrilinearly
              (pi.1.toFloat.add (canonicalVoxels pi.2).warp_t)).liveColor.z) /
          ((((canonicalVoxels pi.2).w_color : Int) +
            (interpolateTrilinearly
              (pi.1.toFloat.add (canonicalVoxels pi.2).warp_t)).liveWColor : Int) : ℚ)⟩) ∧
      (FuseFrame S codec maxW interpolateTrilinearly entries canonicalVoxels pi.2).clr =
        TO_UCHAR3 (Vector3f.smul 255 (fusedColor (canonicalVoxels pi.2)
          (interpolateTrilinearly (pi.1.toFloat.add (canonicalVoxels pi.2).warp_t)))) ∧
      (FuseFrame S codec maxW interpolateTrilinearly entries canonicalVoxels pi.2).confidence =
        (canonicalVoxels pi.2).confidence +
          (interpolateTrilinearly
            (pi.1.toFloat.add (canonicalVoxels pi.2).warp_t)).liveConfidence := by
  rw [FuseFrame_apply S codec maxW interpolateTrilinearly entries canonicalVoxels hd pi hpi]
  exact ⟨rfl, rfl, rfl⟩

/-- Witness for C22: one allocated block, old colour (255, 0, 51) with weight 1 and live
colour (0, 1, 1 / 5) with weight 3; the stored confidence is the sum 2 + 5. -/
theorem FuseFrame_colour_confidence_witness :
    (FuseFrame 8 floatCodec 100 (fun _ => ⟨1 / 2, ⟨0, 1, 1 / 5⟩, 30, 3, 5⟩) [⟨⟨0, 0, 0⟩, 0⟩]
        (fun _ => ⟨1 / 4, 40, 1, ⟨255, 0, 51⟩, 2, ⟨0, 0, 0⟩, ⟨0, 0, 0⟩⟩) 0).confidence =
      2 + 5 := by
  have h := (FuseFrame_colour_confidence 8 floatCodec 100
    (fun _ => ⟨1 / 2, ⟨0, 1, 1 / 5⟩, 30, 3, 5⟩) [⟨⟨0, 0, 0⟩, 0⟩]
    (fun _ => ⟨1 / 4, 40, 1, ⟨255, 0, 51⟩, 2, ⟨0, 0, 0⟩, ⟨0, 0, 0⟩⟩) (by decide) (⟨0, 0, 0⟩, 0)
    origin_mem_traversal (by decide : (0 : Int) < ((1 : Nat) : Int) + 3)).2.2
  dsimp only at h
  exact h

/-- With a live depth weight of 0 and a positive old depth weight, the weighted average
of FuseFrame is the old value as FuseFrame reads it, for any live distance. -/
theorem fusedSdf_of_zero_live_weight (v : Voxel) (live : LiveFusionSample)
    (h0 : live.liveWDepth = 0) (hw : 0 < v.w_depth) : fusedSdf v live = v.sdf := by
  unfold fusedSdf
  have hq : ((v.w_depth : Int) : ℚ) ≠ 0 := by
    have : (0 : ℚ) < ((v.w_depth : Int) : ℚ) := by exact_mod_cast hw
    exact this.ne'
  simp only [h0, Int.cast_zero, zero_mul, add_zero]
  field_simp

/-- C28 (the code at the failing input): with a 16-bit distance (stored value v for the
distance v / 32767), a voxel storing 1 (distance 1 / 32767) with depth weight 1 <= maxW
and a live sample of weight 0, FuseFrame keeps w_depth = 1 but stores the distance
value 32767 (distance 1), not the old distance. -/
theorem FuseFrame_zero_weight_changes_distance :
    (FuseFrame 8 shortCodec 100 (fun _ => ⟨1 / 2, ⟨0, 0, 0⟩, 0, 0, 0⟩) [⟨⟨0, 0, 0⟩, 0⟩]
        (fun _ => ⟨1, 1, 1, ⟨0, 0, 0⟩, 0, ⟨0, 0, 0⟩, ⟨0, 0, 0⟩⟩) 0).sdf = 32767 ∧
      (FuseFrame 8 shortCodec 100 (fun _ => ⟨1 / 2, ⟨0, 0, 0⟩, 0, 0, 0⟩) [⟨⟨0, 0, 0⟩, 0⟩]
        (fun _ => ⟨1, 1, 1, ⟨0, 0, 0⟩, 0, ⟨0, 0, 0⟩, ⟨0, 0, 0⟩⟩) 0).w_depth = 1 ∧
      shortCodec.valueToFloat 32767 = 1 ∧ shortCodec.valueToFloat 1 = 1 / 32767 := by
  have ha := FuseFrame_apply 8 shortCodec 100 (fun _ => ⟨1 / 2, ⟨0, 0, 0⟩, 0, 0, 0⟩)
    [⟨⟨0, 0, 0⟩, 0⟩] (fun _ => ⟨1, 1, 1, ⟨0, 0, 0⟩, 0, ⟨0, 0, 0⟩, ⟨0, 0, 0⟩⟩) (by decide)
    (⟨0, 0, 0⟩, 0) origin_mem_traversal
  dsimp only at ha
  refine ⟨?_, ?_, by norm_num [shortCodec], by norm_num [shortCodec]⟩
  · rw [ha]
    norm_num [fuseVoxel, fusedSdf, shortCodec, truncToInt]
  · rw [ha]
    have hw := (fuseVoxel_weights shortCodec 100 ⟨1, 1, 1, ⟨0, 0, 0⟩, 0, ⟨0, 0, 0⟩, ⟨0, 0, 0⟩⟩
      ⟨1 / 2, ⟨0, 0, 0⟩, 0, 0, 0⟩ (by decide) (by decide) (le_refl _)).1
    have h1 : (((fuseVoxel shortCodec 100 ⟨1, 1, 1, ⟨0, 0, 0⟩, 0, ⟨0, 0, 0⟩, ⟨0, 0, 0⟩⟩
        ⟨1 / 2, ⟨0, 0, 0⟩, 0, 0, 0⟩).w_depth : Nat) : Int) = 1 := by
      rw [hw]; decide
    exact_mod_cast h1

/-! ### The diagnostic histogram of UpdateWarpField -/

/-- Rounding a non-negative number toward zero is its floor, which is not negative. -/
theorem truncToInt_of_nonneg (q : ℚ) (hq : 0 ≤ q) : truncToInt q = ⌊q⌋ ∧ 0 ≤ truncToInt q := by
  unfold truncToInt
  rw [if_pos hq]
  exact ⟨rfl, Int.floor_nonneg.mpr hq⟩

/-- The bin index for a non-negative update length: the formula of the source with the
cast read as a floor, and its range. -/
theorem binIdx_spec (mx u : ℚ) (hm : 0 ≤ mx) (hu : 0 ≤ u) :
    binIdx mx u =
        (if mx = 0 then 0
          else min ((histBinCount : Int) - 1) ⌊u * histBinCount / mx⌋) ∧
      0 ≤ binIdx mx u ∧ binIdx mx u ≤ (histBinCount : Int) - 1 := by
  unfold binIdx
  by_cases h0 : mx = 0
  · subst h0
    simp [histBinCount]
  · have hpos : 0 < mx := lt_of_le_of_ne hm (Ne.symm h0)
    have hq : 0 ≤ u * histBinCount / mx :=
      div_nonneg (mul_nonneg hu (Nat.cast_nonneg _)) hm
    obtain ⟨he, hn⟩ := truncToInt_of_nonneg _ hq
    rw [if_pos hpos, if_neg h0, ← he]
    refine ⟨rfl, le_min (by simp [histBinCount]) hn, min_le_left _ _⟩

/-- The bin index lies in 0 .. histBinCount - 1 for every maximum and every
non-negative update length. -/
theorem binIdx_mem (mx u : ℚ) (hu : 0 ≤ u) :
    binIdx mx u ∈ Finset.Icc (0 : Int) ((histBinCount : Int) - 1) := by
  rw [Finset.mem_Icc]
  unfold binIdx
  split_ifs with h
  · have hq : 0 ≤ u * histBinCount / mx :=
      div_nonneg (mul_nonneg hu (Nat.cast_nonneg _)) h.le
    exact ⟨le_min (by simp [histBinCount]) (truncToInt_of_nonneg _ hq).2, min_le_left _ _⟩
  · simp [histBinCount]

/-- Raising one bin of the histogram by one raises the sum of the bins by one. -/
theorem sum_bins_increment (s : Finset Int) (bins : Int → Nat) (b : Int) (hb : b ∈ s) :
    ∑ i in s, Function.update bins b (bins b + 1) i = ∑ i in s, bins i + 1 := by
  rw [Finset.sum_update_of_mem hb, Finset.sdiff_singleton_eq_erase,
    ← Finset.add_sum_erase s bins hb]
  ring

/-- The second loop raises the sum of the bins by one at every visit. -/
theorem applyLoop_bins_sum (maxVectorUpdate : ℚ) (l : List (Vector3i × Nat))
    (st : (Nat → Voxel) × (Int → Nat)) :
    ∑ i in Finset.Icc (0 : Int) ((histBinCount : Int) - 1),
        (l.foldl (applyStep maxVectorUpdate) st).2 i =
      ∑ i in Finset.Icc (0 : Int) ((histBinCount : Int) - 1), st.2 i + l.length := by
  induction l generalizing st with
  | nil => simp
  | cons a as ih =>
    rw [List.foldl_cons, ih]
    simp only [applyStep, List.length_cons]
    rw [sum_bins_increment _ _ _ (binIdx_mem _ _ (length_nonneg _))]
    ring

/-- A block has SDF_BLOCK_SIZE3 local offsets. -/
theorem blockOffsets_length (S : Nat) : (blockOffsets S).length = S * S * S := by
  have h1 : ∀ (n : Nat) (f : Nat → List (Nat × Nat × Nat)) (k : Nat),
      (∀ a, (f a).length = k) → ((List.range n).flatMap f).length = n * k := by
    intro n f k hf
    induction n with
    | zero => simp
    | succ n ih =>
      rw [List.range_succ, List.flatMap_append, List.length_append, ih]
      simp [hf, Nat.succ_mul]
  unfold blockOffsets
  rw [h1 S _ (S * S) (fun z => h1 S _ S (fun y => by simp))]
  ring

/-- The traversal visits SDF_BLOCK_SIZE3 voxels for every entry with ptr >= 0. -/
theorem traversal_length (S : Nat) (entries : List ITMHashEntry) :
    (traversal S entries).length =
      S * S * S * (entries.filter fun e => decide (0 ≤ e.ptr)).length := by
  unfold traversal
  induction entries with
  | nil => simp
  | cons e es ih =>
    rw [List.flatMap_cons, List.length_append, ih]
    unfold entryVoxels
    by_cases hp : e.ptr < 0
    · have hn : ¬ 0 ≤ e.ptr := not_le.mpr hp
      simp [hp, hn]
    · have hp0 : 0 ≤ e.ptr := not_lt.mp hp
      simp [hp, hp0, blockOffsets_length]
      ring

/-! ### Smoothing passes over the scene -/

/-- GetGradient returns the member named by readSlot. -/
theorem GetGradient_eq_readSlot (dir : TraversalDirection) (v : GradientVoxel) :
    GetGradient dir v = (readSlot dir).get v := by
  cases dir <;> rfl

/-- SetGradient assigns the member named by writeSlot and leaves the member named by
readSlot and the warp as they are. -/
theorem SetGradient_slots (dir : TraversalDirection) (v : GradientVoxel) (g : Vector3f) :
    (writeSlot dir).get (SetGradient dir v g) = g ∧
      (readSlot dir).get (SetGradient dir v g) = (readSlot dir).get v ∧
      (SetGradient dir v g).warp = v.warp := by
  cases dir <;> exact ⟨rfl, rfl, rfl⟩

/-- The smoothed gradient at a position depends on the voxel array only through the
members that the pass reads. -/
theorem smoothedGradientAt_congr (dir : TraversalDirection) (locate : Vector3i → Option Nat)
    (defaultVoxel : GradientVoxel) (m m0 : Nat → GradientVoxel)
    (h : ∀ i, (readSlot dir).get (m i) = (readSlot dir).get (m0 i)) (p : Vector3i) :
    smoothedGradientAt dir (readVoxelIn locate defaultVoxel m) p =
      smoothedGradientAt dir (readVoxelIn locate defaultVoxel m0) p := by
  have hr : ∀ q, GetGradient dir (readVoxelIn locate defaultVoxel m q) =
      GetGradient dir (readVoxelIn locate defaultVoxel m0 q) := by
    intro q
    unfold readVoxelIn
    cases locate q with
    | none => rfl
    | some i => rw [GetGradient_eq_readSlot, GetGradient_eq_readSlot]; exact h i
  rw [smoothedGradientAt_eq, smoothedGradientAt_eq]
  simp only [hr]

/-- A smoothing traversal is the entry array with, at every visit, the gradient
smoothed on the entry array written into the visited voxel; and it keeps the members
that the pass reads. -/
theorem smoothingLoop_mem (dir : TraversalDirection) (locate : Vector3i → Option Nat)
    (defaultVoxel : GradientVoxel) (m0 : Nat → GradientVoxel) (l : List (Vector3i × Nat))
    (m : Nat → GradientVoxel) (h : ∀ i, (readSlot dir).get (m i) = (readSlot dir).get (m0 i)) :
    l.foldl (smoothingVisit dir locate defaultVoxel) m =
        l.foldl (fun (m : Nat → GradientVoxel) (b : Vector3i × Nat) => Function.update m b.2
          ((fun (b : Vector3i × Nat) (v : GradientVoxel) =>
            SetGradient dir v (smoothedGradientAt dir (readVoxelIn locate defaultVoxel m0) b.1))
            b (m b.2))) m ∧
      ∀ i, (readSlot dir).get (l.foldl (smoothingVisit dir locate defaultVoxel) m i) =
        (readSlot dir).get (m0 i) := by
  induction l generalizing m with
  | nil => exact ⟨rfl, h⟩
  | cons a as ih =>
    rw [List.foldl_cons, List.foldl_cons]
    have hstep : smoothingVisit dir locate defaultVoxel m a = Function.update m a.2
        (SetGradient dir (m a.2)
          (smoothedGradientAt dir (readVoxelIn locate defaultVoxel m0) a.1)) := by
      unfold smoothingVisit smoothingPass
      rw [smoothedGradientAt_congr dir locate defaultVoxel m m0 h]
    have hinv : ∀ i, (readSlot dir).get (smoothingVisit dir locate defaultVoxel m a i) =
        (readSlot dir).get (m0 i) := by
      intro i
      rw [hstep]
      by_cases hi : i = a.2
      · subst hi
        rw [Function.update_same, (SetGradient_slots dir _ _).2.1]
        exact h _
      · rw [Function.update_noteq hi]
        exact h i
    obtain ⟨h1, h2⟩ := ih _ hinv
    refine ⟨?_, h2⟩
    rw [h1, hstep]

/-- A smoothing traversal leaves the warp of every voxel as it is. -/
theorem smoothingLoop_warp (dir : TraversalDirection) (locate : Vector3i → Option Nat)
    (defaultVoxel : GradientVoxel) (l : List (Vector3i × Nat)) (m : Nat → GradientVoxel)
    (i : Nat) : (l.foldl (smoothingVisit dir locate defaultVoxel) m i).warp = (m i).warp := by
  induction l generalizing m with
  | nil => rfl
  | cons a as ih =>
    rw [List.foldl_cons, ih]
    unfold smoothingVisit smoothingPass
    by_cases hi : i = a.2
    · subst hi
      rw [Function.update_same, (SetGradient_slots dir _ _).2.2]
    · rw [Function.update_noteq hi]

/-- The voxel a visit of a smoothing traversal leaves behind, for a visiting order that
names no voxel twice. -/
theorem smoothingTraversal_apply (dir : TraversalDirection) (locate : Vector3i → Option Nat)
    (defaultVoxel : GradientVoxel) (visits : List (Vector3i × Nat)) (m0 : Nat → GradientVoxel)
    (hnd : (visits.map Prod.snd).Nodup) (b : Vector3i × Nat) (hb : b ∈ visits) :
    smoothingTraversal dir locate defaultVoxel visits m0 b.2 =
      SetGradient dir (m0 b.2)
        (smoothedGradientAt dir (readVoxelIn locate defaultVoxel m0) b.1) := by
  unfold smoothingTraversal
  rw [(smoothingLoop_mem dir locate defaultVoxel m0 visits m0 (fun _ => rfl)).1]
  exact foldl_update_apply Prod.snd
    (fun (b : Vector3i × Nat) (v : GradientVoxel) =>
      SetGradient dir v (smoothedGradientAt dir (readVoxelIn locate defaultVoxel m0) b.1))
    visits m0 hnd b hb

/-- A smoothing traversal leaves every voxel that is not visited as it was. -/
theorem smoothingTraversal_frame (dir : TraversalDirection) (locate : Vector3i → Option Nat)
    (defaultVoxel : GradientVoxel) (visits : List (Vector3i × Nat)) (m0 : Nat → GradientVoxel)
    (i : Nat) (hi : i ∉ visits.map Prod.snd) :
    smoothingTraversal dir locate defaultVoxel visits m0 i = m0 i :=
  foldl_update_frame Prod.snd (smoothingVisit dir locate defaultVoxel)
    (fun m b i hi => by unfold smoothingVisit; exact Function.update_noteq hi _ _) visits m0 i hi

/-- C24: each smoothing pass is double-buffered.  For each direction the member that
GetGradient reads differs from the member that SetGradient writes, and SetGradient
changes no other member.  A pass over the scene leaves the read member and the warp of
every voxel, and every voxel that is not visited, as they were; so every visited voxel
(of a visiting order that names no voxel twice) receives the gradient smoothed on the
array as it was on entry, and the array after the pass is the same for every order in
which the voxels are visited. -/
theorem smoothing_double_buffered (dir : TraversalDirection) (locate : Vector3i → Option Nat)
    (defaultVoxel : GradientVoxel) (visits : List (Vector3i × Nat)) (m0 : Nat → GradientVoxel)
    (hnd : (visits.map Prod.snd).Nodup) :
    readSlot dir ≠ writeSlot dir ∧
      (∀ v, GetGradient dir v = (readSlot dir).get v) ∧
      (∀ v g, (writeSlot dir).get (SetGradient dir v g) = g ∧
        (readSlot dir).get (SetGradient dir v g) = (readSlot dir).get v ∧
        (SetGradient dir v g).warp = v.warp) ∧
      (∀ i, (readSlot dir).get (smoothingTraversal dir locate defaultVoxel visits m0 i) =
          (readSlot dir).get (m0 i) ∧
        (smoothingTraversal dir locate defaultVoxel visits m0 i).warp = (m0 i).warp) ∧
      (∀ i, i ∉ visits.map Prod.snd →
        smoothingTraversal dir locate defaultVoxel visits m0 i = m0 i) ∧
      (∀ pi ∈ visits, smoothingTraversal dir locate defaultVoxel visits m0 pi.2 =
        SetGradient dir (m0 pi.2)
          (smoothedGradientAt dir (readVoxelIn locate defaultVoxel m0) pi.1)) ∧
      ∀ visits' : List (Vector3i × Nat), visits'.Perm visits →
        smoothingTraversal dir locate defaultVoxel visits' m0 =
          smoothingTraversal dir locate defaultVoxel visits m0 := by
  refine ⟨by cases dir <;> decide, GetGradient_eq_readSlot dir, SetGradient_slots dir,
    fun i => ⟨(smoothingLoop_mem dir locate defaultVoxel m0 visits m0 (fun _ => rfl)).2 i,
      smoothingLoop_warp dir locate defaultVoxel visits m0 i⟩,
    smoothingTraversal_frame dir locate defaultVoxel visits m0,
    smoothingTraversal_apply dir locate defaultVoxel visits m0 hnd, ?_⟩
  intro visits' hperm
  have hnd' : (visits'.map Prod.snd).Nodup := ((hperm.map Prod.snd).nodup_iff).mpr hnd
  funext i
  by_cases hi : i ∈ visits.map Prod.snd
  · obtain ⟨b, hb, rfl⟩ := List.mem_map.mp hi
    rw [smoothingTraversal_apply dir locate defaultVoxel visits m0 hnd b hb,
      smoothingTraversal_apply dir locate defaultVoxel visits' m0 hnd' b (hperm.mem_iff.mpr hb)]
  · have hi' : i ∉ visits'.map Prod.snd := fun h => hi ((hperm.map Prod.snd).mem_iff.mp h)
    rw [smoothingTraversal_frame dir locate defaultVoxel visits m0 i hi,
      smoothingTraversal_frame dir locate defaultVoxel visits' m0 i hi']

/-- Witness for C24: the Y pass over three voxels in a row, visited in two orders. -/
theorem smoothing_double_buffered_witness :
    smoothingTraversal .Y (fun p => if p.x = 0 ∧ p.z = 0 ∧ 0 ≤ p.y ∧ p.y < 3 then some p.y.toNat
        else none) ⟨⟨0, 0, 0⟩, ⟨0, 0, 0⟩, ⟨0, 0, 0⟩⟩
        [(⟨0, 2, 0⟩, 2), (⟨0, 0, 0⟩, 0), (⟨0, 1, 0⟩, 1)]
        (fun i => ⟨⟨0, 0, 0⟩, ⟨1, 1, 1⟩, ⟨i, 2, 3⟩⟩) =
      smoothingTraversal .Y (fun p => if p.x = 0 ∧ p.z = 0 ∧ 0 ≤ p.y ∧ p.y < 3 then some p.y.toNat
        else none) ⟨⟨0, 0, 0⟩, ⟨0, 0, 0⟩, ⟨0, 0, 0⟩⟩
        [(⟨0, 0, 0⟩, 0), (⟨0, 1, 0⟩, 1), (⟨0, 2, 0⟩, 2)]
        (fun i => ⟨⟨0, 0, 0⟩, ⟨1, 1, 1⟩, ⟨i, 2, 3⟩⟩) :=
  (smoothing_double_buffered .Y (fun p => if p.x = 0 ∧ p.z = 0 ∧ 0 ≤ p.y ∧ p.y < 3 then
      some p.y.toNat else none) ⟨⟨0, 0, 0⟩, ⟨0, 0, 0⟩, ⟨0, 0, 0⟩⟩
    [(⟨0, 0, 0⟩, 0), (⟨0, 1, 0⟩, 1), (⟨0, 2, 0⟩, 2)]
    (fun i => ⟨⟨0, 0, 0⟩, ⟨1, 1, 1⟩, ⟨i, 2, 3⟩⟩) (by decide)).2.2.2.2.2.2
    [(⟨0, 2, 0⟩, 2), (⟨0, 0, 0⟩, 0), (⟨0, 1, 0⟩, 1)] (by decide)

/-- C25: the three smoothing passes chain through the two gradient members: the member
written by the X pass is the member read by the Y pass, the member written by the Y
pass is the member read by the Z pass, the X pass reads gradient0, and the Z pass writes
gradient1, which is the member WarpUpdateFunctor reads when gradient smoothing is
enabled; with smoothing disabled SmoothWarpGradient changes nothing and
WarpUpdateFunctor reads gradient0.  With smoothing enabled SmoothWarpGradient is the X,
then the Y, then the Z pass. -/
theorem smoothing_passes_chain (learningRate : ℚ) (locate : Vector3i → Option Nat)
    (defaultVoxel : GradientVoxel) (visits : List (Vector3i × Nat))
    (canonicalVoxels : Nat → GradientVoxel) (v : GradientVoxel) (g : Vector3f) :
    (writeSlot .X = readSlot .Y ∧ writeSlot .Y = readSlot .Z ∧
        readSlot .X = GradientSlot.gradient0 ∧ writeSlot .Z = GradientSlot.gradient1) ∧
      (∀ dir, GetGradient dir v = (readSlot dir).get v ∧
        (writeSlot dir).get (SetGradient dir v g) = g) ∧
      (warpUpdateSlot true = writeSlot .Z ∧ warpUpdateSlot false = GradientSlot.gradient0 ∧
        ∀ enabled, warpUpdateOf learningRate enabled v =
          Vector3f.smul (-learningRate) ((warpUpdateSlot enabled).get v)) ∧
      SmoothWarpGradient false locate defaultVoxel visits canonicalVoxels = canonicalVoxels ∧
      SmoothWarpGradient true locate defaultVoxel visits canonicalVoxels =
        smoothingTraversal .Z locate defaultVoxel visits
          (smoothingTraversal .Y locate defaultVoxel visits
            (smoothingTraversal .X locate defaultVoxel visits canonicalVoxels)) := by
  refine ⟨⟨rfl, rfl, rfl, rfl⟩,
    fun dir => ⟨GetGradient_eq_readSlot dir v, (SetGradient_slots dir v g).1⟩,
    ⟨rfl, rfl, ?_⟩, rfl, rfl⟩
  intro enabled
  cases enabled <;> rfl

/-! ### One pass as a convolution -/

/-- The position read at loop index i is the position of the voxel moved by i - 3 along
the axis of the pass. -/
theorem receptivePosition_eq (dir : TraversalDirection) (p : Vector3i) (i : Nat) :
    receptivePosition dir p i = p.add (dir.unit.scale ((i : Int) - 3)) := by
  cases dir <;>
    simp [receptivePosition, TraversalDirection.unit, TraversalDirection.toIndex, Vector3i.set,
      Vector3i.get, Vector3i.add, Vector3i.scale] <;>
    ring

/-- C26: one smoothing pass along axis d is the centred 7-tap convolution: the gradient
written for the voxel at position p is, in each component, the sum over i = 0 .. 6 of
sobolevFilter1D[i] times the read-member gradient of the voxel at p + (i - 3) * e_d;
the positions read differ from p by -3 .. +3 in coordinate d and in no other coordinate. -/
theorem smoothingPass_convolution (dir : TraversalDirection)
    (readVoxel : Vector3i → GradientVoxel) (voxel : GradientVoxel) (p : Vector3i) :
    (writeSlot dir).get (smoothingPass dir readVoxel voxel p) =
        smoothedGradientAt dir readVoxel p ∧
      (smoothedGradientAt dir readVoxel p).x =
        ∑ i in Finset.range sobolevFilterSize, sobolevFilter1D.getD i 0 *
          ((readSlot dir).get (readVoxel (p.add (dir.unit.scale ((i : Int) - 3))))).x ∧
      (smoothedGradientAt dir readVoxel p).y =
        ∑ i in Finset.range sobolevFilterSize, sobolevFilter1D.getD i 0 *
          ((readSlot dir).get (readVoxel (p.add (dir.unit.scale ((i : Int) - 3))))).y ∧
      (smoothedGradientAt dir readVoxel p).z =
        ∑ i in Finset.range sobolevFilterSize, sobolevFilter1D.getD i 0 *
          ((readSlot dir).get (readVoxel (p.add (dir.unit.scale ((i : Int) - 3))))).z ∧
      ∀ i : Nat,
        (p.add (dir.unit.scale ((i : Int) - 3))).x =
            p.x + (if dir = TraversalDirection.X then (i : Int) - 3 else 0) ∧
          (p.add (dir.unit.scale ((i : Int) - 3))).y =
            p.y + (if dir = TraversalDirection.Y then (i : Int) - 3 else 0) ∧
          (p.add (dir.unit.scale ((i : Int) - 3))).z =
            p.z + (if dir = TraversalDirection.Z then (i : Int) - 3 else 0) := by
  refine ⟨(SetGradient_slots dir voxel _).1, ?_, ?_, ?_, ?_⟩
  · rw [smoothedGradientAt_eq]
    simp only [receptivePosition_eq, GetGradient_eq_readSlot, sobolevFilterSize,
      List.range_succ, List.range_zero, List.nil_append, List.cons_append, List.foldl_cons,
      List.foldl_nil, Finset.sum_range_succ, Finset.sum_range_zero, Vector3f.add,
      Vector3f.smul, Vector3f.zero]
  · rw [smoothedGradientAt_eq]
    simp only [receptivePosition_eq, GetGradient_eq_readSlot, sobolevFilterSize,
      List.range_succ, List.range_zero, List.nil_append, List.cons_append, List.foldl_cons,
      List.foldl_nil, Finset.sum_range_succ, Finset.sum_range_zero, Vector3f.add,
      Vector3f.smul, Vector3f.zero]
  · rw [smoothedGradientAt_eq]
    simp only [receptivePosition_eq, GetGradient_eq_readSlot, sobolevFilterSize,
      List.range_succ, List.range_zero, List.nil_append, List.cons_append, List.foldl_cons,
      List.foldl_nil, Finset.sum_range_succ, Finset.sum_range_zero, Vector3f.add,
      Vector3f.smul, Vector3f.zero]
  · intro i
    cases dir <;> simp [TraversalDirection.unit, Vector3i.add, Vector3i.scale]

/-! ### Floats that may be NaN: the running maximum -/

/-- The length of a vector of numbers is the length computed on the numbers. -/
theorem FloatVector3_length_ofNumbers (v : Vector3f) :
    (FloatVector3.ofNumbers v).length = FloatValue.num (length v) := by
  have h : ¬ v.x * v.x + v.y * v.y + v.z * v.z < 0 :=
    not_lt.mpr (by nlinarith [mul_self_nonneg v.x, mul_self_nonneg v.y, mul_self_nonneg v.z])
  simp only [FloatVector3.length, FloatVector3.ofNumbers, FloatVector3.dot, FloatValue.mul,
    FloatValue.add, FloatValue.sqrt, if_neg h]
  rfl

/-- A length that is a number is not negative. -/
theorem FloatVector3_length_nonneg (v : FloatVector3) (u : ℚ)
    (h : v.length = FloatValue.num u) : 0 ≤ u := by
  obtain ⟨x, y, z⟩ := v
  cases x <;> cases y <;> cases z <;>
    simp only [FloatVector3.length, FloatVector3.dot, FloatValue.mul, FloatValue.add,
      FloatValue.sqrt, reduceCtorEq] at h
  split_ifs at h
  cases h
  exact sqrtf_nonneg _

/-- A vector with a NaN component has length NaN. -/
theorem FloatVector3_length_nan (y z : FloatValue) :
    (FloatVector3.mk FloatValue.nan y z).length = FloatValue.nan := by
  cases y <;> cases z <;> rfl

/-- A fold that writes one cell per visit and raises a running maximum mx, a number at
the start, to the value val of the cell just written when mx < val holds as the
comparison of floats: the maximum stays a number and never decreases, it bounds every
value of a visited cell that is a number, and when no cell is visited twice it is the
start value or the value of a visited cell. -/
theorem runningMaxF_fold {σ α β : Type} (mem : σ → Nat → α) (mx : σ → FloatValue)
    (idx : β → Nat) (val : α → FloatValue) (step : σ → β → σ)
    (hframe : ∀ st b i, i ≠ idx b → mem (step st b) i = mem st i)
    (hmax : ∀ st b, mx (step st b) =
      if (mx st).lt (val (mem (step st b) (idx b))) then val (mem (step st b) (idx b))
      else mx st)
    (l : List β) (st : σ) (r0 : ℚ) (h0 : mx st = FloatValue.num r0) :
    ∃ r : ℚ, mx (l.foldl step st) = FloatValue.num r ∧ r0 ≤ r ∧
      (∀ b ∈ l, ∀ u, val (mem (l.foldl step st) (idx b)) = FloatValue.num u → u ≤ r) ∧
      ((l.map idx).Nodup → r = r0 ∨
        ∃ b ∈ l, val (mem (l.foldl step st) (idx b)) = FloatValue.num r) := by
  induction l generalizing st r0 with
  | nil =>
    exact ⟨r0, h0, le_refl _, fun b hb => absurd hb (List.not_mem_nil b), fun _ => Or.inl rfl⟩
  | cons a as ih =>
    rw [List.foldl_cons]
    have hstep : ∃ r1 : ℚ, mx (step st a) = FloatValue.num r1 ∧ r0 ≤ r1 ∧
        (∀ u, val (mem (step st a) (idx a)) = FloatValue.num u → u ≤ r1) ∧
        (r1 = r0 ∨ val (mem (step st a) (idx a)) = FloatValue.num r1) := by
      rw [hmax, h0]
      cases hv : val (mem (step st a) (idx a)) with
      | nan =>
        refine ⟨r0, by simp [FloatValue.lt], le_refl _, fun u hu => ?_, Or.inl rfl⟩
        cases hu
      | num w =>
        by_cases hlt : r0 < w
        · refine ⟨w, by simp [FloatValue.lt, hlt], hlt.le, fun u hu => ?_, Or.inr rfl⟩
          cases hu
          exact le_refl _
        · refine ⟨r0, by simp [FloatValue.lt, hlt], le_refl _, fun u hu => ?_, Or.inl rfl⟩
          cases hu
          exact not_lt.mp hlt
    obtain ⟨r1, h1, h01, hval, hatt1⟩ := hstep
    obtain ⟨r, hr, h1r, hub, hatt⟩ := ih (step st a) r1 h1
    refine ⟨r, hr, h01.trans h1r, ?_, ?_⟩
    · intro b hb u hu
      rcases List.mem_cons.mp hb with rfl | hb'
      · by_cases hin : idx b ∈ as.map idx
        · obtain ⟨b', hb', hidx⟩ := List.mem_map.mp hin
          rw [← hidx] at hu
          exact hub b' hb' u hu
        · rw [foldl_frame_proj mem idx step hframe as _ _ hin] at hu
          exact (hval u hu).trans h1r
      · exact hub b hb' u hu
    · intro hnd
      rw [List.map_cons, List.nodup_cons] at hnd
      rcases hatt hnd.2 with h | ⟨b, hb, h⟩
      · rcases hatt1 with h1' | h1'
        · exact Or.inl (h.trans h1')
        · right
          refine ⟨a, List.mem_cons_self _ _, ?_⟩
          rw [foldl_frame_proj mem idx step hframe as _ _ hnd.1, h]
          exact h1'
      · exact Or.inr ⟨b, List.mem_cons_of_mem _ hb, h⟩

/-- The three statements about a returned maximum r that starts at 0, for values val
that are lengths: it bounds every value that is a number, it is attained when some value
is a non-zero number, and it is 0 when every value that is a number is 0. -/
theorem maximum_of_lengths {β : Type} (l : List β) (val : β → FloatValue) (r : ℚ)
    (hnonneg : ∀ b ∈ l, ∀ u, val b = FloatValue.num u → 0 ≤ u)
    (hub : ∀ b ∈ l, ∀ u, val b = FloatValue.num u → u ≤ r)
    (hatt : r = 0 ∨ ∃ b ∈ l, val b = FloatValue.num r) :
    0 ≤ r ∧
      ((∃ b ∈ l, ∃ u, val b = FloatValue.num u ∧ u ≠ 0) →
        ∃ b ∈ l, val b = FloatValue.num r) ∧
      ((∀ b ∈ l, ∀ u, val b = FloatValue.num u → u = 0) → r = 0) := by
  refine ⟨?_, ?_, ?_⟩
  · rcases hatt with h | ⟨b, hb, h⟩
    · exact h.ge
    · exact hnonneg b hb r h
  · rintro ⟨b, hb, u, hu, hne⟩
    rcases hatt with h | h
    · exfalso
      have h1 := hub b hb u hu
      have h2 := hnonneg b hb u hu
      rw [h] at h1
      exact hne (le_antisymm h1 h2)
    · exact h
  · intro hall
    rcases hatt with h | ⟨b, hb, h⟩
    · exact h
    · exact hall b hb r h

/-- A visit of the first loop on floats changes only the visited voxel. -/
theorem computeStepF_frame (codec : VoxelCodec) (smp : FloatSampling)
    (st : (Nat → FloatVoxel) × FloatValue) (b : Vector3i × Nat) (i : Nat) (hi : i ≠ b.2) :
    (computeStepF codec smp st b).1 i = st.1 i := by
  simp only [computeStepF]
  exact Function.update_noteq hi _ _

/-- A visit of the first loop on floats raises the maximum to the length of the update
it stored when the comparison maxVectorUpdate < vecLength holds. -/
theorem computeStepF_max (codec : VoxelCodec) (smp : FloatSampling)
    (st : (Nat → FloatVoxel) × FloatValue) (b : Vector3i × Nat) :
    (computeStepF codec smp st b).2 =
      if st.2.lt ((computeStepF codec smp st b).1 b.2).warp_t_update.length then
        ((computeStepF codec smp st b).1 b.2).warp_t_update.length else st.2 := by
  simp only [computeStepF, Function.update_same]

/-- A visit of UpdateWarps on floats changes only the visited voxel. -/
theorem warpsStepF_frame (learningRate : FloatValue) (enabled : Bool)
    (st : (Nat → FloatGradientVoxel) × FloatWarpUpdateFunctor) (b : Vector3i × Nat) (i : Nat)
    (hi : i ≠ b.2) : (warpsStepF learningRate enabled st b).1 i = st.1 i := by
  simp only [warpsStepF]
  exact Function.update_noteq hi _ _

/-- A visit of UpdateWarps on floats raises maxWarpUpdateLength to the length of the
update it stored in gradient0 when the comparison holds. -/
theorem warpsStepF_max (learningRate : FloatValue) (enabled : Bool)
    (st : (Nat → FloatGradientVoxel) × FloatWarpUpdateFunctor) (b : Vector3i × Nat) :
    (warpsStepF learningRate enabled st b).2.maxWarpUpdateLength =
      if st.2.maxWarpUpdateLength.lt ((warpsStepF learningRate enabled st b).1 b.2).gradient0.length
      then ((warpsStepF learningRate enabled st b).1 b.2).gradient0.length
      else st.2.maxWarpUpdateLength := by
  simp only [warpsStepF, Function.update_same, FloatWarpUpdateFunctor.call, FloatValue.gt]
  split_ifs <;> rfl

/-! ### Floats that may be NaN: the second loop of UpdateWarpField -/

/-- A visit of the second loop on floats that is defined leaves every pending update as
it is and raises the sum of the bins by one. -/
theorem applyStepF_some (rnd : ℚ → ℚ) (mx : FloatValue) (st res : (Nat → FloatVoxel) × (Int → Nat))
    (b : Vector3i × Nat) (h : applyStepF rnd mx st b = some res) :
    (∀ i, (res.1 i).warp_t_update = (st.1 i).warp_t_update) ∧
      ∑ i in Finset.Icc (0 : Int) ((histBinCount : Int) - 1), res.2 i =
        ∑ i in Finset.Icc (0 : Int) ((histBinCount : Int) - 1), st.2 i + 1 := by
  simp only [applyStepF] at h
  cases hk : binIdxF rnd mx (st.1 b.2).warp_t_update.length with
  | none => rw [hk] at h; cases h
  | some k =>
    rw [hk] at h
    simp only at h
    split_ifs at h with hr
    cases h
    refine ⟨fun i => ?_, ?_⟩
    · by_cases hi : i = b.2
      · subst hi; simp only [Function.update_same]
      · simp only [Function.update_noteq hi]
    · exact sum_bins_increment _ _ _ (Finset.mem_Icc.mpr ⟨hr.1, by omega⟩)

/-- The second loop on floats, when it is defined, leaves every pending update as it is
and raises the sum of the bins by the number of visits. -/
theorem applyLoopF_some (rnd : ℚ → ℚ) (mx : FloatValue) (l : List (Vector3i × Nat))
    (st res : (Nat → FloatVoxel) × (Int → Nat))
    (h : l.foldlM (applyStepF rnd mx) st = some res) :
    (∀ i, (res.1 i).warp_t_update = (st.1 i).warp_t_update) ∧
      ∑ i in Finset.Icc (0 : Int) ((histBinCount : Int) - 1), res.2 i =
        ∑ i in Finset.Icc (0 : Int) ((histBinCount : Int) - 1), st.2 i + l.length := by
  induction l generalizing st with
  | nil =>
    simp only [List.foldlM_nil, Option.pure_def, Option.some.injEq] at h
    subst h
    simp
  | cons a as ih =>
    rw [List.foldlM_cons] at h
    cases hs : applyStepF rnd mx st a with
    | none => rw [hs] at h; cases h
    | some st1 =>
      rw [hs] at h
      simp only [Option.bind_eq_bind, Option.some_bind] at h
      obtain ⟨hu, hsum⟩ := ih st1 h
      obtain ⟨hu1, hsum1⟩ := applyStepF_some rnd mx st st1 a hs
      refine ⟨fun i => (hu i).trans (hu1 i), ?_⟩
      rw [hsum, hsum1, List.length_cons]
      ring

/-- The second loop on floats is defined when the bin index of every visited voxel is
defined and lies inside the array bins. -/
theorem applyLoopF_defined (rnd : ℚ → ℚ) (mx : FloatValue) (l : List (Vector3i × Nat))
    (st : (Nat → FloatVoxel) × (Int → Nat))
    (hdef : ∀ b ∈ l, ∃ k, binIdxF rnd mx (st.1 b.2).warp_t_update.length = some k ∧
      0 ≤ k ∧ k < histBinCount) :
    ∃ res, l.foldlM (applyStepF rnd mx) st = some res := by
  induction l generalizing st with
  | nil => exact ⟨st, rfl⟩
  | cons a as ih =>
    rw [List.foldlM_cons]
    obtain ⟨k, hk, hk0, hk1⟩ := hdef a (List.mem_cons_self _ _)
    have hs : ∃ st1, applyStepF rnd mx st a = some st1 := by
      simp only [applyStepF]
      rw [hk]
      simp only
      rw [if_pos ⟨hk0, hk1⟩]
      exact ⟨_, rfl⟩
    obtain ⟨st1, hs⟩ := hs
    rw [hs]
    simp only [Option.bind_eq_bind, Option.some_bind]
    apply ih
    intro b hb
    rw [(applyStepF_some rnd mx st st1 a hs).1 b.2]
    exact hdef b (List.mem_cons_of_mem _ hb)

/-- The second loop on floats is undefined as soon as the bin index of one visited voxel
is undefined. -/
theorem applyLoopF_undefined (rnd : ℚ → ℚ) (mx : FloatValue) (l : List (Vector3i × Nat))
    (st : (Nat → FloatVoxel) × (Int → Nat)) (b : Vector3i × Nat) (hb : b ∈ l)
    (hnone : binIdxF rnd mx (st.1 b.2).warp_t_update.length = none) :
    l.foldlM (applyStepF rnd mx) st = none := by
  induction l generalizing st with
  | nil => cases hb
  | cons a as ih =>
    rw [List.foldlM_cons]
    cases hs : applyStepF rnd mx st a with
    | none => rfl
    | some st1 =>
      simp only [Option.bind_eq_bind, Option.some_bind]
      rcases List.mem_cons.mp hb with rfl | hb'
      · exfalso
        simp only [applyStepF] at hs
        rw [hnone] at hs
        cases hs
      · apply ih st1 hb'
        rw [(applyStepF_some rnd mx st st1 a hs).1 b.2]
        exact hnone

/-- What UpdateWarpField on floats returns, when it is defined: the maximum of the
first loop, with the pending updates of the first loop still in place. -/
theorem UpdateWarpFieldF_some (S : Nat) (rnd : ℚ → ℚ) (codec : VoxelCodec) (smp : FloatSampling)
    (entries : List ITMHashEntry) (m0 : Nat → FloatVoxel) (res : (Nat → FloatVoxel) × FloatValue)
    (h : UpdateWarpFieldF S rnd codec smp entries m0 = some res) :
    res.2 = (computePassF S codec smp entries m0).2 ∧
      ∀ i, (res.1 i).warp_t_update = ((computePassF S codec smp entries m0).1 i).warp_t_update := by
  unfold UpdateWarpFieldF at h
  simp only [Option.map_eq_some'] at h
  obtain ⟨r, hr, hres⟩ := h
  subst hres
  exact ⟨rfl, (applyLoopF_some rnd _ _ _ r hr).1⟩

/-! ### The returned maximum -/

/-- The maximum of the first loop on floats is a number; it bounds the length of the
pending update of every visited voxel that is a number, and in a table with distinct
block pointers it is 0 or the length of the pending update of a visited voxel. -/
theorem computePassF_max (S : Nat) (codec : VoxelCodec) (smp : FloatSampling)
    (entries : List ITMHashEntry) (m0 : Nat → FloatVoxel) :
    ∃ r : ℚ, (computePassF S codec smp entries m0).2 = FloatValue.num r ∧ 0 ≤ r ∧
      (∀ pi ∈ traversal S entries, ∀ u,
        ((computePassF S codec smp entries m0).1 pi.2).warp_t_update.length = FloatValue.num u →
          u ≤ r) ∧
      (distinctPtrs entries → r = 0 ∨ ∃ pi ∈ traversal S entries,
        ((computePassF S codec smp entries m0).1 pi.2).warp_t_update.length = FloatValue.num r) := by
  obtain ⟨r, hr, h0, hub, hatt⟩ := runningMaxF_fold Prod.fst Prod.snd Prod.snd
    (fun v : FloatVoxel => v.warp_t_update.length) (computeStepF codec smp)
    (computeStepF_frame codec smp) (computeStepF_max codec smp) (traversal S entries)
    (m0, FloatValue.num 0) 0 rfl
  exact ⟨r, hr, h0, hub, fun hd => hatt (traversal_indices_nodup S entries hd)⟩

/-- The update of a voxel whose stored distance is NaN is NaN in every component,
whatever the helpers return. -/
theorem warpUpdateAtF_of_nan (codec : VoxelCodec) (smp : FloatSampling) (m : Nat → FloatVoxel)
    (p : Vector3i) (v : FloatVoxel) (h : v.sdf = FloatValue.nan) :
    warpUpdateAtF codec smp m p v = ⟨FloatValue.nan, FloatValue.nan, FloatValue.nan⟩ := by
  simp [warpUpdateAtF, h, VoxelCodec.valueToFloatF, deltaEDataF, useColor, FloatValue.abs,
    FloatValue.gt, FloatValue.lt, FloatValue.sub, FloatVector3.smul, FloatVector3.add,
    FloatVector3.ofNumbers, FloatValue.mul, FloatValue.add]

/-- The first loop on a voxel array in which every stored distance is NaN: the maximum
is never raised, and every visited voxel ends with a pending update that is NaN in
every component. -/
theorem computeLoopF_all_nan (codec : VoxelCodec) (smp : FloatSampling)
    (l : List (Vector3i × Nat)) (st : (Nat → FloatVoxel) × FloatValue)
    (hnan : ∀ i, (st.1 i).sdf = FloatValue.nan) :
    (l.foldl (computeStepF codec smp) st).2 = st.2 ∧
      (∀ i, ((l.foldl (computeStepF codec smp) st).1 i).sdf = FloatValue.nan) ∧
      ∀ i, (i ∈ l.map Prod.snd ∨
          (st.1 i).warp_t_update = ⟨FloatValue.nan, FloatValue.nan, FloatValue.nan⟩) →
        ((l.foldl (computeStepF codec smp) st).1 i).warp_t_update =
          ⟨FloatValue.nan, FloatValue.nan, FloatValue.nan⟩ := by
  induction l generalizing st with
  | nil =>
    refine ⟨rfl, hnan, fun i hi => ?_⟩
    rcases hi with hi | hi
    · cases hi
    · exact hi
  | cons a as ih =>
    rw [List.foldl_cons]
    have hupd : warpUpdateAtF codec smp st.1 a.1 (st.1 a.2) =
        ⟨FloatValue.nan, FloatValue.nan, FloatValue.nan⟩ :=
      warpUpdateAtF_of_nan codec smp st.1 a.1 (st.1 a.2) (hnan a.2)
    have h2 : (computeStepF codec smp st a).2 = st.2 := by
      simp only [computeStepF, hupd]
      cases st.2 <;> rfl
    have h1 : ∀ i, ((computeStepF codec smp st a).1 i).sdf = FloatValue.nan := by
      intro i
      simp only [computeStepF]
      by_cases hi : i = a.2
      · subst hi; simp only [Function.update_same]; exact hnan _
      · simp only [Function.update_noteq hi]; exact hnan i
    obtain ⟨ih2, ih1, ihu⟩ := ih (computeStepF codec smp st a) h1
    refine ⟨ih2.trans h2, ih1, fun i hi => ?_⟩
    apply ihu
    by_cases hia : i = a.2
    · right
      subst hia
      simp only [computeStepF, Function.update_same, hupd]
    · rcases hi with hi | hi
      · rw [List.map_cons, List.mem_cons] at hi
        rcases hi with hi | hi
        · exact absurd hi hia
        · exact Or.inl hi
      · right
        simp only [computeStepF, Function.update_noteq hia]
        exact hi

/-- The first loop of UpdateWarpField on a voxel array in which every stored distance
is NaN returns the maximum 0 and gives every visited voxel a pending update that is NaN
in every component. -/
theorem computePassF_all_nan (S : Nat) (codec : VoxelCodec) (smp : FloatSampling)
    (entries : List ITMHashEntry) (m0 : Nat → FloatVoxel)
    (hnan : ∀ i, (m0 i).sdf = FloatValue.nan) :
    (computePassF S codec smp entries m0).2 = FloatValue.num 0 ∧
      ∀ pi ∈ traversal S entries,
        ((computePassF S codec smp entries m0).1 pi.2).warp_t_update =
          ⟨FloatValue.nan, FloatValue.nan, FloatValue.nan⟩ := by
  obtain ⟨h2, -, hu⟩ := computeLoopF_all_nan codec smp (traversal S entries)
    (m0, FloatValue.num 0) hnan
  exact ⟨h2, fun pi hpi => hu pi.2 (Or.inl (List.mem_map_of_mem Prod.snd hpi))⟩

/-- With the maximum 0 the bin index is 0 for every update length, NaN included. -/
theorem binIdxF_of_zero_max (rnd : ℚ → ℚ) (u : FloatValue) :
    binIdxF rnd (FloatValue.num 0) u = some 0 := by
  simp [binIdxF]

/-- Counterexample to C18 as stated: UpdateWarps on one voxel whose gradient0 has a NaN
component, and UpdateWarpField on one block whose stored distances are all NaN, return
0 while the update of the first voxel has length NaN, so the returned value is not
greater than or equal to that length; the length is not equal to 0 either. -/
theorem returned_maximum_ignores_nan :
    (UpdateWarpsF (FloatValue.num (1 / 10)) false [(⟨0, 0, 0⟩, 0)]
        (fun _ => ⟨⟨FloatValue.num 0, FloatValue.num 0, FloatValue.num 0⟩,
          ⟨FloatValue.nan, FloatValue.num 0, FloatValue.num 0⟩,
          ⟨FloatValue.num 0, FloatValue.num 0, FloatValue.num 0⟩⟩)).2 = FloatValue.num 0 ∧
      ((UpdateWarpsF (FloatValue.num (1 / 10)) false [(⟨0, 0, 0⟩, 0)]
        (fun _ => ⟨⟨FloatValue.num 0, FloatValue.num 0, FloatValue.num 0⟩,
          ⟨FloatValue.nan, FloatValue.num 0, FloatValue.num 0⟩,
          ⟨FloatValue.num 0, FloatValue.num 0, FloatValue.num 0⟩⟩)).1 0).gradient0.length =
        FloatValue.nan ∧
      (∃ res, UpdateWarpFieldF 8 (fun x => x) floatCodec steepFloatSampling [⟨⟨0, 0, 0⟩, 0⟩]
          (fun _ => ⟨FloatValue.nan, 1, 1, ⟨0, 0, 0⟩, FloatValue.num 0,
            ⟨FloatValue.num 0, FloatValue.num 0, FloatValue.num 0⟩,
            ⟨FloatValue.num 0, FloatValue.num 0, FloatValue.num 0⟩⟩) = some res ∧
        res.2 = FloatValue.num 0 ∧
        (res.1 0).warp_t_update.length = FloatValue.nan) ∧
      FloatValue.le FloatValue.nan (FloatValue.num 0) = false ∧
      FloatValue.ne FloatValue.nan (FloatValue.num 0) = true := by
  refine ⟨rfl, rfl, ?_, rfl, rfl⟩
  obtain ⟨h2, hu⟩ := computePassF_all_nan 8 floatCodec steepFloatSampling [⟨⟨0, 0, 0⟩, 0⟩]
    (fun _ => ⟨FloatValue.nan, 1, 1, ⟨0, 0, 0⟩, FloatValue.num 0,
      ⟨FloatValue.num 0, FloatValue.num 0, FloatValue.num 0⟩,
      ⟨FloatValue.num 0, FloatValue.num 0, FloatValue.num 0⟩⟩) (fun _ => rfl)
  have h0 := hu (⟨0, 0, 0⟩, 0) origin_mem_traversal
  obtain ⟨res, hres⟩ := applyLoopF_defined (fun x => x) (FloatValue.num 0)
    (traversal 8 [⟨⟨0, 0, 0⟩, 0⟩])
    ((computePassF 8 floatCodec steepFloatSampling [⟨⟨0, 0, 0⟩, 0⟩]
      (fun _ => ⟨FloatValue.nan, 1, 1, ⟨0, 0, 0⟩, FloatValue.num 0,
        ⟨FloatValue.num 0, FloatValue.num 0, FloatValue.num 0⟩,
        ⟨FloatValue.num 0, FloatValue.num 0, FloatValue.num 0⟩⟩)).1, fun _ => 0)
    (fun b _ => ⟨0, binIdxF_of_zero_max _ _, le_refl _, by simp [histBinCount]⟩)
  refine ⟨(res.1, FloatValue.num 0), ?_, rfl, ?_⟩
  · unfold UpdateWarpFieldF applyPassF
    simp only [h2]
    rw [hres]
    rfl
  · show (res.1 0).warp_t_update.length = FloatValue.nan
    rw [(applyLoopF_some _ _ _ _ res hres).1 0]
    dsimp only at h0 ⊢
    rw [h0]
    rfl

/-! ### The colour branch of UpdateWarpField -/

/-- The test abs(canonicalSdf) > colorSdfThreshold succeeds for every canonical distance
that is a number. -/
theorem colour_test_of_number (c : ℚ) :
    (FloatValue.num c).abs.gt (FloatValue.num colorSdfThreshold) = true := by
  have hthr : colorSdfThreshold < |c| := by
    unfold colorSdfThreshold
    have := abs_nonneg c
    linarith
  simp [FloatValue.abs, FloatValue.gt, FloatValue.lt, hthr]

/-- C29: with colorSdfThreshold = -1 as declared, the colour-aided branch of
UpdateWarpField is not taken for a canonical distance that is a number:
abs(canonicalSdf) > colorSdfThreshold holds, so useColor is false, the data term is
liveSdfJacobian * (liveSdf - canonicalSdf), and the update of a voxel whose stored
distance is a number is built from the sampling without colour (the Alt helper), on
floats that may be NaN and on the embedding in which every float is a number. -/
theorem colour_branch_never_taken (c s : ℚ) (codec : VoxelCodec) (clr : Vector3u) (liveSdf : ℚ)
    (live : LiveDerivatives) (fsmp : FloatSampling) (fm : Nat → FloatVoxel) (fv : FloatVoxel)
    (p : Vector3i) (smp : WarpSampling) (m : Nat → Voxel) (v : Voxel) :
    ((FloatValue.num c).abs.gt (FloatValue.num colorSdfThreshold) = true ∧
        useColor (FloatValue.num c) = false ∧
        useColor (codec.valueToFloatF (FloatValue.num s)) = false) ∧
      deltaEDataF (useColor (FloatValue.num c)) clr liveSdf (FloatValue.num c) live =
        FloatVector3.ofNumbers (Vector3f.smul (liveSdf - c) live.liveSdfJacobian) ∧
      warpUpdateAtF codec fsmp fm p { fv with sdf := FloatValue.num s } =
        FloatVector3.ofNumbers (Vector3f.smul (1 / 10)
          (((Vector3f.smul
              (fsmp.interpolateTrilinearly ((FloatVector3.ofNumbers p.toFloat).add fv.warp_t) -
                codec.valueToFloat s)
              (fsmp.ComputePerPointWarpedLiveJacobianAndHessianAlt fm p fv.warp_t
                (fsmp.interpolateTrilinearly
                  ((FloatVector3.ofNumbers p.toFloat).add fv.warp_t))).liveSdfJacobian).add
            (Vector3f.smul weightLevelSetTerm
              (deltaELevelSet
                (fsmp.ComputePerPointWarpedLiveJacobianAndHessianAlt fm p fv.warp_t
                  (fsmp.interpolateTrilinearly
                    ((FloatVector3.ofNumbers p.toFloat).add fv.warp_t))).liveSdfJacobian
                (fsmp.ComputePerPointWarpedLiveJacobianAndHessianAlt fm p fv.warp_t
                  (fsmp.interpolateTrilinearly
                    ((FloatVector3.ofNumbers p.toFloat).add fv.warp_t))).liveSdfHessian))).add
            (Vector3f.smul weightKillingTerm
              (deltaEKillingAlt rigidityEnforcementFactor
                (fsmp.ComputePerPointWarpJacobianAndHessianAlt fm fv.warp_t p).warpHessianU
                (fsmp.ComputePerPointWarpJacobianAndHessianAlt fm fv.warp_t p).warpHessianV
                (fsmp.ComputePerPointWarpJacobianAndHessianAlt fm fv.warp_t p).warpHessianW)))) ∧
      (|c| > colorSdfThreshold ∧
        (!(decide (|c| > colorSdfThreshold))) = useColor (FloatValue.num c) ∧
        deltaEData (!(decide (|c| > colorSdfThreshold))) v liveSdf c live =
          Vector3f.smul (liveSdf - c) live.liveSdfJacobian) ∧
      warpUpdateAt codec smp m p v =
        Vector3f.smul (1 / 10)
          (((Vector3f.smul
              (smp.interpolateTrilinearly (p.toFloat.add v.warp_t) - codec.valueToFloat v.sdf)
              (smp.ComputePerPointWarpedLiveJacobianAndHessianAlt m p v.warp_t
                (smp.interpolateTrilinearly (p.toFloat.add v.warp_t))).liveSdfJacobian).add
            (Vector3f.smul weightLevelSetTerm
              (deltaELevelSet
                (smp.ComputePerPointWarpedLiveJacobianAndHessianAlt m p v.warp_t
                  (smp.interpolateTrilinearly (p.toFloat.add v.warp_t))).liveSdfJacobian
                (smp.ComputePerPointWarpedLiveJacobianAndHessianAlt m p v.warp_t
                  (smp.interpolateTrilinearly (p.toFloat.add v.warp_t))).liveSdfHessian))).add
            (Vector3f.smul weightKillingTerm
              (deltaEKillingAlt rigidityEnforcementFactor
                (smp.ComputePerPointWarpJacobianAndHessianAlt m v.warp_t p).warpHessianU
                (smp.ComputePerPointWarpJacobianAndHessianAlt m v.warp_t p).warpHessianV
                (smp.ComputePerPointWarpJacobianAndHessianAlt m v.warp_t p).warpHessianW))) := by
  have hthr : |c| > colorSdfThreshold := by
    unfold colorSdfThreshold
    have := abs_nonneg c
    linarith
  have hc := colour_test_of_number c
  have hs := colour_test_of_number (codec.valueToFloat s)
  have huc : useColor (FloatValue.num c) = false := by
    unfold useColor
    rw [if_pos hc]
  have hus : useColor (codec.valueToFloatF (FloatValue.num s)) = false := by
    unfold useColor VoxelCodec.valueToFloatF
    rw [if_pos hs]
  refine ⟨⟨hc, huc, hus⟩, ?_, ?_, ⟨hthr, ?_, ?_⟩, warpUpdateAt_eq codec smp m p v⟩
  · rw [huc]
    rfl
  · have hus' : useColor (FloatValue.num (codec.valueToFloat s)) = false := hus
    simp only [warpUpdateAtF, VoxelCodec.valueToFloatF, hs, if_true, hus', deltaEDataF]
    rfl
  · rw [huc]
    simp [hthr]
  · simp [deltaEData, hthr]

/-- Counterexample to C29 as stated: for a canonical distance that is NaN the test
abs(canonicalSdf) > colorSdfThreshold is false and useColor is true, also for the
stored NaN of a voxel type that stores the distance as a float. -/
theorem colour_branch_taken_for_nan :
    FloatValue.nan.abs.gt (FloatValue.num colorSdfThreshold) = false ∧
      useColor FloatValue.nan = true ∧
      useColor (floatCodec.valueToFloatF FloatValue.nan) = true :=
  ⟨rfl, rfl, rfl⟩

/-! ### The diagnostic histogram on floats that may be NaN -/

/-- Rounding to the nearest float keeps a non-negative number non-negative and at most
doubles it. -/
theorem roundToFloat_bounds (x : ℚ) (hx : 0 ≤ x) :
    0 ≤ roundToFloat x ∧ roundToFloat x ≤ 2 * x := by
  unfold roundToFloat
  by_cases h0 : x = 0
  · simp [h0]
  · have hpos : 0 < x := lt_of_le_of_ne hx (Ne.symm h0)
    rw [if_neg h0, abs_of_pos hpos]
    have hulp : (0 : ℚ) < 2 ^ (Int.log 2 x - 23) := zpow_pos (by norm_num) _
    have hle : (2 : ℚ) ^ (Int.log 2 x) ≤ x := by
      have := Int.zpow_log_le_self (b := 2) (by norm_num) hpos
      exact_mod_cast this
    have hy : (1 : ℚ) ≤ x / 2 ^ (Int.log 2 x - 23) := by
      rw [le_div_iff₀ hulp, one_mul]
      refine le_trans ?_ hle
      exact zpow_le_zpow_right₀ (by norm_num) (by omega)
    have hfl0 : (1 : Int) ≤ ⌊x / 2 ^ (Int.log 2 x - 23)⌋ := Int.le_floor.mpr (by exact_mod_cast hy)
    have hfl1 : ((⌊x / 2 ^ (Int.log 2 x - 23)⌋ : Int) : ℚ) ≤ x / 2 ^ (Int.log 2 x - 23) :=
      Int.floor_le _
    have hsig : ∀ k : Int, ⌊x / 2 ^ (Int.log 2 x - 23)⌋ ≤ k →
        k ≤ ⌊x / 2 ^ (Int.log 2 x - 23)⌋ + 1 →
        0 ≤ (k : ℚ) * 2 ^ (Int.log 2 x - 23) ∧ (k : ℚ) * 2 ^ (Int.log 2 x - 23) ≤ 2 * x := by
      intro k hk1 hk2
      have hk0 : (0 : ℚ) ≤ k := by exact_mod_cast (by omega : (0 : Int) ≤ k)
      refine ⟨mul_nonneg hk0 hulp.le, ?_⟩
      have hk3 : (k : ℚ) ≤ 2 * (x / 2 ^ (Int.log 2 x - 23)) := by
        have : (k : ℚ) ≤ (⌊x / 2 ^ (Int.log 2 x - 23)⌋ : ℚ) + 1 := by exact_mod_cast hk2
        linarith
      calc (k : ℚ) * 2 ^ (Int.log 2 x - 23)
          ≤ 2 * (x / 2 ^ (Int.log 2 x - 23)) * 2 ^ (Int.log 2 x - 23) :=
            mul_le_mul_of_nonneg_right hk3 hulp.le
        _ = 2 * x := by field_simp
    simp only
    split_ifs
    · exact hsig _ (le_refl _) (by omega)
    · exact_mod_cast hsig _ (by omega) (le_refl _)
    · exact hsig _ (le_refl _) (by omega)
    · exact_mod_cast hsig _ (by omega) (le_refl _)

/-- The float nearest to 7 / 10 is 11744051 / 2^24, and ten times that float is rounded
to 7. -/
theorem roundToFloat_seven_tenths :
    roundToFloat (7 / 10) = 11744051 / 16777216 ∧
      roundToFloat (11744051 / 16777216 * 10) = 7 ∧ roundToFloat (7 / 1) = 7 := by
  have hlog : ∀ x : ℚ, 1 ≤ x → ⌊x⌋₊ = 6 ∨ ⌊x⌋₊ = 7 → Int.log 2 x = 2 := by
    intro x hx h
    rw [Int.log_of_one_le_right _ hx]
    have : Nat.log 2 ⌊x⌋₊ = 2 := by
      rw [Nat.log_eq_iff (by norm_num)]
      rcases h with h | h <;> rw [h] <;> norm_num
    rw [this]
    rfl
  refine ⟨?_, ?_, ?_⟩
  · unfold roundToFloat
    have hl : Int.log 2 |(7 / 10 : ℚ)| = -1 := by
      rw [abs_of_pos (by norm_num), Int.log_of_right_le_one _ (by norm_num)]
      have h1 : ⌈((7 / 10 : ℚ))⁻¹⌉₊ = 2 := by
        rw [Nat.ceil_eq_iff (by norm_num)]
        norm_num
      have h2 : Nat.clog 2 2 = 1 := Nat.clog_pow 2 1 (by norm_num)
      rw [h1, h2]
      rfl
    rw [if_neg (by norm_num), hl]
    have hf : ⌊(7 / 10 : ℚ) / 2 ^ ((-1 : Int) - 23)⌋ = 11744051 := by
      rw [Int.floor_eq_iff]
      norm_num
    simp only [hf]
    norm_num
  · unfold roundToFloat
    have hl : Int.log 2 |(11744051 / 16777216 * 10 : ℚ)| = 2 := by
      rw [abs_of_pos (by norm_num)]
      refine hlog _ (by norm_num) (Or.inl ?_)
      rw [Nat.floor_eq_iff (by norm_num)]
      norm_num
    rw [if_neg (by norm_num), hl]
    have hf : ⌊(11744051 / 16777216 * 10 : ℚ) / 2 ^ ((2 : Int) - 23)⌋ = 14680063 := by
      rw [Int.floor_eq_iff]
      norm_num
    simp only [hf]
    norm_num
  · unfold roundToFloat
    have hl : Int.log 2 |(7 / 1 : ℚ)| = 2 := by
      rw [abs_of_pos (by norm_num)]
      refine hlog _ (by norm_num) (Or.inr ?_)
      rw [Nat.floor_eq_iff (by norm_num)]
      norm_num
    rw [if_neg (by norm_num), hl]
    have hf : ⌊(7 / 1 : ℚ) / 2 ^ ((2 : Int) - 23)⌋ = 14680064 := by
      rw [Int.floor_eq_iff]
      norm_num
    simp only [hf]
    norm_num

/-- The cast to int of a number between 0 and 40 is defined and is its floor. -/
theorem castToInt_of_small (q : ℚ) (h0 : 0 ≤ q) (h1 : q ≤ 40) :
    castToInt (FloatValue.num q) = some ⌊q⌋ := by
  simp only [castToInt]
  rw [if_pos ⟨by linarith, by linarith⟩, (truncToInt_of_nonneg q h0).1]

/-- The bin index for an update length that is a number between 0 and the maximum, for
a rounding rnd that keeps a non-negative number non-negative and at most doubles it: the
cast is defined, the index is the formula of the source, and it lies in
0 .. histBinCount - 1. -/
theorem binIdxF_spec (rnd : ℚ → ℚ) (hrnd : ∀ x, 0 ≤ x → 0 ≤ rnd x ∧ rnd x ≤ 2 * x)
    (mx u : ℚ) (hu : 0 ≤ u) (hum : u ≤ mx) :
    binIdxF rnd (FloatValue.num mx) (FloatValue.num u) =
        some (if mx = 0 then 0
          else min ((histBinCount : Int) - 1) ⌊rnd (rnd (u * histBinCount) / mx)⌋) ∧
      0 ≤ (if mx = 0 then (0 : Int)
          else min ((histBinCount : Int) - 1) ⌊rnd (rnd (u * histBinCount) / mx)⌋) ∧
      (if mx = 0 then (0 : Int)
          else min ((histBinCount : Int) - 1) ⌊rnd (rnd (u * histBinCount) / mx)⌋) <
        histBinCount := by
  by_cases h0 : mx = 0
  · subst h0
    simp [binIdxF, histBinCount]
  · have hpos : 0 < mx := lt_of_le_of_ne (hu.trans hum) (Ne.symm h0)
    have h1 := hrnd (u * histBinCount) (mul_nonneg hu (Nat.cast_nonneg _))
    have hq0 : 0 ≤ rnd (u * histBinCount) / mx := div_nonneg h1.1 hpos.le
    have hq1 : rnd (u * histBinCount) / mx ≤ 20 := by
      rw [div_le_iff₀ hpos]
      have h10 : (histBinCount : ℚ) = 10 := by norm_num [histBinCount]
      rw [h10] at h1 ⊢
      nlinarith [h1.2]
    have h2 := hrnd _ hq0
    have hc := castToInt_of_small (rnd (rnd (u * histBinCount) / mx)) h2.1 (by linarith [h2.2])
    have heq : binIdxF rnd (FloatValue.num mx) (FloatValue.num u) =
        some (min ((histBinCount : Int) - 1) ⌊rnd (rnd (u * histBinCount) / mx)⌋) := by
      simp only [binIdxF, binQuotient, gt_iff_lt, hpos, if_true, hc, Option.map_some']
    rw [if_neg h0]
    refine ⟨heq, le_min (by simp [histBinCount]) (Int.floor_nonneg.mpr h2.1), ?_⟩
    exact lt_of_le_of_lt (min_le_left _ _) (by simp [histBinCount])

/-- The bin index is undefined for an update length that is NaN beside a positive
maximum. -/
theorem binIdxF_nan (rnd : ℚ → ℚ) (mx : ℚ) (hpos : 0 < mx) :
    binIdxF rnd (FloatValue.num mx) FloatValue.nan = none := by
  simp [binIdxF, binQuotient, castToInt, hpos]

/-- The update of a voxel whose stored distance is a number, on floats that may be NaN:
the vector of numbers built from the sampling without colour (the Alt helper). -/
theorem warpUpdateAtF_of_number (codec : VoxelCodec) (smp : FloatSampling)
    (m : Nat → FloatVoxel) (p : Vector3i) (v : FloatVoxel) (s : ℚ)
    (h : v.sdf = FloatValue.num s) :
    warpUpdateAtF codec smp m p v =
      FloatVector3.ofNumbers (Vector3f.smul (1 / 10)
        (((Vector3f.smul
            (smp.interpolateTrilinearly ((FloatVector3.ofNumbers p.toFloat).add v.warp_t) -
              codec.valueToFloat s)
            (smp.ComputePerPointWarpedLiveJacobianAndHessianAlt m p v.warp_t
              (smp.interpolateTrilinearly
                ((FloatVector3.ofNumbers p.toFloat).add v.warp_t))).liveSdfJacobian).add
          (Vector3f.smul weightLevelSetTerm
            (deltaELevelSet
              (smp.ComputePerPointWarpedLiveJacobianAndHessianAlt m p v.warp_t
                (smp.interpolateTrilinearly
                  ((FloatVector3.ofNumbers p.toFloat).add v.warp_t))).liveSdfJacobian
              (smp.ComputePerPointWarpedLiveJacobianAndHessianAlt m p v.warp_t
                (smp.interpolateTrilinearly
                  ((FloatVector3.ofNumbers p.toFloat).add v.warp_t))).liveSdfHessian))).add
          (Vector3f.smul weightKillingTerm
            (deltaEKillingAlt rigidityEnforcementFactor
              (smp.ComputePerPointWarpJacobianAndHessianAlt m v.warp_t p).warpHessianU
              (smp.ComputePerPointWarpJacobianAndHessianAlt m v.warp_t p).warpHessianV
              (smp.ComputePerPointWarpJacobianAndHessianAlt m v.warp_t p).warpHessianW)))) := by
  have hs := colour_test_of_number (codec.valueToFloat s)
  have hus : useColor (FloatValue.num (codec.valueToFloat s)) = false := by
    unfold useColor
    rw [if_pos hs]
  simp only [warpUpdateAtF, h, VoxelCodec.valueToFloatF, hs, if_true, hus, deltaEDataF]
  rfl

/-- The update that the example sampling steepFloatSampling gives a voxel of a float
voxel type whose stored distance is 0. -/
theorem warpUpdateAtF_steep (m : Nat → FloatVoxel) (p : Vector3i) (v : FloatVoxel)
    (h : v.sdf = FloatValue.num 0) :
    warpUpdateAtF floatCodec steepFloatSampling m p v =
      FloatVector3.ofNumbers ⟨1 / 10 * (1 / 5 * (2 / (2 + 1 / 2 ^ 23))), 0, 0⟩ := by
  rw [warpUpdateAtF_of_number floatCodec steepFloatSampling m p v 0 h]
  congr 1
  have hJ : length ⟨2, 0, 0⟩ = 2 := by
    rw [length_x_axis]; norm_num
  simp only [steepFloatSampling, deltaELevelSet, hJ, deltaEKillingAlt_zero]
  ext <;>
    simp [Vector3f.smul, Vector3f.add, Vector3f.sdiv, Vector3f.zero, Matrix3f.mulVec,
      Matrix3f.m00, Matrix3f.m01, Matrix3f.m02, Matrix3f.m10, Matrix3f.m11, Matrix3f.m12,
      Matrix3f.m20, Matrix3f.m21, Matrix3f.m22, floatCodec, weightLevelSetTerm,
      weightKillingTerm, epsilon]
  norm_num

/-- A visit of the first loop on floats leaves every stored distance as it is. -/
theorem computeStepF_sdf (codec : VoxelCodec) (smp : FloatSampling)
    (st : (Nat → FloatVoxel) × FloatValue) (a : Vector3i × Nat) (i : Nat) :
    ((computeStepF codec smp st a).1 i).sdf = (st.1 i).sdf := by
  simp only [computeStepF]
  by_cases hi : i = a.2
  · subst hi; simp only [Function.update_same]
  · simp only [Function.update_noteq hi]

/-- After the first loop on floats the pending update of a visited voxel is the update
computed at its last visit, for a voxel with the stored distance it had at the start. -/
theorem computeLoopF_visited (codec : VoxelCodec) (smp : FloatSampling)
    (l : List (Vector3i × Nat)) (st : (Nat → FloatVoxel) × FloatValue) (i : Nat)
    (hi : i ∈ l.map Prod.snd) :
    ∃ m p v, v.sdf = (st.1 i).sdf ∧
      ((l.foldl (computeStepF codec smp) st).1 i).warp_t_update = warpUpdateAtF codec smp m p v := by
  induction l generalizing st with
  | nil => cases hi
  | cons a as ih =>
    rw [List.foldl_cons]
    by_cases hin : i ∈ as.map Prod.snd
    · obtain ⟨m, p, v, hv, hu⟩ := ih (computeStepF codec smp st a) hin
      exact ⟨m, p, v, hv.trans (computeStepF_sdf codec smp st a i), hu⟩
    · have hia : i = a.2 := by
        rw [List.map_cons, List.mem_cons] at hi
        rcases hi with hi | hi
        · exact hi
        · exact absurd hi hin
      subst hia
      refine ⟨st.1, a.1, st.1 a.2, rfl, ?_⟩
      rw [foldl_frame_proj Prod.fst Prod.snd (computeStepF codec smp)
        (computeStepF_frame codec smp) as _ _ hin]
      simp only [computeStepF, Function.update_same]

/-- UpdateWarpField on floats is defined when the maximum of the first loop is 0 or
every visited voxel has an update length that is a number, for a rounding that keeps a
non-negative number non-negative and at most doubles it: the second loop is defined, the
function returns the voxel array of the second loop with the maximum of the first, and
the bins sum to the number of visits. -/
theorem UpdateWarpFieldF_defined (rnd : ℚ → ℚ)
    (hrnd : ∀ x, 0 ≤ x → 0 ≤ rnd x ∧ rnd x ≤ 2 * x) (S : Nat) (codec : VoxelCodec)
    (smp : FloatSampling) (entries : List ITMHashEntry) (m0 : Nat → FloatVoxel)
    (hcase : (computePassF S codec smp entries m0).2 = FloatValue.num 0 ∨
      ∀ pi ∈ traversal S entries, ∃ u,
        ((computePassF S codec smp entries m0).1 pi.2).warp_t_update.length =
          FloatValue.num u) :
    ∃ res, applyPassF S rnd (computePassF S codec smp entries m0).2 entries
          (computePassF S codec smp entries m0).1 = some res ∧
      UpdateWarpFieldF S rnd codec smp entries m0 =
        some (res.1, (computePassF S codec smp entries m0).2) ∧
      (∀ i, (res.1 i).warp_t_update =
        ((computePassF S codec smp entries m0).1 i).warp_t_update) ∧
      ∑ i in Finset.Icc (0 : Int) ((histBinCount : Int) - 1), res.2 i =
        (traversal S entries).length := by
  obtain ⟨r, hr, -, hub, -⟩ := computePassF_max S codec smp entries m0
  have hdef : ∀ b ∈ traversal S entries, ∃ k,
      binIdxF rnd (computePassF S codec smp entries m0).2
          ((computePassF S codec smp entries m0).1 b.2).warp_t_update.length = some k ∧
        0 ≤ k ∧ k < histBinCount := by
    intro b hb
    rcases hcase with hz | hnum
    · rw [hz]
      exact ⟨0, binIdxF_of_zero_max rnd _, le_refl _, by simp [histBinCount]⟩
    · obtain ⟨u, hu⟩ := hnum b hb
      rw [hr, hu]
      obtain ⟨h1, h2, h3⟩ := binIdxF_spec rnd hrnd r u
        (FloatVector3_length_nonneg _ u hu) (hub b hb u hu)
      exact ⟨_, h1, h2, h3⟩
  obtain ⟨res, hres⟩ := applyLoopF_defined rnd _ (traversal S entries)
    ((computePassF S codec smp entries m0).1, fun _ => 0) hdef
  refine ⟨res, hres, ?_, (applyLoopF_some rnd _ _ _ res hres).1, ?_⟩
  · unfold UpdateWarpFieldF applyPassF
    simp only
    rw [hres]
    rfl
  · rw [(applyLoopF_some rnd _ _ _ res hres).2]
    simp

/-- After the first loop of UpdateWarpField on floats the pending update of a visited
voxel is an update computed for a voxel with the stored distance it had at the start. -/
theorem computePassF_visited (S : Nat) (codec : VoxelCodec) (smp : FloatSampling)
    (entries : List ITMHashEntry) (m0 : Nat → FloatVoxel) (pi : Vector3i × Nat)
    (hpi : pi ∈ traversal S entries) :
    ∃ m p v, v.sdf = (m0 pi.2).sdf ∧
      ((computePassF S codec smp entries m0).1 pi.2).warp_t_update =
        warpUpdateAtF codec smp m p v :=
  computeLoopF_visited codec smp (traversal S entries) (m0, FloatValue.num 0) pi.2
    (List.mem_map_of_mem Prod.snd hpi)

/-- UpdateWarpField on floats is undefined when, after the first loop, one visited voxel
has an update whose length is a positive number and another one an update whose length
is NaN. -/
theorem UpdateWarpFieldF_undefined (S : Nat) (rnd : ℚ → ℚ) (codec : VoxelCodec)
    (smp : FloatSampling) (entries : List ITMHashEntry) (m0 : Nat → FloatVoxel)
    (pa pb : Vector3i × Nat) (ha : pa ∈ traversal S entries) (hb : pb ∈ traversal S entries)
    (u : ℚ) (hu : 0 < u)
    (hlena : ((computePassF S codec smp entries m0).1 pa.2).warp_t_update.length =
      FloatValue.num u)
    (hlenb : ((computePassF S codec smp entries m0).1 pb.2).warp_t_update.length =
      FloatValue.nan) :
    UpdateWarpFieldF S rnd codec smp entries m0 = none := by
  obtain ⟨r, hr, -, hub, -⟩ := computePassF_max S codec smp entries m0
  have hpos : 0 < r := lt_of_lt_of_le hu (hub pa ha u hlena)
  unfold UpdateWarpFieldF applyPassF
  simp only
  rw [applyLoopF_undefined rnd _ (traversal S entries) _ pb hb ?_]
  · rfl
  · rw [hr, hlenb]
    exact binIdxF_nan rnd r hpos

/-- C30: the diagnostic histogram of UpdateWarpField is indexed safely and counts every
voxel once when the update lengths are numbers.  On floats that may be NaN, for every
rounding rnd of a float operation that keeps a non-negative number non-negative and at
most doubles it: for an update length u that is a number with 0 <= u <= maxVectorUpdate
the bin index is defined, it is 0 when maxVectorUpdate = 0 and otherwise
min(histBinCount - 1, floor(rnd(rnd(u * histBinCount) / maxVectorUpdate))), and it lies
in 0 .. histBinCount - 1; with exact arithmetic this is
min(histBinCount - 1, floor(u * histBinCount / maxVectorUpdate)).  The maximum of the
first loop is a number r >= 0 and every update length that is a number lies between 0
and r.  When r = 0 or every visited voxel has an update length that is a number, the
second loop and UpdateWarpField are defined and the bins sum to the number of visited
voxels, SDF_BLOCK_SIZE3 for every entry with ptr >= 0. -/
theorem histogram_safe_and_complete (rnd : ℚ → ℚ)
    (hrnd : ∀ x, 0 ≤ x → 0 ≤ rnd x ∧ rnd x ≤ 2 * x) (S : Nat) (codec : VoxelCodec)
    (smp : FloatSampling) (entries : List ITMHashEntry) (m0 : Nat → FloatVoxel) :
    (∀ mx u : ℚ, 0 ≤ u → u ≤ mx →
        binIdxF rnd (FloatValue.num mx) (FloatValue.num u) =
          some (if mx = 0 then 0
            else min ((histBinCount : Int) - 1) ⌊rnd (rnd (u * histBinCount) / mx)⌋) ∧
        0 ≤ (if mx = 0 then (0 : Int)
            else min ((histBinCount : Int) - 1) ⌊rnd (rnd (u * histBinCount) / mx)⌋) ∧
        (if mx = 0 then (0 : Int)
            else min ((histBinCount : Int) - 1) ⌊rnd (rnd (u * histBinCount) / mx)⌋) <
          histBinCount) ∧
      (∀ mx u : ℚ, 0 ≤ u → u ≤ mx →
        binIdxF (fun x => x) (FloatValue.num mx) (FloatValue.num u) =
          some (if mx = 0 then 0
            else min ((histBinCount : Int) - 1) ⌊u * histBinCount / mx⌋)) ∧
      (∃ r : ℚ, (computePassF S codec smp entries m0).2 = FloatValue.num r ∧ 0 ≤ r ∧
        (∀ pi ∈ traversal S entries, ∀ u,
          ((computePassF S codec smp entries m0).1 pi.2).warp_t_update.length =
            FloatValue.num u → 0 ≤ u ∧ u ≤ r) ∧
        ((r = 0 ∨ ∀ pi ∈ traversal S entries, ∃ u,
            ((computePassF S codec smp entries m0).1 pi.2).warp_t_update.length =
              FloatValue.num u) →
          ∃ res, applyPassF S rnd (computePassF S codec smp entries m0).2 entries
                (computePassF S codec smp entries m0).1 = some res ∧
            UpdateWarpFieldF S rnd codec smp entries m0 =
              some (res.1, (computePassF S codec smp entries m0).2) ∧
            ∑ i in Finset.Icc (0 : Int) ((histBinCount : Int) - 1), res.2 i =
              (traversal S entries).length)) ∧
      (traversal S entries).length =
        S * S * S * (entries.filter fun e => decide (0 ≤ e.ptr)).length := by
  refine ⟨fun mx u hu hum => binIdxF_spec rnd hrnd mx u hu hum,
    fun mx u hu hum =>
      (binIdxF_spec (fun x => x) (fun x hx => ⟨hx, by linarith⟩) mx u hu hum).1,
    ?_, traversal_length S entries⟩
  obtain ⟨r, hr, h0, hub, -⟩ := computePassF_max S codec smp entries m0
  refine ⟨r, hr, h0, fun pi hpi u hu => ⟨FloatVector3_length_nonneg _ u hu, hub pi hpi u hu⟩, ?_⟩
  intro hcase
  obtain ⟨res, h1, h2, -, h4⟩ := UpdateWarpFieldF_defined rnd hrnd S codec smp entries m0
    (hcase.imp (fun hz => by rw [hr, hz]) id)
  exact ⟨res, h1, h2, h4⟩

/-- Witness for C30: with the rounding to the nearest float, the maximum 1 and the update
length 11744051 / 2^24 (the float nearest to 7 / 10), the bin index is 7. -/
theorem histogram_safe_and_complete_witness :
    binIdxF roundToFloat (FloatValue.num 1) (FloatValue.num (11744051 / 16777216)) = some 7 := by
  have h := ((histogram_safe_and_complete roundToFloat roundToFloat_bounds 8 floatCodec
    steepFloatSampling [⟨⟨0, 0, 0⟩, 0⟩]
    (fun _ => ⟨FloatValue.num 0, 1, 1, ⟨0, 0, 0⟩, FloatValue.num 0,
      ⟨FloatValue.num 0, FloatValue.num 0, FloatValue.num 0⟩,
      ⟨FloatValue.num 0, FloatValue.num 0, FloatValue.num 0⟩⟩)).1 1 (11744051 / 16777216)
    (by norm_num) (by norm_num)).1
  rw [h]
  have h10 : ((histBinCount : Nat) : ℚ) = 10 := by norm_num [histBinCount]
  have h7 : roundToFloat 7 = 7 := by simpa using roundToFloat_seven_tenths.2.2
  rw [h10, roundToFloat_seven_tenths.2.1, div_one, h7]
  norm_num [histBinCount]

/-- Counterexample to C30 as stated.  In one block of a float voxel type in which the
voxel with index 1 stores a NaN distance and every other voxel the distance 0, with the
example live scene, the first loop returns a positive maximum while the update of voxel
1 has length NaN: its bin index is the cast to int of a NaN, so the second loop and
UpdateWarpField are undefined.  And for the update length 11744051 / 2^24 (the float
nearest to 7 / 10) beside the maximum 1 the bin index is 7, while
min(histBinCount - 1, floor(updateLength * histBinCount / maxVectorUpdate)) is 6. -/
theorem histogram_index_undefined_for_nan :
    UpdateWarpFieldF 8 roundToFloat floatCodec steepFloatSampling [⟨⟨0, 0, 0⟩, 0⟩]
        (fun i => ⟨if i = 1 then FloatValue.nan else FloatValue.num 0, 1, 1, ⟨0, 0, 0⟩,
          FloatValue.num 0, ⟨FloatValue.num 0, FloatValue.num 0, FloatValue.num 0⟩,
          ⟨FloatValue.num 0, FloatValue.num 0, FloatValue.num 0⟩⟩) = none ∧
      binIdxF roundToFloat (FloatValue.num 1) FloatValue.nan = none ∧
      binIdxF roundToFloat (FloatValue.num 1) (FloatValue.num (11744051 / 16777216)) =
        some 7 ∧
      min ((histBinCount : Int) - 1) ⌊(11744051 / 16777216 : ℚ) * histBinCount / 1⌋ = 6 := by
  refine ⟨?_, binIdxF_nan _ 1 (by norm_num), ?_, ?_⟩
  · have hmem1 : ((⟨1, 0, 0⟩ : Vector3i), 1) ∈ traversal 8 [⟨⟨0, 0, 0⟩, 0⟩] :=
      traversal_visits 8 [⟨⟨0, 0, 0⟩, 0⟩] ⟨⟨0, 0, 0⟩, 0⟩ (List.mem_singleton.mpr rfl)
        (le_refl _) 1 0 0 (by decide) (by decide) (by decide)
    obtain ⟨ma, pa, va, hva, hua⟩ := computePassF_visited 8 floatCodec steepFloatSampling
      [⟨⟨0, 0, 0⟩, 0⟩]
      (fun i => ⟨if i = 1 then FloatValue.nan else FloatValue.num 0, 1, 1, ⟨0, 0, 0⟩,
        FloatValue.num 0, ⟨FloatValue.num 0, FloatValue.num 0, FloatValue.num 0⟩,
        ⟨FloatValue.num 0, FloatValue.num 0, FloatValue.num 0⟩⟩) (⟨0, 0, 0⟩, 0)
      origin_mem_traversal
    obtain ⟨mb, pb, vb, hvb, hub1⟩ := computePassF_visited 8 floatCodec steepFloatSampling
      [⟨⟨0, 0, 0⟩, 0⟩]
      (fun i => ⟨if i = 1 then FloatValue.nan else FloatValue.num 0, 1, 1, ⟨0, 0, 0⟩,
        FloatValue.num 0, ⟨FloatValue.num 0, FloatValue.num 0, FloatValue.num 0⟩,
        ⟨FloatValue.num 0, FloatValue.num 0, FloatValue.num 0⟩⟩) (⟨1, 0, 0⟩, 1) hmem1
    rw [warpUpdateAtF_steep ma pa va hva] at hua
    rw [warpUpdateAtF_of_nan floatCodec steepFloatSampling mb pb vb hvb] at hub1
    refine UpdateWarpFieldF_undefined 8 roundToFloat floatCodec steepFloatSampling _ _
      (⟨0, 0, 0⟩, 0) (⟨1, 0, 0⟩, 1) origin_mem_traversal hmem1
      |1 / 10 * (1 / 5 * (2 / (2 + 1 / 2 ^ 23)))| (by norm_num) ?_ ?_
    · rw [hua, FloatVector3_length_ofNumbers, length_x_axis]
    · rw [hub1]
      rfl
  · have h := (binIdxF_spec roundToFloat roundToFloat_bounds 1 (11744051 / 16777216)
      (by norm_num) (by norm_num)).1
    rw [h]
    have h10 : ((histBinCount : Nat) : ℚ) = 10 := by norm_num [histBinCount]
    have h7 : roundToFloat 7 = 7 := by simpa using roundToFloat_seven_tenths.2.2
    rw [h10, roundToFloat_seven_tenths.2.1, div_one, h7]
    norm_num [histBinCount]
  · have h : ⌊(11744051 / 16777216 : ℚ) * histBinCount / 1⌋ = 6 := by
      rw [Int.floor_eq_iff]
      norm_num [histBinCount]
    rw [h]
    norm_num [histBinCount]


/-! ### The returned maximum of UpdateWarpField and UpdateWarps -/

/-- C18: the value returned by the update pass is the maximum of the update lengths that
are numbers.  For UpdateWarpField on a table with distinct block pointers (updates in
warp_t_update; its first loop computes the value that is returned) and for UpdateWarps
on a visiting order that names no voxel twice (updates in gradient0), on floats that
may be NaN: the returned value is a number r; r is at least the length of the update of
every visited voxel whose length is a number; r is the length of the update of some
visited voxel when at least one such length is a non-zero number; and r is 0 when no
voxel is visited or every length that is a number is 0.  UpdateWarpField returns the
maximum of its first loop, and it does return when that maximum is 0 or every update
length is a number (for a rounding of the float operations that keeps a non-negative
number non-negative and at most doubles it). -/
theorem returned_maximum_update (S : Nat) (codec : VoxelCodec) (smp : FloatSampling)
    (entries : List ITMHashEntry) (m0 : Nat → FloatVoxel) (hd : distinctPtrs entries)
    (learningRate : FloatValue) (enabled : Bool) (visits : List (Vector3i × Nat))
    (g0 : Nat → FloatGradientVoxel) (hv : (visits.map Prod.snd).Nodup) :
    (∃ r : ℚ, (computePassF S codec smp entries m0).2 = FloatValue.num r ∧
      (∀ pi ∈ traversal S entries, ∀ u,
        ((computePassF S codec smp entries m0).1 pi.2).warp_t_update.length = FloatValue.num u →
          u ≤ r) ∧
      ((∃ pi ∈ traversal S entries, ∃ u,
          ((computePassF S codec smp entries m0).1 pi.2).warp_t_update.length =
            FloatValue.num u ∧ u ≠ 0) →
        ∃ pi ∈ traversal S entries,
          ((computePassF S codec smp entries m0).1 pi.2).warp_t_update.length =
            FloatValue.num r) ∧
      ((∀ pi ∈ traversal S entries, ∀ u,
          ((computePassF S codec smp entries m0).1 pi.2).warp_t_update.length =
            FloatValue.num u → u = 0) → r = 0)) ∧
    (∀ rnd res, UpdateWarpFieldF S rnd codec smp entries m0 = some res →
      res.2 = (computePassF S codec smp entries m0).2 ∧
      ∀ i, (res.1 i).warp_t_update =
        ((computePassF S codec smp entries m0).1 i).warp_t_update) ∧
    (∀ rnd : ℚ → ℚ, (∀ x, 0 ≤ x → 0 ≤ rnd x ∧ rnd x ≤ 2 * x) →
      ((computePassF S codec smp entries m0).2 = FloatValue.num 0 ∨
        ∀ pi ∈ traversal S entries, ∃ u,
          ((computePassF S codec smp entries m0).1 pi.2).warp_t_update.length =
            FloatValue.num u) →
      ∃ res, UpdateWarpFieldF S rnd codec smp entries m0 = some res ∧
        res.2 = (computePassF S codec smp entries m0).2 ∧
        ∀ i, (res.1 i).warp_t_update =
          ((computePassF S codec smp entries m0).1 i).warp_t_update) ∧
    (∃ r : ℚ, (UpdateWarpsF learningRate enabled visits g0).2 = FloatValue.num r ∧
      (∀ pi ∈ visits, ∀ u,
        ((UpdateWarpsF learningRate enabled visits g0).1 pi.2).gradient0.length =
          FloatValue.num u → u ≤ r) ∧
      ((∃ pi ∈ visits, ∃ u,
          ((UpdateWarpsF learningRate enabled visits g0).1 pi.2).gradient0.length =
            FloatValue.num u ∧ u ≠ 0) →
        ∃ pi ∈ visits,
          ((UpdateWarpsF learningRate enabled visits g0).1 pi.2).gradient0.length =
            FloatValue.num r) ∧
      ((∀ pi ∈ visits, ∀ u,
          ((UpdateWarpsF learningRate enabled visits g0).1 pi.2).gradient0.length =
            FloatValue.num u → u = 0) → r = 0)) := by
  refine ⟨?_, fun rnd res h => UpdateWarpFieldF_some S rnd codec smp entries m0 res h,
    fun rnd hrnd hcase => ?_, ?_⟩
  · obtain ⟨r, hr, -, hub, hatt⟩ := computePassF_max S codec smp entries m0
    obtain ⟨-, h2, h3⟩ := maximum_of_lengths (traversal S entries)
      (fun pi => ((computePassF S codec smp entries m0).1 pi.2).warp_t_update.length) r
      (fun pi _ u hu => FloatVector3_length_nonneg _ u hu) hub (hatt hd)
    exact ⟨r, hr, hub, h2, h3⟩
  · obtain ⟨res, -, h2, h3, -⟩ :=
      UpdateWarpFieldF_defined rnd hrnd S codec smp entries m0 hcase
    exact ⟨_, h2, rfl, h3⟩
  · obtain ⟨r, hr, -, hub, hatt⟩ := runningMaxF_fold Prod.fst
      (fun st : (Nat → FloatGradientVoxel) × FloatWarpUpdateFunctor => st.2.maxWarpUpdateLength)
      Prod.snd (fun v : FloatGradientVoxel => v.gradient0.length)
      (warpsStepF learningRate enabled) (warpsStepF_frame learningRate enabled)
      (warpsStepF_max learningRate enabled) visits (g0, FloatWarpUpdateFunctor.init) 0 rfl
    obtain ⟨-, h2, h3⟩ := maximum_of_lengths visits
      (fun pi => ((UpdateWarpsF learningRate enabled visits g0).1 pi.2).gradient0.length) r
      (fun pi _ u hu => FloatVector3_length_nonneg _ u hu) hub (hatt hv)
    exact ⟨r, hr, hub, h2, h3⟩

/-- Witness for C18: one allocated block with the example live scene, and three voxels
visited by UpdateWarps, the second with a NaN in the third gradient component; the
returned value is a number that bounds the update length of the first voxel. -/
theorem returned_maximum_update_witness :
    ∃ r : ℚ, (UpdateWarpsF (FloatValue.num (1 / 10)) true
        [(⟨0, 0, 0⟩, 0), (⟨1, 0, 0⟩, 1), (⟨2, 0, 0⟩, 2)]
        (fun i => ⟨⟨FloatValue.num 0, FloatValue.num 0, FloatValue.num 0⟩,
          ⟨FloatValue.num 1, FloatValue.num 0, FloatValue.num 0⟩,
          ⟨FloatValue.num 0, FloatValue.num 3,
            if i = 1 then FloatValue.nan else FloatValue.num 0⟩⟩)).2 = FloatValue.num r ∧
      ∀ u, ((UpdateWarpsF (FloatValue.num (1 / 10)) true
        [(⟨0, 0, 0⟩, 0), (⟨1, 0, 0⟩, 1), (⟨2, 0, 0⟩, 2)]
        (fun i => ⟨⟨FloatValue.num 0, FloatValue.num 0, FloatValue.num 0⟩,
          ⟨FloatValue.num 1, FloatValue.num 0, FloatValue.num 0⟩,
          ⟨FloatValue.num 0, FloatValue.num 3,
            if i = 1 then FloatValue.nan else FloatValue.num 0⟩⟩)).1 0).gradient0.length =
          FloatValue.num u → u ≤ r := by
  obtain ⟨r, hr, hub, -⟩ := (returned_maximum_update 8 floatCodec steepFloatSampling
    [⟨⟨0, 0, 0⟩, 0⟩]
    (fun _ => ⟨FloatValue.num 0, 1, 1, ⟨0, 0, 0⟩, FloatValue.num 0,
      ⟨FloatValue.num 0, FloatValue.num 0, FloatValue.num 0⟩,
      ⟨FloatValue.num 0, FloatValue.num 0, FloatValue.num 0⟩⟩) (by decide)
    (FloatValue.num (1 / 10)) true [(⟨0, 0, 0⟩, 0), (⟨1, 0, 0⟩, 1), (⟨2, 0, 0⟩, 2)]
    (fun i => ⟨⟨FloatValue.num 0, FloatValue.num 0, FloatValue.num 0⟩,
      ⟨FloatValue.num 1, FloatValue.num 0, FloatValue.num 0⟩,
      ⟨FloatValue.num 0, FloatValue.num 3,
        if i = 1 then FloatValue.nan else FloatValue.num 0⟩⟩) (by decide)).2.2.2
  exact ⟨r, hr, hub (⟨0, 0, 0⟩, 0) (by simp)⟩

/-! ### The divisor of the level-set term -/

/-- C16: the level-set term never divides by zero.  deltaELevelSet is
(length(liveSdfJacobian) - 1) * (liveSdfHessian * liveSdfJacobian) divided by
length(liveSdfJacobian) + epsilon, and for every live gradient, the zero vector
included, this divisor is strictly positive (epsilon = FLT_EPSILON > 0), so the term
times the divisor is the dividend; deltaELevelSet is the zero vector whenever
length(liveSdfJacobian) = 1; and for a gradient with NaN components the divisor is NaN
or a positive number, never zero. -/
theorem deltaELevelSet_denominator_pos (liveSdfJacobian : Vector3f) (liveSdfHessian : Matrix3f) :
    0 < epsilon ∧ 0 < length liveSdfJacobian + epsilon ∧
      0 < length Vector3f.zero + epsilon ∧
      deltaELevelSet liveSdfJacobian liveSdfHessian =
        (Vector3f.smul (length liveSdfJacobian - 1)
          (liveSdfHessian.mulVec liveSdfJacobian)).sdiv (length liveSdfJacobian + epsilon) ∧
      Vector3f.smul (length liveSdfJacobian + epsilon)
          (deltaELevelSet liveSdfJacobian liveSdfHessian) =
        Vector3f.smul (length liveSdfJacobian - 1) (liveSdfHessian.mulVec liveSdfJacobian) ∧
      (length liveSdfJacobian = 1 →
        deltaELevelSet liveSdfJacobian liveSdfHessian = Vector3f.zero) ∧
      ∀ (J : FloatVector3) (d : ℚ),
        J.length.add (FloatValue.num epsilon) = FloatValue.num d → 0 < d := by
  have he : 0 < epsilon := by norm_num [epsilon]
  have hpos : 0 < length liveSdfJacobian + epsilon := by
    have := length_nonneg liveSdfJacobian
    linarith
  refine ⟨he, hpos, ?_, rfl, ?_, deltaELevelSet_of_unit _ _, ?_⟩
  · rw [length_zero]; linarith
  · have hne : length liveSdfJacobian + epsilon ≠ 0 := hpos.ne'
    ext <;> simp only [deltaELevelSet, Vector3f.smul, Vector3f.sdiv] <;> field_simp
  · intro J d hd
    cases hl : J.length with
    | nan => rw [hl] at hd; cases hd
    | num u =>
      rw [hl] at hd
      have hu := FloatVector3_length_nonneg J u hl
      simp only [FloatValue.add, FloatValue.num.injEq] at hd
      linarith

/-- Witness for C16: the unit gradient (1, 0, 0) with some Hessian. -/
theorem deltaELevelSet_denominator_pos_witness :
    deltaELevelSet ⟨1, 0, 0⟩ ⟨1, 2, 3, 2, 1, 0, 3, 0, 1⟩ = Vector3f.zero :=
  (deltaELevelSet_denominator_pos ⟨1, 0, 0⟩ ⟨1, 2, 3, 2, 1, 0, 3, 0, 1⟩).2.2.2.2.2.1
    (by rw [length_x_axis]; norm_num)

end ITMLib
